import Mathlib

/-!
# Virtual-memory manager of OShw4 (Pintos project 3): frame table, supplemental
# page table and swap store

A shallow embedding of `src/vm/swap.c`, `src/vm/frame.c` and `src/vm/page.c`.
Global C state becomes an explicit record that every operation takes and returns.
Results of the external services the code calls (physical-page allocator, `malloc`,
hardware page-table installation, file contents) are explicit arguments.
-/

namespace OShw4

/-! ## Machine-level conventions -/

/-- One byte of memory or of a device sector.  The code only copies bytes, so the
range of a byte plays no role and a byte is a natural number. -/
abbrev Byte := Nat

/-- Modelled from the spec: `PGSIZE` of `threads/vaddr.h` (header not in src); the
comment in `swap_out` and the spec scenario `100 + 3996` fix it to 4096 bytes. -/
def PGSIZE : Nat := 4096

/-- Modelled from the spec: `BLOCK_SECTOR_SIZE` of `devices/block.h` (header not in
src), the fixed sector size of the block device: 512 bytes. -/
def BLOCK_SECTOR_SIZE : Nat := 512

/-- The macro `SECTORS_PER_PAGE` of swap.c: `PGSIZE / BLOCK_SECTOR_SIZE`. -/
def SECTORS_PER_PAGE : Nat := PGSIZE / BLOCK_SECTOR_SIZE

/-- Conversion of a C `int` to the 32-bit `size_t`. -/
def to_size_t (x : Int) : Nat := (x % 4294967296).toNat

/-- Conversion `(int) n` of a 32-bit `size_t` to a C `int`. -/
def to_int (n : Nat) : Int :=
  if n % 4294967296 < 2147483648 then ((n % 4294967296 : Nat) : Int)
  else ((n % 4294967296 : Nat) : Int) - 4294967296

/-- The bytes `[off, off + len)` of a buffer, as `memcpy` out of it reads them. -/
def buf_read (p : List Byte) (off len : Nat) : List Byte := (p.drop off).take len

/-- The buffer after `data` has been stored at byte offset `off`. -/
def buf_write (p : List Byte) (off : Nat) (data : List Byte) : List Byte :=
  p.take off ++ data ++ p.drop (off + data.length)

/-! ## Swap store (swap.c) -/

/-- The statics of swap.c: the sectors of `swap_block` and the bits of
`swap_bitmap` (`true` = slot occupied). -/
structure SwapState where
  block : List (List Byte)
  bitmap : List Bool
deriving DecidableEq, Repr

/-- Modelled from the spec: `block_write` of the block-device driver (not in src):
stores one sector.  The driver refuses sectors past the end of the device. -/
def block_write (blk : List (List Byte)) (sector : Nat) (data : List Byte) :
    List (List Byte) :=
  blk.set sector data

/-- Modelled from the spec: `block_read` of the block-device driver (not in src):
the contents of one sector. -/
def block_read (blk : List (List Byte)) (sector : Nat) : List Byte :=
  blk.getD sector []

/-- Modelled from the spec: `bitmap_scan (b, 0, 1, false)` of the kernel bitmap
library (not in src): index of the first clear bit, `none` for `BITMAP_ERROR`. -/
def bitmap_scan : List Bool → Option Nat
  | [] => none
  | false :: _ => some 0
  | true :: rest => (bitmap_scan rest).map (· + 1)

/-- Modelled from the spec: `bitmap_reset` of the kernel bitmap library (not in
src): clears bit `idx`. -/
def bitmap_reset (b : List Bool) (idx : Nat) : List Bool := b.set idx false

/-- Modelled from the spec: `bitmap_mark`, as `bitmap_scan_and_flip` applies it to
the bit it found. -/
def bitmap_mark (b : List Bool) (idx : Nat) : List Bool := b.set idx true

/-- `swap_init`: binds the device and creates an all-clear bitmap of
`block_size / SECTORS_PER_PAGE` slots. -/
def swap_init (dev : List (List Byte)) : SwapState :=
  { block := dev, bitmap := List.replicate (dev.length / SECTORS_PER_PAGE) false }

/-- `swap_out`: first-fit scan, then `SECTORS_PER_PAGE` sector writes.  Returns the
new swap state and the `int` result (`-1` when no slot is free). -/
def swap_out (s : SwapState) (kpage : List Byte) : SwapState × Int :=
  match bitmap_scan s.bitmap with
  | none => (s, -1)
  | some slot =>
    let sector_ofs := (slot * SECTORS_PER_PAGE) % 4294967296
    let blk := (List.range SECTORS_PER_PAGE).foldl
      (fun b i => block_write b (sector_ofs + i)
        (buf_read kpage (i * BLOCK_SECTOR_SIZE) BLOCK_SECTOR_SIZE))
      s.block
    ({ block := blk, bitmap := bitmap_mark s.bitmap slot }, to_int slot)

/-- `swap_in`: `SECTORS_PER_PAGE` sector reads into `kpage`, then `bitmap_reset`.
Returns the new swap state and the filled buffer. -/
def swap_in (s : SwapState) (slot : Int) (kpage : List Byte) : SwapState × List Byte :=
  let sector_ofs := to_size_t (slot * SECTORS_PER_PAGE)
  let page := (List.range SECTORS_PER_PAGE).foldl
    (fun p i => buf_write p (i * BLOCK_SECTOR_SIZE) (block_read s.block (sector_ofs + i)))
    kpage
  ({ s with bitmap := bitmap_reset s.bitmap (to_size_t slot) }, page)

/-- `swap_free`: clears the slot's bit. -/
def swap_free (s : SwapState) (slot : Int) : SwapState :=
  { s with bitmap := bitmap_reset s.bitmap (to_size_t slot) }

/-- What `swap_init` establishes: every slot of the bitmap lies on the device, and
the device has fewer than `2^32` sectors (sector numbers are 32-bit). -/
def SwapWF (s : SwapState) : Prop :=
  s.bitmap.length * SECTORS_PER_PAGE ≤ s.block.length ∧ s.block.length < 4294967296

/-! ## Hardware page table (external collaborator) -/

/-- Modelled from the spec: one entry of the hardware page-table abstraction
(`userprog/pagedir.c`, not in src): the mapping of one virtual page together with
its accessed and dirty bits. -/
structure PTE where
  present : Bool
  kpage : Nat
  writable : Bool
  accessed : Bool
  dirty : Bool
deriving DecidableEq, Repr

/-- The page directories of all threads: `(thread, page-aligned address) ↦ PTE`.
A thread's `pagedir` pointer is identified with the thread. -/
abbrev PageDirs := Nat × Nat → PTE

/-- Modelled from the spec: `pg_round_down` of `threads/vaddr.h` (not in src). -/
def pg_round_down (va : Nat) : Nat := va / PGSIZE * PGSIZE

/-- Modelled from the spec: `is_accessed(space, vaddr)`. -/
def pagedir_is_accessed (pd : PageDirs) (t vpage : Nat) : Bool :=
  (pd (t, pg_round_down vpage)).accessed

/-- Modelled from the spec: `set_accessed(space, vaddr, bool)`. -/
def pagedir_set_accessed (pd : PageDirs) (t vpage : Nat) (b : Bool) : PageDirs :=
  Function.update pd (t, pg_round_down vpage)
    { pd (t, pg_round_down vpage) with accessed := b }

/-- Modelled from the spec: `is_dirty(space, vaddr)`. -/
def pagedir_is_dirty (pd : PageDirs) (t vpage : Nat) : Bool :=
  (pd (t, pg_round_down vpage)).dirty

/-- Modelled from the spec: `clear_mapping(space, vaddr)`: the page is marked not
present. -/
def pagedir_clear_page (pd : PageDirs) (t upage : Nat) : PageDirs :=
  Function.update pd (t, pg_round_down upage)
    { pd (t, pg_round_down upage) with present := false }

/-- Modelled from the spec: `set_mapping(space, vaddr, paddr, writable) -> bool`.
Whether the installation succeeds is decided outside the core (it fails when no
page-table page can be allocated), hence the argument `ok`.  A fresh mapping has
its accessed and dirty bits clear. -/
def pagedir_set_page (pd : PageDirs) (t upage kpage : Nat) (writable ok : Bool) :
    PageDirs × Bool :=
  if ok then
    (Function.update pd (t, pg_round_down upage)
      { present := true, kpage := kpage, writable := writable,
        accessed := false, dirty := false }, true)
  else (pd, false)

/-! ## Data model (frame.h, page.h) -/

/-- The struct `frame` of frame.h, without its list element. -/
structure Frame where
  kpage : Nat
  uaddr : Nat
  t : Nat
  pinned : Bool
deriving DecidableEq, Repr

/-- The enum `page_type` of page.h. -/
inductive PageType where
  | PAGE_FILE
  | PAGE_ZERO
  | PAGE_SWAP
  | PAGE_MMAP
deriving DecidableEq, Repr

/-- The struct `sup_page` of page.h, without its list element.  `file` is a file
handle (0 for `NULL`). -/
structure SupPage where
  uaddr : Nat
  type : PageType
  file : Nat
  ofs : Nat
  read_bytes : Nat
  zero_bytes : Nat
  writable : Bool
  swap_slot : Int
deriving DecidableEq, Repr

/-- The whole state the three modules work on.

* `frame_list` holds the addresses of the `struct frame`s linked into the global
  list, in list order; `frames` is the heap that holds the structs.
* `clock_hand` is `none` for `NULL`, otherwise the address of a frame.
* `sup_page_list t` is the entry list of thread `t`; an entry pointer is a
  position in that list.
* `mem k` are the bytes of the physical page at kernel address `k`.
* `files h` are the bytes of the open file with handle `h`. -/
structure State where
  frame_list : List Nat
  frames : Nat → Frame
  clock_hand : Option Nat
  pagedir : PageDirs
  sup_page_list : Nat → List SupPage
  swap : SwapState
  mem : Nat → List Byte
  files : Nat → List Byte

/-! ## Supplemental page table (page.c) -/

/-- The loop of `sup_page_lookup` over an entry list: position of the first entry
whose `uaddr` equals `page_u`. -/
def lookup_loop (page_u : Nat) : List SupPage → Option Nat
  | [] => none
  | sp :: rest =>
    if sp.uaddr = page_u then some 0 else (lookup_loop page_u rest).map (· + 1)

/-- `sup_page_lookup`: the entry pointer (position in the list of `t`) or `none`
for `NULL`. -/
def sup_page_lookup (s : State) (t uaddr : Nat) : Option Nat :=
  lookup_loop (pg_round_down uaddr) (s.sup_page_list t)

/-- The entry an entry pointer designates. -/
def sup_page_get (s : State) (t sp : Nat) : SupPage :=
  (s.sup_page_list t).getD sp
    { uaddr := 0, type := PageType.PAGE_ZERO, file := 0, ofs := 0, read_bytes := 0,
      zero_bytes := 0, writable := false, swap_slot := -1 }

/-- Stores a new value in the entry an entry pointer designates. -/
def sup_page_set (s : State) (t sp : Nat) (e : SupPage) : State :=
  { s with sup_page_list := Function.update s.sup_page_list t ((s.sup_page_list t).set sp e) }

/-- `sup_page_install`; `malloc_ok` tells whether `malloc` returned a record. -/
def sup_page_install (s : State) (t uaddr : Nat) (type : PageType) (file ofs : Nat)
    (read_bytes zero_bytes : Nat) (writable : Bool) (malloc_ok : Bool) : State × Bool :=
  if !malloc_ok then (s, false)
  else
    let sp : SupPage :=
      { uaddr := pg_round_down uaddr, type := type, file := file, ofs := ofs,
        read_bytes := read_bytes, zero_bytes := zero_bytes, writable := writable,
        swap_slot := -1 }
    ({ s with sup_page_list :=
        Function.update s.sup_page_list t (s.sup_page_list t ++ [sp]) }, true)

/-- `sup_page_update_swap`. -/
def sup_page_update_swap (s : State) (t uaddr : Nat) (slot : Int) : State :=
  match sup_page_lookup s t uaddr with
  | some sp =>
    sup_page_set s t sp
      { sup_page_get s t sp with type := PageType.PAGE_SWAP, swap_slot := slot }
  | none => s

/-! ## Frame table (frame.c) -/

/-- The step `e = list_next (e); if (e == list_end (&frame_list)) e = list_begin
(&frame_list);` that frame.c uses three times, on the list element of frame `e`.
This is the step for a frame that is linked into the list.  An element that was
unlinked keeps the `next` pointer it had; for it the definition gives the first frame
of the list, which is where the C step arrives when the element was unlinked as the last
one of the list, and for no other unlinked element is the value meant to be used. -/
def ring_next (l : List Nat) (e : Nat) : Nat :=
  match l.drop (l.indexOf e + 1) with
  | x :: _ => x
  | [] => l.headD e

/-- `frame_free`: unlinks the frame; its page and struct go back to the
allocators, which are outside the state. -/
def frame_free (s : State) (f : Nat) : State :=
  { s with frame_list := s.frame_list.erase f }

/-- `evict_frame`. -/
def evict_frame (s : State) (victim : Nat) : State :=
  let t := (s.frames victim).t
  let uaddr := (s.frames victim).uaddr
  let s1 :=
    if pagedir_is_dirty s.pagedir t uaddr then
      let r := swap_out s.swap (s.mem (s.frames victim).kpage)
      sup_page_update_swap { s with swap := r.1 } t uaddr r.2
    else s
  let s2 := { s1 with pagedir := pagedir_clear_page s1.pagedir t uaddr }
  { s2 with frame_list := s2.frame_list.erase victim }

/-- The first `do ... while (clock_hand != start)` loop of `select_victim_frame`
(second-chance sweep).  Returns the page directories, the clock hand and the
victim at loop exit.  `fuel` bounds the rounds.  With the hand on a frame that is
linked into a duplicate-free list the loop makes at most `length frame_list` rounds
(`sweeps_fuel_enough`), which is the fuel `select_from` gives it.  With the hand on an
unlinked frame the C loop has no such bound and runs its body at least once also on an
empty list; of such a run the definition represents the rounds within the fuel only. -/
def clock_sweep (l : List Nat) (frames : Nat → Frame) (start : Nat) :
    Nat → Nat → PageDirs → PageDirs × Nat × Option Nat
  | 0, hand, pd => (pd, hand, none)
  | fuel + 1, hand, pd =>
    let f := frames hand
    if !f.pinned && !pagedir_is_accessed pd f.t f.uaddr then (pd, hand, some hand)
    else
      let pd1 := if !f.pinned then pagedir_set_accessed pd f.t f.uaddr false else pd
      let next := ring_next l hand
      if next ≠ start then clock_sweep l frames start fuel next pd1
      else (pd1, next, none)

/-- The second `do ... while (elem != clock_hand)` loop of `select_victim_frame`:
the first frame that is not pinned, starting at the hand.  `fuel` bounds the rounds as
in `clock_sweep`. -/
def fifo_sweep (l : List Nat) (frames : Nat → Frame) (hand : Nat) : Nat → Nat → Option Nat
  | 0, _ => none
  | fuel + 1, elem =>
    if !(frames elem).pinned then some elem
    else
      let next := ring_next l elem
      if next ≠ hand then fifo_sweep l frames hand fuel next else none

/-- The part of `select_victim_frame` below the first-call set-up, from `start =
clock_hand` on: both loops and the move of the hand behind the victim. -/
def select_from (s : State) (start : Nat) : State × Option Nat :=
  let l := s.frame_list
  let r := clock_sweep l s.frames start l.length start s.pagedir
  let victim := match r.2.2 with
    | some v => some v
    | none => fifo_sweep l s.frames r.2.1 l.length r.2.1
  let hand := match victim with
    | some v => ring_next l v
    | none => r.2.1
  ({ s with pagedir := r.1, clock_hand := some hand }, victim)

/-- `select_victim_frame`: returns the new state and the victim (`none` for
`NULL`).  With the hand unset, an empty list gives `NULL` at once and otherwise the
hand is put on the first frame. -/
def select_victim_frame (s : State) : State × Option Nat :=
  match s.clock_hand with
  | none =>
    match s.frame_list.head? with
    | none => (s, none)
    | some b => select_from s b
  | some h => select_from s h

/-- `frame_alloc (uaddr)` run by thread `cur`.  `palloc` is the result of
`palloc_get_page (PAL_USER)` and `malloc` the address `malloc` returns for a new
`struct frame` (`none` for `NULL`). -/
def frame_alloc (s : State) (cur uaddr : Nat) (palloc malloc : Option Nat) :
    State × Option Nat :=
  match palloc with
  | none =>
    match select_victim_frame s with
    | (s1, none) => (s1, none)
    | (s1, some victim) =>
      let s2 := evict_frame s1 victim
      let v : Frame := { s2.frames victim with uaddr := uaddr, t := cur, pinned := false }
      let s3 := { s2 with frames := Function.update s2.frames victim v }
      ({ s3 with frame_list := s3.frame_list ++ [victim] }, some victim)
  | some kpage =>
    match malloc with
    | none => (s, none)
    | some f =>
      let v : Frame := { kpage := kpage, uaddr := uaddr, t := cur, pinned := false }
      let s1 := { s with
        frames := Function.update s.frames f v, frame_list := s.frame_list ++ [f] }
      let s2 := match s1.clock_hand with
        | none => { s1 with clock_hand := s1.frame_list.head? }
        | some _ => s1
      (s2, some f)

/-- `frame_lookup_by_kpage`. -/
def frame_lookup_by_kpage (s : State) (kpage : Nat) : Option Nat :=
  s.frame_list.find? (fun f => (s.frames f).kpage == kpage)

/-! ## Loading a page (page.c) -/

/-- Modelled from the spec: `file_seek (file, ofs)` followed by `file_read (file,
buffer, size)` of the file system (not in src): the bytes the read delivers, which
are fewer than `size` when the file ends early; the read returns their number. -/
def file_read_at (content : List Byte) (ofs : Nat) (size : Int) : List Byte :=
  (content.drop ofs).take size.toNat

/-- The assignment `f->pinned = b`. -/
def frame_set_pinned (s : State) (f : Nat) (b : Bool) : State :=
  let v : Frame := { s.frames f with pinned := b }
  { s with frames := Function.update s.frames f v }

/-- A store of `data` at byte offset `off` of the physical page `kpage`. -/
def mem_store (s : State) (kpage off : Nat) (data : List Byte) : State :=
  { s with mem := Function.update s.mem kpage (buf_write (s.mem kpage) off data) }

/-- The assignments `f->uaddr = sp->uaddr; f->t = t; f->pinned = false;` that end
every successful case of `sup_page_load`. -/
def frame_finish (s : State) (f uaddr t : Nat) : State :=
  let v : Frame := { s.frames f with uaddr := uaddr, t := t, pinned := false }
  { s with frames := Function.update s.frames f v }

/-- `sup_page_load (t, sp)` run by thread `cur`; `sp` is a position in the entry
list of `t`.  `palloc` and `malloc` are the allocator results `frame_alloc` gets,
`set_ok` tells whether `pagedir_set_page` succeeds.  Fields of `*sp` are read at
the point where the C code reads them. -/
def sup_page_load (s : State) (cur t sp : Nat) (palloc malloc : Option Nat)
    (set_ok : Bool) : State × Bool :=
  match (sup_page_get s t sp).type with
  | PageType.PAGE_FILE =>
    match frame_alloc s cur (sup_page_get s t sp).uaddr palloc malloc with
    | (s1, none) => (s1, false)
    | (s1, some f) =>
      let s2 := frame_set_pinned s1 f true
      let kpage := (s2.frames f).kpage
      let e := sup_page_get s2 t sp
      let data := file_read_at (s2.files e.file) e.ofs (to_int e.read_bytes)
      let s3 := mem_store s2 kpage 0 data
      if (data.length : Int) ≠ to_int e.read_bytes then (frame_free s3 f, false)
      else
        let s4 := mem_store s3 kpage e.read_bytes (List.replicate e.zero_bytes 0)
        match pagedir_set_page s4.pagedir t e.uaddr kpage e.writable set_ok with
        | (_, false) => (frame_free s4 f, false)
        | (pd, true) => (frame_finish { s4 with pagedir := pd } f e.uaddr t, true)
  | PageType.PAGE_ZERO =>
    match frame_alloc s cur (sup_page_get s t sp).uaddr palloc malloc with
    | (s1, none) => (s1, false)
    | (s1, some f) =>
      let kpage := (s1.frames f).kpage
      let e := sup_page_get s1 t sp
      let s2 := mem_store s1 kpage 0 (List.replicate PGSIZE 0)
      match pagedir_set_page s2.pagedir t e.uaddr kpage e.writable set_ok with
      | (_, false) => (frame_free s2 f, false)
      | (pd, true) => (frame_finish { s2 with pagedir := pd } f e.uaddr t, true)
  | PageType.PAGE_SWAP =>
    match frame_alloc s cur (sup_page_get s t sp).uaddr palloc malloc with
    | (s1, none) => (s1, false)
    | (s1, some f) =>
      let kpage := (s1.frames f).kpage
      let r := swap_in s1.swap (sup_page_get s1 t sp).swap_slot (s1.mem kpage)
      let s2 := { s1 with swap := r.1, mem := Function.update s1.mem kpage r.2 }
      let s3 := sup_page_set s2 t sp { sup_page_get s2 t sp with swap_slot := -1 }
      let e := sup_page_get s3 t sp
      match pagedir_set_page s3.pagedir t e.uaddr kpage e.writable set_ok with
      | (_, false) => (frame_free s3 f, false)
      | (pd, true) => (frame_finish { s3 with pagedir := pd } f e.uaddr t, true)
  | PageType.PAGE_MMAP =>
    match frame_alloc s cur (sup_page_get s t sp).uaddr palloc malloc with
    | (s1, none) => (s1, false)
    | (s1, some f) =>
      let s2 := frame_set_pinned s1 f true
      let kpage := (s2.frames f).kpage
      let e := sup_page_get s2 t sp
      let data := file_read_at (s2.files e.file) e.ofs (to_int e.read_bytes)
      let s3 := mem_store s2 kpage 0 data
      if (data.length : Int) ≠ to_int e.read_bytes then (frame_free s3 f, false)
      else
        let s4 := mem_store s3 kpage e.read_bytes (List.replicate e.zero_bytes 0)
        match pagedir_set_page s4.pagedir t e.uaddr kpage e.writable set_ok with
        | (_, false) => (frame_free s4 f, false)
        | (pd, true) => (frame_finish { s4 with pagedir := pd } f e.uaddr t, true)

/-! ## Removing entries, stack growth and fault dispatch (page.c) -/

/-- `sup_page_remove (t, sp)`: unlinks the entry at position `sp` of the list of `t`;
no swap slot is touched. -/
def sup_page_remove (s : State) (t sp : Nat) : State :=
  { s with sup_page_list :=
      Function.update s.sup_page_list t ((s.sup_page_list t).eraseIdx sp) }

/-- The `while` loop of `sup_page_destroy` as far as the swap store sees it: every
entry with `type == PAGE_SWAP && swap_slot != -1` has its slot freed. -/
def destroy_loop (sw : SwapState) : List SupPage → SwapState
  | [] => sw
  | sp :: rest =>
    destroy_loop
      (if sp.type = PageType.PAGE_SWAP ∧ sp.swap_slot ≠ -1 then swap_free sw sp.swap_slot
       else sw)
      rest

/-- `sup_page_destroy (t)`: frees the slots the entries of `t` hold and removes every
entry of `t`. -/
def sup_page_destroy (s : State) (t : Nat) : State :=
  { s with swap := destroy_loop s.swap (s.sup_page_list t),
           sup_page_list := Function.update s.sup_page_list t [] }

/-- The macro `STACK_LIMIT` of page.c: `1 << 20`. -/
def STACK_LIMIT : Nat := 1048576

/-- Modelled from the spec: `PHYS_BASE` of `threads/vaddr.h` (header not in src), the
page-aligned top of user virtual memory; Pintos sets it to `0xc0000000`. -/
def PHYS_BASE : Nat := 3221225472

/-- `vm_stack_growth (addr)` run by thread `cur`; the result of `sup_page_install` is
dropped, as in the source. -/
def vm_stack_growth (s : State) (cur addr : Nat) (malloc_ok : Bool) : State :=
  let page_addr := pg_round_down addr
  if page_addr < PHYS_BASE - STACK_LIMIT then s
  else
    (sup_page_install s cur page_addr PageType.PAGE_ZERO 0 0 0 PGSIZE true malloc_ok).1

/-- `vm_try_handle_fault (f, addr, user, write, not_present)` run by thread `cur`
whose `saved_esp` is given.  The trap frame `f` is not used by the source and is left
out.  Addresses are 32-bit, so `esp - 32` wraps around below 32. -/
def vm_try_handle_fault (s : State) (cur saved_esp addr : Nat)
    (user _write not_present : Bool) (malloc_ok : Bool) : State × Bool :=
  if user && not_present then
    if (saved_esp + 4294967296 - 32) % 4294967296 ≤ addr ∧
        PHYS_BASE - STACK_LIMIT ≤ addr ∧ addr < PHYS_BASE then
      (vm_stack_growth s cur addr malloc_ok, true)
    else (s, false)
  else (s, false)

/-! ## Reachable states and the slot invariants -/

/-- The lines 55 to 57 of `evict_frame` on their own: `swap_out` of a page, then
`sup_page_update_swap` with the slot `swap_out` returned. -/
def swap_out_update (s : State) (page : List Byte) (t uaddr : Nat) : State :=
  sup_page_update_swap { s with swap := (swap_out s.swap page).1 } t uaddr
    (swap_out s.swap page).2

/-- The lines 163 and 164 of `sup_page_load` on their own: `swap_in` of the slot of the
entry into the page `kpage`, then `sp->swap_slot = -1`. -/
def swap_in_clear (s : State) (t sp kpage : Nat) : State :=
  let r := swap_in s.swap (sup_page_get s t sp).swap_slot (s.mem kpage)
  let s2 : State := { s with swap := r.1, mem := Function.update s.mem kpage r.2 }
  sup_page_set s2 t sp { sup_page_get s2 t sp with swap_slot := -1 }

/-- The states the system reaches from one with empty tables (and a swap state as
`swap_init` sets it up) through install, load, evict, update-after-swap as the frame
table performs it, remove and destroy; `other` stands for every step that leaves the
entry lists and the swap store alone: the hardware setting accessed and dirty bits,
user programs writing to memory, frame-table steps that do not evict. -/
inductive Reachable : State → Prop where
  | init (s : State) (hwf : SwapWF s.swap) (hempty : ∀ t, s.sup_page_list t = []) :
      Reachable s
  | install (s : State) (t uaddr : Nat) (type : PageType) (file ofs : Nat)
      (read_bytes zero_bytes : Nat) (writable malloc_ok : Bool) :
      Reachable s →
      Reachable
        (sup_page_install s t uaddr type file ofs read_bytes zero_bytes writable malloc_ok).1
  | load (s : State) (cur t sp : Nat) (palloc malloc : Option Nat) (set_ok : Bool) :
      Reachable s → Reachable (sup_page_load s cur t sp palloc malloc set_ok).1
  | evict (s : State) (victim : Nat) : Reachable s → Reachable (evict_frame s victim)
  | update_after_swap (s : State) (page : List Byte) (t uaddr : Nat) :
      Reachable s → Reachable (swap_out_update s page t uaddr)
  | remove (s : State) (t sp : Nat) : Reachable s → Reachable (sup_page_remove s t sp)
  | destroy (s : State) (t : Nat) : Reachable s → Reachable (sup_page_destroy s t)
  | other (s s1 : State) (hl : s1.sup_page_list = s.sup_page_list) (hs : s1.swap = s.swap) :
      Reachable s → Reachable s1

/-- The states reached when `sup_page_update_swap` is in addition called directly, with
any slot value, as no caller in the code does. -/
inductive ReachableFree : State → Prop where
  | base (s : State) : Reachable s → ReachableFree s
  | update_swap (s : State) (t uaddr : Nat) (slot : Int) :
      ReachableFree s → ReachableFree (sup_page_update_swap s t uaddr slot)

/-- The slot value `v` is the index of a bit of the bitmap, and the bit is set. -/
def SlotHeld (sw : SwapState) (v : Int) : Prop :=
  0 ≤ v ∧ v < (sw.bitmap.length : Int) ∧ sw.bitmap[v.toNat]? = some true

/-- Every entry holds `-1`, or is swapped-out and holds an occupied slot of the
bitmap. -/
def SlotsOK (s : State) : Prop :=
  ∀ t, ∀ e ∈ s.sup_page_list t,
    e.swap_slot = -1 ∨ (e.type = PageType.PAGE_SWAP ∧ SlotHeld s.swap e.swap_slot)

/-- No two entries, of one table or of two, are swapped-out with the same slot of the
bitmap. -/
def SlotsExclusive (s : State) : Prop :=
  ∀ (t1 i1 t2 i2 : Nat) (e1 e2 : SupPage),
    (s.sup_page_list t1)[i1]? = some e1 → (s.sup_page_list t2)[i2]? = some e2 →
    e1.type = PageType.PAGE_SWAP → e2.type = PageType.PAGE_SWAP →
    e1.swap_slot = e2.swap_slot →
    0 ≤ e1.swap_slot → e1.swap_slot < (s.swap.bitmap.length : Int) →
    t1 = t2 ∧ i1 = i2

/-- The invariant of the reachable states. -/
def SlotInv (s : State) : Prop :=
  SwapWF s.swap ∧ SlotsOK s ∧ SlotsExclusive s

/-! ## Well-formedness of states -/

/-- The clock hand is `NULL` or points at a frame that is linked into the frame
list. -/
def HandOK (s : State) : Prop :=
  ∀ h ∈ s.clock_hand, h ∈ s.frame_list

instance (s : State) : Decidable (HandOK s) := by
  unfold HandOK; infer_instance

/-- The hardware accessed bit of the page a frame backs, as `select_victim_frame`
queries it. -/
def frame_accessed (s : State) (f : Nat) : Bool :=
  pagedir_is_accessed s.pagedir (s.frames f).t (s.frames f).uaddr

/-- The frame met after `k` steps in ring order from frame `h` (`none` when the list is
empty). -/
def ring_at (l : List Nat) (h k : Nat) : Option Nat :=
  l[(l.indexOf h + k) % l.length]?

/-- The page-table key of the page a frame backs: owner and page-aligned address. -/
def frame_key (s : State) (f : Nat) : Nat × Nat :=
  ((s.frames f).t, pg_round_down (s.frames f).uaddr)

/-- The fields of an entry that say where its page comes from and how it is mapped:
everything but the kind and the swap slot. -/
def SupPage.backing (e : SupPage) : Nat × Nat × Nat × Nat × Nat × Bool :=
  (e.uaddr, e.file, e.ofs, e.read_bytes, e.zero_bytes, e.writable)

/-! ## Sample states -/

/-- A state with the given registry, frame heap, hand and page directories, and
nothing else: no entries, an empty swap device, empty memory and files. -/
def sample_state (l : List Nat) (fr : Nat → Frame) (hand : Option Nat) (pd : PageDirs) :
    State :=
  { frame_list := l, frames := fr, clock_hand := hand, pagedir := pd,
    sup_page_list := fun _ => [], swap := { block := [], bitmap := [] },
    mem := fun _ => [], files := fun _ => [] }

/-- Frame heap of the samples: the frame at address `a` holds physical page `a *
PGSIZE` for user page `a * PGSIZE` of thread 1; the frames in `pins` are pinned. -/
def sample_frames (pins : List Nat) : Nat → Frame :=
  fun a => { kpage := a * 4096, uaddr := a * 4096, t := 1, pinned := decide (a ∈ pins) }

/-- Page directories of the samples: every page is mapped; the user pages `a *
PGSIZE` for `a` in `acc` have their accessed bit set. -/
def sample_pagedir (acc : List Nat) : PageDirs :=
  fun k => { present := true, kpage := k.2, writable := true,
             accessed := decide (k.2 ∈ acc.map (· * 4096)), dirty := false }

/-- Three frames, all pinned but frame 20, all accessed, hand on frame 30. -/
def sample_one_unpinned : State :=
  sample_state [10, 20, 30] (sample_frames [10, 30]) (some 30) (sample_pagedir [10, 20, 30])

/-- Three frames 10, 20, 30, all pinned and all accessed, hand on frame 20. -/
def sample_all_pinned : State :=
  sample_state [10, 20, 30] (sample_frames [10, 20, 30]) (some 20)
    (sample_pagedir [10, 20, 30])

/-- The clock scenario of the spec: four frames 10, 20, 30, 40 in ring order, none
pinned, accessed bits 1, 1, 0, 1, hand on the first. -/
def sample_clock : State :=
  sample_state [10, 20, 30, 40] (sample_frames []) (some 10) (sample_pagedir [10, 20, 40])

/-- One registered frame (address 10, physical page `10 * PGSIZE` filled with the
byte 7, backing user page `10 * PGSIZE` of thread 1) whose mapping is dirty, a
zero-fill entry for that page in the table of thread 1, and a swap device of eight
sectors, that is one slot, with the given occupancy bitmap. -/
def sample_dirty (bitmap : List Bool) : State :=
  { frame_list := [10], frames := sample_frames [], clock_hand := some 10,
    pagedir := fun k => { present := true, kpage := k.2, writable := true,
                          accessed := false, dirty := true },
    sup_page_list := fun t =>
      if t = 1 then
        [{ uaddr := 40960, type := PageType.PAGE_ZERO, file := 0, ofs := 0, read_bytes := 0,
           zero_bytes := 4096, writable := true, swap_slot := -1 }]
      else [],
    swap := { block := List.replicate 8 [], bitmap := bitmap },
    mem := fun _ => List.replicate 4096 7, files := fun _ => [] }

/-- The load scenario of the spec: thread 1 has a read-only file-backed entry for user
page `10 * PGSIZE` with `read_bytes = 100`, `zero_bytes = 3996` at offset 20 of file 5,
which holds the bytes 0 to 199; no frame is registered yet and memory is filled with
the byte 7. -/
def sample_file_entry : State :=
  { frame_list := [], frames := sample_frames [], clock_hand := none,
    pagedir := fun _ => { present := false, kpage := 0, writable := false,
                          accessed := false, dirty := false },
    sup_page_list := fun t =>
      if t = 1 then
        [{ uaddr := 40960, type := PageType.PAGE_FILE, file := 5, ofs := 20,
           read_bytes := 100, zero_bytes := 3996, writable := false, swap_slot := -1 }]
      else [],
    swap := { block := [], bitmap := [] },
    mem := fun _ => List.replicate 4096 7,
    files := fun h => if h = 5 then List.range 200 else [] }

/-- No frame is registered; thread 1 has one swapped-out entry, for user page `10 *
PGSIZE`, that holds slot 1 of a two-slot swap device whose slots are both taken and
whose sectors are filled with the byte 9; memory is filled with the byte 7. -/
def sample_swapped : State :=
  { frame_list := [], frames := sample_frames [], clock_hand := none,
    pagedir := fun _ => { present := false, kpage := 0, writable := false,
                          accessed := false, dirty := false },
    sup_page_list := fun t =>
      if t = 1 then
        [{ uaddr := 40960, type := PageType.PAGE_SWAP, file := 0, ofs := 0, read_bytes := 0,
           zero_bytes := 0, writable := true, swap_slot := 1 }]
      else [],
    swap := { block := List.replicate 16 (List.replicate 512 9), bitmap := [true, true] },
    mem := fun _ => List.replicate 4096 7, files := fun _ => [] }

/-- The empty system: no frame, no entry, an all-free swap device of two slots whose
sectors are filled with the byte 9, nothing mapped, memory filled with the byte 7. -/
def sample_empty : State :=
  { frame_list := [], frames := sample_frames [], clock_hand := none,
    pagedir := fun _ => { present := false, kpage := 0, writable := false,
                          accessed := false, dirty := false },
    sup_page_list := fun _ => [],
    swap := { block := List.replicate 16 (List.replicate 512 9), bitmap := [false, false] },
    mem := fun _ => List.replicate 4096 7, files := fun _ => [] }

/-- The page directories after a user program has written to every page: all dirty
bits are set. -/
def mark_dirty (pd : PageDirs) : PageDirs :=
  fun k => { pd k with dirty := true }

/-- The empty system after thread 1 installed a zero-fill entry for user page `10 *
PGSIZE`. -/
def sample_installed : State :=
  (sup_page_install sample_empty 1 40960 PageType.PAGE_ZERO 0 0 0 4096 true true).1

/-- `sample_installed` after the entry was loaded into the fresh frame 10 on the
physical page `20 * PGSIZE`. -/
def sample_loaded : State :=
  (sup_page_load sample_installed 1 1 0 (some 81920) (some 10) true).1

/-- `sample_loaded` after the user program wrote to its page: the mapping is dirty. -/
def sample_written : State :=
  { sample_loaded with pagedir := mark_dirty sample_loaded.pagedir }

/-- `sample_written` after frame 10 was evicted: its page is in swap slot 0. -/
def sample_evicted : State :=
  evict_frame sample_written 10

/-- `sample_evicted` after the entry was loaded again, into the fresh frame 11 on the
physical page `20 * PGSIZE`. -/
def sample_reloaded : State :=
  (sup_page_load sample_evicted 1 1 0 (some 81920) (some 11) true).1

/-- `sample_evicted` after thread 1 installed an entry for user page `30 * PGSIZE` and
a page filled with the byte 5 was swapped out for it. -/
def sample_two_swapped : State :=
  swap_out_update
    (sup_page_install sample_evicted 1 122880 PageType.PAGE_ZERO 0 0 0 4096 true true).1
    (List.replicate 4096 5) 1 122880

/-- The empty system after thread 1 allocated its first frame: `frame_alloc` got the
physical page `10 * PGSIZE` and the frame struct at address 10, linked the frame and
put the hand, which was `NULL`, on it. -/
def sample_first_frame : State :=
  (frame_alloc sample_empty 1 40960 (some 40960) (some 10)).1

/-- `sample_installed` after a load of its entry in which `pagedir_set_page` failed:
`frame_alloc` got the physical page `20 * PGSIZE` and the frame struct at address 20,
linked the frame and put the hand, which was `NULL`, on it; the failure path freed the
frame again. -/
def sample_failed_load : State :=
  (sup_page_load sample_installed 1 1 0 (some 81920) (some 20) false).1

/-- `sample_failed_load` after the load was tried again and succeeded: the allocator
gave the physical page `20 * PGSIZE` once more and the frame struct at address 40. -/
def sample_stale_hand : State :=
  (sup_page_load sample_failed_load 1 1 0 (some 81920) (some 40) true).1

/-- `sample_stale_hand` while frame 40 is pinned. -/
def sample_stale_hand_pinned : State :=
  frame_set_pinned sample_stale_hand 40 true

/-- Every table holds at most one entry per page-aligned address. -/
def SptUnique (s : State) : Prop :=
  ∀ t, ((s.sup_page_list t).map (fun e => e.uaddr)).Nodup

/-! ## Swap store: lemmas and the round trip -/

theorem bitmap_scan_spec (b : List Bool) :
    (∀ i, bitmap_scan b = some i →
      i < b.length ∧ b[i]? = some false ∧ ∀ j, j < i → b[j]? = some true) ∧
    (bitmap_scan b = none → false ∉ b) := by
  induction b with
  | nil => simp [bitmap_scan]
  | cons x rest ih =>
    cases x with
    | false =>
      refine ⟨?_, by simp [bitmap_scan]⟩
      intro i hi
      simp [bitmap_scan] at hi
      subst hi
      simp
    | true =>
      refine ⟨?_, ?_⟩
      · intro i hi
        simp only [bitmap_scan, Option.map_eq_some'] at hi
        obtain ⟨k, hk, rfl⟩ := hi
        obtain ⟨h1, h2, h3⟩ := ih.1 k hk
        refine ⟨by simpa using h1, by simpa using h2, ?_⟩
        intro j hj
        cases j with
        | zero => simp
        | succ j => simpa using h3 j (by omega)
      · intro h
        simp only [bitmap_scan, Option.map_eq_none'] at h
        simpa using ih.2 h

theorem bitmap_scan_of_mem (b : List Bool) (h : false ∈ b) :
    ∃ i, bitmap_scan b = some i := by
  cases hs : bitmap_scan b with
  | none => exact absurd h ((bitmap_scan_spec b).2 hs)
  | some i => exact ⟨i, rfl⟩

/-- The sector-write loop of `swap_out`, run for `n` rounds. -/
theorem write_loop_spec (g : Nat → List Byte) (ofs : Nat) (n : Nat) (blk : List (List Byte))
    (hn : ofs + n ≤ blk.length) :
    ((List.range n).foldl (fun b i => block_write b (ofs + i) (g i)) blk).length = blk.length ∧
    (∀ i, i < n →
      block_read ((List.range n).foldl (fun b i => block_write b (ofs + i) (g i)) blk) (ofs + i)
        = g i) ∧
    (∀ j, (j < ofs ∨ ofs + n ≤ j) →
      ((List.range n).foldl (fun b i => block_write b (ofs + i) (g i)) blk)[j]? = blk[j]?) := by
  induction n with
  | zero => simp
  | succ n ih =>
    obtain ⟨h1, h2, h3⟩ := ih (by omega)
    simp only [List.range_succ, List.foldl_append, List.foldl_cons, List.foldl_nil]
    generalize (List.range n).foldl (fun b i => block_write b (ofs + i) (g i)) blk = F at h1 h2 h3
    refine ⟨by simp [block_write, h1], ?_, ?_⟩
    · intro i hi
      by_cases hin : i = n
      · subst hin
        have hlt : ofs + i < F.length := by omega
        simp [block_read, block_write, List.getD_eq_getElem?_getD, List.getElem?_set, hlt]
      · have := h2 i (by omega)
        simp only [block_read, block_write, List.getD_eq_getElem?_getD] at this ⊢
        rw [List.getElem?_set_ne (by omega)]
        exact this
    · intro j hj
      simp only [block_write]
      rw [List.getElem?_set_ne (by omega)]
      exact h3 j (by omega)

/-- The sector-read loop of `swap_in`, run for `n` rounds on sectors that hold the
slices of `B`. -/
theorem read_loop_spec (c : Nat) (B D : List Byte) (sec : Nat → List Byte)
    (n : Nat) (hn : n * c ≤ B.length)
    (hsec : ∀ i, i < n → sec i = buf_read B (i * c) c) :
    (List.range n).foldl (fun p i => buf_write p (i * c) (sec i)) D
      = B.take (n * c) ++ D.drop (n * c) := by
  induction n with
  | zero => simp
  | succ n ih =>
    have e1 : (n + 1) * c = n * c + c := by ring
    have hle : n * c + c ≤ B.length := by omega
    have ih1 := ih (by omega) (fun i hi => hsec i (by omega))
    simp only [List.range_succ, List.foldl_append, List.foldl_cons, List.foldl_nil]
    rw [ih1, hsec n (by omega)]
    have hslice : (buf_read B (n * c) c).length = c := by
      simp [buf_read]; omega
    have ht : (List.take (n * c) B).length = n * c := by simp; omega
    simp only [buf_write, hslice]
    have hA : List.take (n * c) (List.take (n * c) B ++ List.drop (n * c) D)
        = List.take (n * c) B := by
      rw [List.take_append_of_le_length (by omega), List.take_of_length_le (by omega)]
    have hC : List.drop (n * c + c) (List.take (n * c) B ++ List.drop (n * c) D)
        = List.drop ((n + 1) * c) D := by
      have := @List.drop_append _ (List.take (n * c) B) (List.drop (n * c) D) c
      rw [ht] at this
      rw [this, List.drop_drop, e1]
    rw [hA, hC, e1, List.take_add]
    simp [buf_read]

/-- The state `swap_init` builds satisfies `SwapWF` on every device with 32-bit sector
numbers. -/
theorem swap_init_wf (dev : List (List Byte)) (h : dev.length < 4294967296) :
    SwapWF (swap_init dev) := by
  refine ⟨?_, h⟩
  simp only [swap_init, List.length_replicate]
  exact Nat.div_mul_le_self _ _

theorem to_int_of_lt (n : Nat) (h : n < 2147483648) : to_int n = (n : Int) := by
  have h1 : n % 4294967296 = n := Nat.mod_eq_of_lt (by omega)
  simp [to_int, h1, h]

theorem to_size_t_of_lt (n : Nat) (h : n < 4294967296) : to_size_t (n : Int) = n := by
  unfold to_size_t
  have : ((n : Int) % 4294967296) = (n : Int) := Int.emod_eq_of_lt (by omega) (by omega)
  rw [this]; simp

/-- Claim C1 (swap round trip): for every page-sized buffer `B` and every swap state with a
free slot, `swap_out` returns a slot `i` of the bitmap, and `swap_in` of that slot
into a page-sized buffer `D` yields exactly the bytes of `B` and leaves slot `i`
clear in the occupancy bitmap. -/
theorem swap_round_trip (s : SwapState) (B D : List Byte)
    (hwf : SwapWF s) (hB : B.length = PGSIZE) (hD : D.length = PGSIZE)
    (hfree : false ∈ s.bitmap) :
    ∃ i : Nat, i < s.bitmap.length ∧ (swap_out s B).2 = (i : Int) ∧
      (swap_in (swap_out s B).1 (swap_out s B).2 D).2 = B ∧
      (swap_in (swap_out s B).1 (swap_out s B).2 D).1.bitmap[i]? = some false := by
  obtain ⟨i, hi⟩ := bitmap_scan_of_mem s.bitmap hfree
  obtain ⟨hlt, -, -⟩ := (bitmap_scan_spec s.bitmap).1 i hi
  obtain ⟨hw1, hw2⟩ := hwf
  have hspp : SECTORS_PER_PAGE = 8 := by decide
  rw [hspp] at hw1
  have hi8 : i * SECTORS_PER_PAGE + SECTORS_PER_PAGE ≤ s.block.length := by
    have : (i + 1) * SECTORS_PER_PAGE ≤ s.bitmap.length * SECTORS_PER_PAGE :=
      Nat.mul_le_mul_right _ hlt
    have e : (i + 1) * SECTORS_PER_PAGE = i * SECTORS_PER_PAGE + SECTORS_PER_PAGE := by ring
    rw [hspp] at this e ⊢
    omega
  have hmod : (i * SECTORS_PER_PAGE) % 4294967296 = i * SECTORS_PER_PAGE :=
    Nat.mod_eq_of_lt (by rw [hspp] at hi8 ⊢; omega)
  have hint : to_int i = (i : Int) := to_int_of_lt i (by omega)
  have hsz : to_size_t (i : Int) = i := to_size_t_of_lt i (by omega)
  have hsz8 : to_size_t ((i : Int) * (SECTORS_PER_PAGE : Int)) = i * SECTORS_PER_PAGE := by
    have := to_size_t_of_lt (i * SECTORS_PER_PAGE) (by rw [hspp] at hi8 ⊢; omega)
    simpa using this
  obtain ⟨-, hrd, -⟩ := write_loop_spec
    (fun k => buf_read B (k * BLOCK_SECTOR_SIZE) BLOCK_SECTOR_SIZE)
    (i * SECTORS_PER_PAGE) SECTORS_PER_PAGE s.block hi8
  have hpg : SECTORS_PER_PAGE * BLOCK_SECTOR_SIZE = PGSIZE := by decide
  refine ⟨i, hlt, ?_, ?_, ?_⟩
  · simp [swap_out, hi, hint]
  · simp only [swap_out, hi, swap_in, hint, hsz8, hmod]
    rw [read_loop_spec BLOCK_SECTOR_SIZE B D _ SECTORS_PER_PAGE (by omega)
      (fun k hk => hrd k hk)]
    rw [hpg, List.take_of_length_le (by omega), List.drop_of_length_le (by omega)]
    simp
  · simp [swap_out, hi, swap_in, hint, hsz, bitmap_reset, bitmap_mark, List.getElem?_set, hlt]

/-- The round trip on a device of two slots whose first slot is taken. -/
theorem swap_round_trip_witness :
    ∃ i : Nat, i < 2 ∧
      (swap_out ⟨List.replicate 16 [], [true, false]⟩ (List.replicate 4096 7)).2 = (i : Int) ∧
      (swap_in (swap_out ⟨List.replicate 16 [], [true, false]⟩ (List.replicate 4096 7)).1
        (swap_out ⟨List.replicate 16 [], [true, false]⟩ (List.replicate 4096 7)).2
        (List.replicate 4096 0)).2 = List.replicate 4096 7 ∧
      (swap_in (swap_out ⟨List.replicate 16 [], [true, false]⟩ (List.replicate 4096 7)).1
        (swap_out ⟨List.replicate 16 [], [true, false]⟩ (List.replicate 4096 7)).2
        (List.replicate 4096 0)).1.bitmap[i]? = some false :=
  swap_round_trip ⟨List.replicate 16 [], [true, false]⟩ (List.replicate 4096 7)
    (List.replicate 4096 0) (by simp [SwapWF, SECTORS_PER_PAGE, PGSIZE, BLOCK_SECTOR_SIZE])
    (List.length_replicate _ _) (List.length_replicate _ _) (by decide)

/-! ## Frame table: the clock ring and victim selection -/

theorem ring_next_mem (l : List Nat) (e : Nat) (he : e ∈ l) : ring_next l e ∈ l := by
  unfold ring_next
  split
  · next x rest hx =>
    have hm : x ∈ l.drop (l.indexOf e + 1) := by rw [hx]; simp
    exact List.mem_of_mem_drop hm
  · cases l with
    | nil => simp at he
    | cons a l => simp

theorem ring_next_spec (l : List Nat) (hnd : l.Nodup) (i : Nat) (e : Nat)
    (hi : l[i]? = some e) : l[(i + 1) % l.length]? = some (ring_next l e) := by
  obtain ⟨hlt, rfl⟩ := List.getElem?_eq_some.1 hi
  unfold ring_next
  rw [List.indexOf_getElem hnd i hlt]
  by_cases h1 : i + 1 < l.length
  · rw [List.drop_eq_getElem_cons h1, Nat.mod_eq_of_lt h1]
    simp [h1]
  · have hn : i + 1 = l.length := by omega
    rw [List.drop_of_length_le (by omega), hn, Nat.mod_self]
    cases l with
    | nil => simp at hlt
    | cons a l => simp

theorem ring_pos_succ (n i0 k : Nat) : ((i0 + k) % n + 1) % n = (i0 + (k + 1)) % n := by
  rw [Nat.mod_add_mod]; rfl

theorem ring_pos_wrap (n i0 m : Nat) (hi0 : i0 < n) (h1 : 1 ≤ m) (hm : m ≤ n)
    (h : (i0 + m) % n = i0) : m = n := by
  by_cases hlt : i0 + m < n
  · rw [Nat.mod_eq_of_lt hlt] at h; omega
  · rw [Nat.mod_eq_sub_mod (by omega), Nat.mod_eq_of_lt (by omega)] at h
    omega

theorem ring_pos_surj (n i0 a : Nat) (hi0 : i0 < n) (ha : a < n) :
    ∃ j, j < n ∧ (i0 + j) % n = a := by
  by_cases h : i0 ≤ a
  · exact ⟨a - i0, by omega, by rw [Nat.mod_eq_of_lt (by omega)]; omega⟩
  · refine ⟨a + n - i0, by omega, ?_⟩
    rw [Nat.mod_eq_sub_mod (by omega), Nat.mod_eq_of_lt (by omega)]
    omega

theorem clock_sweep_victim (l : List Nat) (fr : Nat → Frame) (start : Nat) :
    ∀ (fuel hand : Nat) (pd : PageDirs) (v : Nat),
      (clock_sweep l fr start fuel hand pd).2.2 = some v →
      (fr v).pinned = false ∧ (hand ∈ l → v ∈ l) := by
  intro fuel
  induction fuel with
  | zero => intro hand pd v h; simp [clock_sweep] at h
  | succ fuel ih =>
    intro hand pd v h
    simp only [clock_sweep] at h
    split at h
    · next hc =>
      simp at h; subst h
      simp at hc
      exact ⟨hc.1, fun hm => hm⟩
    · split at h
      · obtain ⟨h1, h2⟩ := ih _ _ _ h
        exact ⟨h1, fun hm => h2 (ring_next_mem l hand hm)⟩
      · simp at h

theorem clock_sweep_hand_mem (l : List Nat) (fr : Nat → Frame) (start : Nat) :
    ∀ (fuel hand : Nat) (pd : PageDirs), hand ∈ l →
      (clock_sweep l fr start fuel hand pd).2.1 ∈ l := by
  intro fuel
  induction fuel with
  | zero => intro hand pd h; simpa [clock_sweep] using h
  | succ fuel ih =>
    intro hand pd hm
    simp only [clock_sweep]
    split
    · exact hm
    · split
      · exact ih _ _ (ring_next_mem l hand hm)
      · exact ring_next_mem l hand hm

theorem fifo_sweep_victim (l : List Nat) (fr : Nat → Frame) (hand : Nat) :
    ∀ (fuel elem v : Nat), fifo_sweep l fr hand fuel elem = some v →
      (fr v).pinned = false ∧ (elem ∈ l → v ∈ l) := by
  intro fuel
  induction fuel with
  | zero => intro elem v h; simp [fifo_sweep] at h
  | succ fuel ih =>
    intro elem v h
    simp only [fifo_sweep] at h
    split at h
    · next hc =>
      simp at h; subst h
      simp at hc
      exact ⟨hc, fun hm => hm⟩
    · split at h
      · obtain ⟨h1, h2⟩ := ih _ _ h
        exact ⟨h1, fun hm => h2 (ring_next_mem l elem hm)⟩
      · simp at h

/-- The second loop visits every frame of the ring: when it finds no victim, every
frame is pinned. -/
theorem fifo_sweep_none (l : List Nat) (fr : Nat → Frame) (hnd : l.Nodup) (i0 hand : Nat)
    (h0 : l[i0]? = some hand) :
    ∀ (fuel k elem : Nat), k < l.length → l.length - k ≤ fuel →
      l[(i0 + k) % l.length]? = some elem →
      fifo_sweep l fr hand fuel elem = none →
      ∀ j x, k ≤ j → j < l.length → l[(i0 + j) % l.length]? = some x → (fr x).pinned = true := by
  have hi0 : i0 < l.length := (List.getElem?_eq_some.1 h0).1
  intro fuel
  induction fuel with
  | zero => intro k elem hk hf; omega
  | succ fuel ih =>
    intro k elem hk hf he hnone j x hkj hj hx
    simp only [fifo_sweep] at hnone
    split at hnone
    · simp at hnone
    · next hp =>
      simp at hp
      have hnext := ring_next_spec l hnd _ elem he
      rw [ring_pos_succ] at hnext
      by_cases hjk : j = k
      · subst hjk
        rw [he] at hx
        simp at hx; subst hx; exact hp
      · split at hnone
        · next hne =>
          have hk1 : k + 1 < l.length := by
            by_contra hcon
            have : k + 1 = l.length := by omega
            rw [this, Nat.add_mod_right, Nat.mod_eq_of_lt hi0, h0] at hnext
            simp at hnext
            exact hne hnext.symm
          exact ih (k + 1) _ hk1 (by omega) hnext hnone j x (by omega) hj hx
        · next heq =>
          simp at heq
          rw [heq, ← h0] at hnext
          have hinj := (List.getElem?_inj (by simpa using Nat.mod_lt _ (by omega : l.length > 0)) hnd hnext)
          have := ring_pos_wrap l.length i0 (k + 1) hi0 (by omega) (by omega) hinj
          omega

/-- One lap is all the first loop ever runs: on a duplicate-free list, from the frame
`k` steps behind `start`, any fuel of at least `length - k` gives the same result. -/
theorem clock_sweep_fuel (l : List Nat) (fr : Nat → Frame) (hnd : l.Nodup) (i0 start : Nat)
    (h0 : l[i0]? = some start) :
    ∀ (fuel k hand : Nat) (pd : PageDirs), k < l.length → l.length - k ≤ fuel →
      l[(i0 + k) % l.length]? = some hand →
      clock_sweep l fr start fuel hand pd = clock_sweep l fr start (l.length - k) hand pd := by
  have hi0 : i0 < l.length := (List.getElem?_eq_some.1 h0).1
  intro fuel
  induction fuel with
  | zero => intro k hand pd hk hf; omega
  | succ fuel ih =>
    intro k hand pd hk hf he
    obtain ⟨m, hm⟩ : ∃ m, l.length - k = m + 1 := ⟨l.length - k - 1, by omega⟩
    rw [hm]
    simp only [clock_sweep]
    split
    · rfl
    · have hnext := ring_next_spec l hnd _ hand he
      rw [ring_pos_succ] at hnext
      split
      · next hne =>
        have hk1 : k + 1 < l.length := by
          by_contra hcon
          have : k + 1 = l.length := by omega
          rw [this, Nat.add_mod_right, Nat.mod_eq_of_lt hi0, h0] at hnext
          simp at hnext
          exact hne hnext.symm
        have hmk : m = l.length - (k + 1) := by omega
        rw [ih (k + 1) _ _ hk1 (by omega) hnext, hmk]
      · rfl

/-- The same for the second loop. -/
theorem fifo_sweep_fuel (l : List Nat) (fr : Nat → Frame) (hnd : l.Nodup) (i0 hand : Nat)
    (h0 : l[i0]? = some hand) :
    ∀ (fuel k elem : Nat), k < l.length → l.length - k ≤ fuel →
      l[(i0 + k) % l.length]? = some elem →
      fifo_sweep l fr hand fuel elem = fifo_sweep l fr hand (l.length - k) elem := by
  have hi0 : i0 < l.length := (List.getElem?_eq_some.1 h0).1
  intro fuel
  induction fuel with
  | zero => intro k elem hk hf; omega
  | succ fuel ih =>
    intro k elem hk hf he
    obtain ⟨m, hm⟩ : ∃ m, l.length - k = m + 1 := ⟨l.length - k - 1, by omega⟩
    rw [hm]
    simp only [fifo_sweep]
    split
    · rfl
    · have hnext := ring_next_spec l hnd _ elem he
      rw [ring_pos_succ] at hnext
      split
      · next hne =>
        have hk1 : k + 1 < l.length := by
          by_contra hcon
          have : k + 1 = l.length := by omega
          rw [this, Nat.add_mod_right, Nat.mod_eq_of_lt hi0, h0] at hnext
          simp at hnext
          exact hne hnext.symm
        have hmk : m = l.length - (k + 1) := by omega
        rw [ih (k + 1) _ hk1 (by omega) hnext, hmk]
      · rfl

/-- The fuel `select_victim_frame` gives its loops, the length of the frame list, is
enough: with a duplicate-free list and the loop started on a registered frame, more
fuel changes nothing. -/
theorem sweeps_fuel_enough (l : List Nat) (fr : Nat → Frame) (hnd : l.Nodup) (start : Nat)
    (hs : start ∈ l) (fuel : Nat) (hf : l.length ≤ fuel) (pd : PageDirs) :
    clock_sweep l fr start fuel start pd = clock_sweep l fr start l.length start pd ∧
    fifo_sweep l fr start fuel start = fifo_sweep l fr start l.length start := by
  obtain ⟨i0, h0⟩ := List.mem_iff_getElem?.1 hs
  have hi0 : i0 < l.length := (List.getElem?_eq_some.1 h0).1
  have he : l[(i0 + 0) % l.length]? = some start := by
    rw [Nat.add_zero, Nat.mod_eq_of_lt hi0]; exact h0
  exact ⟨clock_sweep_fuel l fr hnd i0 start h0 fuel 0 start pd (by omega) (by omega) he,
    fifo_sweep_fuel l fr hnd i0 start h0 fuel 0 start (by omega) (by omega) he⟩

theorem select_from_spec (s : State) (start : Nat) :
    (select_from s start).1.frames = s.frames ∧
    (select_from s start).1.frame_list = s.frame_list ∧
    (∀ v, (select_from s start).2 = some v →
      (s.frames v).pinned = false ∧ (start ∈ s.frame_list → v ∈ s.frame_list)) ∧
    (s.frame_list.Nodup → start ∈ s.frame_list → (select_from s start).2 = none →
      ∀ f ∈ s.frame_list, (s.frames f).pinned = true) := by
  refine ⟨rfl, rfl, ?_, ?_⟩
  · intro v hv
    simp only [select_from] at hv
    split at hv
    · next w hw =>
      simp at hv; subst hv
      exact clock_sweep_victim _ _ _ _ _ _ _ hw
    · obtain ⟨h1, h2⟩ := fifo_sweep_victim _ _ _ _ _ _ hv
      exact ⟨h1, fun hm => h2 (clock_sweep_hand_mem _ _ _ _ _ _ hm)⟩
  · intro hnd hm hnone f hf
    simp only [select_from] at hnone
    split at hnone
    · simp at hnone
    · have hh := clock_sweep_hand_mem s.frame_list s.frames start s.frame_list.length start
        s.pagedir hm
      obtain ⟨i0, hi0⟩ := List.mem_iff_getElem?.1 hh
      have hlt : i0 < s.frame_list.length := (List.getElem?_eq_some.1 hi0).1
      obtain ⟨a, ha⟩ := List.mem_iff_getElem?.1 hf
      have halt : a < s.frame_list.length := (List.getElem?_eq_some.1 ha).1
      obtain ⟨j, hj, hja⟩ := ring_pos_surj _ i0 a hlt halt
      refine fifo_sweep_none s.frame_list s.frames hnd i0 _ hi0 s.frame_list.length 0 _
        (by omega) (by omega) ?_ hnone j f (by omega) hj (by rw [hja]; exact ha)
      rw [Nat.add_zero, Nat.mod_eq_of_lt hlt]; exact hi0

theorem select_victim_frame_spec (s : State) :
    (select_victim_frame s).1.frames = s.frames ∧
    (select_victim_frame s).1.frame_list = s.frame_list ∧
    (∀ v, (select_victim_frame s).2 = some v →
      (s.frames v).pinned = false ∧ (HandOK s → v ∈ s.frame_list)) ∧
    (s.frame_list.Nodup → HandOK s → (select_victim_frame s).2 = none →
      ∀ f ∈ s.frame_list, (s.frames f).pinned = true) := by
  unfold select_victim_frame
  cases hc : s.clock_hand with
  | some h =>
    obtain ⟨h1, h2, h3, h4⟩ := select_from_spec s h
    exact ⟨h1, h2, fun v hv => ⟨(h3 v hv).1, fun hok => (h3 v hv).2 (hok h hc)⟩,
      fun hnd hok => h4 hnd (hok h hc)⟩
  | none =>
    cases hl : s.frame_list with
    | nil => simp [hl]
    | cons b rest =>
      obtain ⟨h1, h2, h3, h4⟩ := select_from_spec s b
      simp only [List.head?_cons]
      rw [hl] at h2 h3 h4
      exact ⟨h1, h2, fun v hv => ⟨(h3 v hv).1, fun _ => (h3 v hv).2 (by simp)⟩,
        fun hnd _ => h4 hnd (by simp)⟩

/-- Claim C2 (pinned invariant): whatever the registry, the pinned flags, the accessed
bits and the clock hand are, a frame that `select_victim_frame` returns has its
pinned flag clear, before the call and after it. -/
theorem select_victim_never_pinned (s : State) (v : Nat)
    (h : (select_victim_frame s).2 = some v) :
    (s.frames v).pinned = false ∧ ((select_victim_frame s).1.frames v).pinned = false := by
  obtain ⟨h1, -, h3, -⟩ := select_victim_frame_spec s
  rw [h1]
  exact ⟨(h3 v h).1, (h3 v h).1⟩

/-- Claim C3: with a duplicate-free registry and the hand unset or on a registered
frame, `select_victim_frame` returns `NULL` only if every registered frame is pinned
(which includes the empty registry); a victim it returns is registered; and when
exactly one registered frame `u` is not pinned it returns `u`, whatever the accessed
bits are. -/
theorem select_victim_none_only_if_all_pinned (s : State)
    (hnd : s.frame_list.Nodup) (hok : HandOK s) :
    ((select_victim_frame s).2 = none → ∀ f ∈ s.frame_list, (s.frames f).pinned = true) ∧
    ((∃ f ∈ s.frame_list, (s.frames f).pinned = false) →
      ∃ v ∈ s.frame_list, (select_victim_frame s).2 = some v) ∧
    (∀ u ∈ s.frame_list, (s.frames u).pinned = false →
      (∀ f ∈ s.frame_list, f ≠ u → (s.frames f).pinned = true) →
      (select_victim_frame s).2 = some u) := by
  obtain ⟨-, -, h3, h4⟩ := select_victim_frame_spec s
  have hsome : (∃ f ∈ s.frame_list, (s.frames f).pinned = false) →
      ∃ v ∈ s.frame_list, (select_victim_frame s).2 = some v := by
    rintro ⟨f, hf, hp⟩
    cases hr : (select_victim_frame s).2 with
    | none =>
      have := h4 hnd hok hr f hf
      rw [hp] at this; exact absurd this (by simp)
    | some v => exact ⟨v, (h3 v hr).2 hok, rfl⟩
  refine ⟨h4 hnd hok, hsome, ?_⟩
  intro u hu hup hrest
  obtain ⟨v, hv, hr⟩ := hsome ⟨u, hu, hup⟩
  by_cases hvu : v = u
  · rw [hr, hvu]
  · have := hrest v hv hvu
    rw [(h3 v hr).1] at this
    exact absurd this (by simp)

/-- Frame 20 is the victim in `sample_one_unpinned`, and it is not pinned. -/
theorem select_victim_never_pinned_witness :
    ((sample_one_unpinned).frames 20).pinned = false ∧
    ((select_victim_frame sample_one_unpinned).1.frames 20).pinned = false :=
  select_victim_never_pinned sample_one_unpinned 20 (by decide)

/-- In `sample_one_unpinned` the one frame that is not pinned is selected. -/
theorem select_victim_none_only_if_all_pinned_witness :
    sample_one_unpinned.frame_list.Nodup ∧ HandOK sample_one_unpinned ∧
    (select_victim_frame sample_one_unpinned).2 = some 20 :=
  ⟨by decide, by decide,
    (select_victim_none_only_if_all_pinned sample_one_unpinned (by decide) (by decide)).2.2
      20 (by decide) (by decide) (by decide)⟩

/-! ## The clock scenario of the spec -/

theorem ring_next_four (a b c d : Nat) (hnd : [a, b, c, d].Nodup) :
    ring_next [a, b, c, d] a = b ∧ ring_next [a, b, c, d] b = c ∧
    ring_next [a, b, c, d] c = d ∧ ring_next [a, b, c, d] d = a := by
  have h0 := ring_next_spec [a, b, c, d] hnd 0 a (by simp)
  have h1 := ring_next_spec [a, b, c, d] hnd 1 b (by simp)
  have h2 := ring_next_spec [a, b, c, d] hnd 2 c (by simp)
  have h3 := ring_next_spec [a, b, c, d] hnd 3 d (by simp)
  simp at h0 h1 h2 h3
  exact ⟨h0.symm, h1.symm, h2.symm, h3.symm⟩

theorem accessed_after_clear (pd : PageDirs) (t u t2 u2 : Nat) :
    pagedir_is_accessed (pagedir_set_accessed pd t u false) t2 u2
      = if (t2, pg_round_down u2) = (t, pg_round_down u) then false
        else pagedir_is_accessed pd t2 u2 := by
  unfold pagedir_is_accessed pagedir_set_accessed
  by_cases h : (t2, pg_round_down u2) = (t, pg_round_down u)
  · rw [h]; simp
  · rw [Function.update_noteq h]; simp [h]

/-- The state and the victim after the first call in the clock scenario: four
frames, none pinned, backing four different pages, accessed bits 1,1,0,1 in ring
order, hand on the first. -/
theorem clock_scenario_first (s : State) (a b c d : Nat)
    (hl : s.frame_list = [a, b, c, d]) (hnd : [a, b, c, d].Nodup)
    (hh : s.clock_hand = some a)
    (hp : ∀ f ∈ [a, b, c, d], (s.frames f).pinned = false)
    (hk : ([a, b, c, d].map (frame_key s)).Nodup)
    (ha : frame_accessed s a = true) (hb : frame_accessed s b = true)
    (hc : frame_accessed s c = false) :
    select_victim_frame s =
      ({ s with
          pagedir := pagedir_set_accessed
            (pagedir_set_accessed s.pagedir (s.frames a).t (s.frames a).uaddr false)
            (s.frames b).t (s.frames b).uaddr false,
          clock_hand := some d }, some c) := by
  obtain ⟨n1, n2, n3, n4⟩ := ring_next_four a b c d hnd
  have pa := hp a (by simp)
  have pb := hp b (by simp)
  have pc := hp c (by simp)
  simp only [List.map, List.nodup_cons, List.mem_cons, List.mem_singleton, not_or,
    List.not_mem_nil, not_false_eq_true, List.nodup_nil, and_true, frame_key] at hk hnd
  obtain ⟨⟨kab, kac, kad⟩, ⟨kbc, kbd⟩, kcd⟩ := hk
  obtain ⟨⟨ab, ac, ad⟩, ⟨bc, bd⟩, cd⟩ := hnd
  unfold frame_accessed at ha hb hc
  have hb1 : pagedir_is_accessed
      (pagedir_set_accessed s.pagedir (s.frames a).t (s.frames a).uaddr false)
      (s.frames b).t (s.frames b).uaddr = true := by
    rw [accessed_after_clear, if_neg (Ne.symm kab), hb]
  have hc1 : pagedir_is_accessed
      (pagedir_set_accessed
        (pagedir_set_accessed s.pagedir (s.frames a).t (s.frames a).uaddr false)
        (s.frames b).t (s.frames b).uaddr false)
      (s.frames c).t (s.frames c).uaddr = false := by
    rw [accessed_after_clear, if_neg (Ne.symm kbc), accessed_after_clear,
      if_neg (Ne.symm kac), hc]
  have hsel : select_victim_frame s = select_from s a := by
    unfold select_victim_frame; rw [hh]
  have hsweep : clock_sweep [a, b, c, d] s.frames a 4 a s.pagedir
      = (pagedir_set_accessed
          (pagedir_set_accessed s.pagedir (s.frames a).t (s.frames a).uaddr false)
          (s.frames b).t (s.frames b).uaddr false, c, some c) := by
    simp [clock_sweep, pa, pb, pc, ha, hb1, hc1, n1, n2, Ne.symm ab, Ne.symm ac]
  rw [hsel]
  simp only [select_from, hl, List.length_cons, List.length_nil, hsweep, n3]

/-- Claim C4, as amended: in the clock scenario (four frames, none pinned, backing
four different pages, accessed bits 1,1,0,1 in ring order, hand on the first) one call
selects the third frame, clears the accessed bits of the first and the second frame,
leaves the bit of the fourth frame set, and puts the hand on the fourth frame. -/
theorem clock_first_call (s : State) (a b c d : Nat)
    (hl : s.frame_list = [a, b, c, d]) (hnd : [a, b, c, d].Nodup)
    (hh : s.clock_hand = some a)
    (hp : ∀ f ∈ [a, b, c, d], (s.frames f).pinned = false)
    (hk : ([a, b, c, d].map (frame_key s)).Nodup)
    (ha : frame_accessed s a = true) (hb : frame_accessed s b = true)
    (hc : frame_accessed s c = false) (hd : frame_accessed s d = true) :
    (select_victim_frame s).2 = some c ∧
    frame_accessed (select_victim_frame s).1 a = false ∧
    frame_accessed (select_victim_frame s).1 b = false ∧
    frame_accessed (select_victim_frame s).1 c = false ∧
    frame_accessed (select_victim_frame s).1 d = true ∧
    (select_victim_frame s).1.clock_hand = some d := by
  rw [clock_scenario_first s a b c d hl hnd hh hp hk ha hb hc]
  simp only [List.map, List.nodup_cons, List.mem_cons, List.mem_singleton, not_or,
    List.not_mem_nil, not_false_eq_true, List.nodup_nil, and_true, frame_key] at hk
  obtain ⟨⟨kab, kac, kad⟩, ⟨kbc, kbd⟩, kcd⟩ := hk
  unfold frame_accessed at ha hb hc hd ⊢
  refine ⟨rfl, ?_, ?_, ?_, ?_, rfl⟩
  · simp only []
    rw [accessed_after_clear, if_neg kab, accessed_after_clear]; simp
  · simp only []
    rw [accessed_after_clear]; simp
  · simp only []
    rw [accessed_after_clear, if_neg (Ne.symm kbc), accessed_after_clear,
      if_neg (Ne.symm kac), hc]
  · simp only []
    rw [accessed_after_clear, if_neg (Ne.symm kbd), accessed_after_clear,
      if_neg (Ne.symm kad), hd]

/-- The first call in `sample_clock`. -/
theorem clock_first_call_witness :
    (select_victim_frame sample_clock).2 = some 30 ∧
    frame_accessed (select_victim_frame sample_clock).1 10 = false ∧
    frame_accessed (select_victim_frame sample_clock).1 20 = false ∧
    frame_accessed (select_victim_frame sample_clock).1 30 = false ∧
    frame_accessed (select_victim_frame sample_clock).1 40 = true ∧
    (select_victim_frame sample_clock).1.clock_hand = some 40 :=
  clock_first_call sample_clock 10 20 30 40 rfl (by decide) rfl (by decide) (by decide)
    (by decide) (by decide) (by decide) (by decide)

/-- Claim C4 fails as stated: in the sample scenario the first call selects the third
frame, yet the accessed bit of the fourth frame is still set afterwards, so not all
four bits are clear. -/
theorem clock_first_call_counterexample :
    sample_clock.frame_list = [10, 20, 30, 40] ∧
    sample_clock.clock_hand = some 10 ∧
    [10, 20, 30, 40].map (frame_accessed sample_clock) = [true, true, false, true] ∧
    (∀ f ∈ [10, 20, 30, 40], (sample_clock.frames f).pinned = false) ∧
    ¬ ((select_victim_frame sample_clock).2 = some 30 ∧
       ∀ f ∈ [10, 20, 30, 40], frame_accessed (select_victim_frame sample_clock).1 f = false) := by
  decide

/-- Claim C5, as amended: in the clock scenario a second call made immediately after
the first gives the fourth frame, whose accessed bit is still set, its second chance
(the bit is cleared) and selects the first frame. -/
theorem clock_second_call (s : State) (a b c d : Nat)
    (hl : s.frame_list = [a, b, c, d]) (hnd : [a, b, c, d].Nodup)
    (hh : s.clock_hand = some a)
    (hp : ∀ f ∈ [a, b, c, d], (s.frames f).pinned = false)
    (hk : ([a, b, c, d].map (frame_key s)).Nodup)
    (ha : frame_accessed s a = true) (hb : frame_accessed s b = true)
    (hc : frame_accessed s c = false) (hd : frame_accessed s d = true) :
    (select_victim_frame (select_victim_frame s).1).2 = some a ∧
    frame_accessed (select_victim_frame (select_victim_frame s).1).1 d = false := by
  rw [clock_scenario_first s a b c d hl hnd hh hp hk ha hb hc]
  obtain ⟨n1, n2, n3, n4⟩ := ring_next_four a b c d hnd
  have pa := hp a (by simp)
  have pdd := hp d (by simp)
  simp only [List.map, List.nodup_cons, List.mem_cons, List.mem_singleton, not_or,
    List.not_mem_nil, not_false_eq_true, List.nodup_nil, and_true, frame_key] at hk hnd
  obtain ⟨⟨kab, kac, kad⟩, ⟨kbc, kbd⟩, kcd⟩ := hk
  obtain ⟨⟨ab, ac, ad⟩, ⟨bc, bd⟩, cd⟩ := hnd
  unfold frame_accessed at ha hb hc hd ⊢
  have hd1 : pagedir_is_accessed
      (pagedir_set_accessed
        (pagedir_set_accessed s.pagedir (s.frames a).t (s.frames a).uaddr false)
        (s.frames b).t (s.frames b).uaddr false)
      (s.frames d).t (s.frames d).uaddr = true := by
    rw [accessed_after_clear, if_neg (Ne.symm kbd), accessed_after_clear,
      if_neg (Ne.symm kad), hd]
  have ha1 : pagedir_is_accessed
      (pagedir_set_accessed (pagedir_set_accessed
        (pagedir_set_accessed s.pagedir (s.frames a).t (s.frames a).uaddr false)
        (s.frames b).t (s.frames b).uaddr false) (s.frames d).t (s.frames d).uaddr false)
      (s.frames a).t (s.frames a).uaddr = false := by
    rw [accessed_after_clear, if_neg kad, accessed_after_clear, if_neg kab,
      accessed_after_clear]
    simp
  simp only [select_victim_frame, select_from, hl, List.length_cons, List.length_nil]
  simp [clock_sweep, pa, pdd, hd1, ha1, n4, ad, accessed_after_clear]

/-- The second call in `sample_clock`. -/
theorem clock_second_call_witness :
    (select_victim_frame (select_victim_frame sample_clock).1).2 = some 10 ∧
    frame_accessed (select_victim_frame (select_victim_frame sample_clock).1).1 40 = false :=
  clock_second_call sample_clock 10 20 30 40 rfl (by decide) rfl (by decide) (by decide)
    (by decide) (by decide) (by decide) (by decide)

/-- Claim C5 fails as stated: in the sample scenario the second call does not select
the fourth frame; it selects the first. -/
theorem clock_second_call_counterexample :
    (select_victim_frame sample_clock).2 = some 30 ∧
    (select_victim_frame (select_victim_frame sample_clock).1).2 ≠ some 40 ∧
    (select_victim_frame (select_victim_frame sample_clock).1).2 = some 10 := by
  decide

/-! ## Eviction -/

/-- What a successful `swap_out` does: it claims the first free slot and stores the
page in the eight sectors of that slot, leaving all other sectors alone. -/
theorem swap_out_spec (s : SwapState) (B : List Byte) (hwf : SwapWF s)
    (hfree : false ∈ s.bitmap) :
    ∃ i : Nat, bitmap_scan s.bitmap = some i ∧ i < s.bitmap.length ∧
      s.bitmap[i]? = some false ∧
      (swap_out s B).2 = (i : Int) ∧
      (swap_out s B).1.bitmap = s.bitmap.set i true ∧
      (swap_out s B).1.block.length = s.block.length ∧
      (∀ k, k < SECTORS_PER_PAGE →
        block_read (swap_out s B).1.block (i * SECTORS_PER_PAGE + k)
          = buf_read B (k * BLOCK_SECTOR_SIZE) BLOCK_SECTOR_SIZE) ∧
      (∀ j, (j < i * SECTORS_PER_PAGE ∨ i * SECTORS_PER_PAGE + SECTORS_PER_PAGE ≤ j) →
        (swap_out s B).1.block[j]? = s.block[j]?) := by
  obtain ⟨i, hi⟩ := bitmap_scan_of_mem s.bitmap hfree
  obtain ⟨hlt, hfalse, -⟩ := (bitmap_scan_spec s.bitmap).1 i hi
  obtain ⟨hw1, hw2⟩ := hwf
  have hspp : SECTORS_PER_PAGE = 8 := by decide
  rw [hspp] at hw1
  have hi8 : i * SECTORS_PER_PAGE + SECTORS_PER_PAGE ≤ s.block.length := by
    rw [hspp]; omega
  have hmod : (i * SECTORS_PER_PAGE) % 4294967296 = i * SECTORS_PER_PAGE :=
    Nat.mod_eq_of_lt (by rw [hspp] at hi8 ⊢; omega)
  have hint : to_int i = (i : Int) := to_int_of_lt i (by omega)
  obtain ⟨hlen, hrd, hother⟩ := write_loop_spec
    (fun k => buf_read B (k * BLOCK_SECTOR_SIZE) BLOCK_SECTOR_SIZE)
    (i * SECTORS_PER_PAGE) SECTORS_PER_PAGE s.block hi8
  refine ⟨i, hi, hlt, hfalse, ?_, ?_, ?_, ?_, ?_⟩
  · simp [swap_out, hi, hint]
  · simp [swap_out, hi, bitmap_mark]
  · simpa [swap_out, hi, hmod] using hlen
  · intro k hk
    simpa [swap_out, hi, hmod] using hrd k hk
  · intro j hj
    simpa [swap_out, hi, hmod] using hother j hj

theorem lookup_loop_spec (p : Nat) (l : List SupPage) :
    ∀ i, lookup_loop p l = some i → i < l.length := by
  induction l with
  | nil => intro i h; simp [lookup_loop] at h
  | cons e rest ih =>
    intro i h
    simp only [lookup_loop] at h
    split at h
    · simp at h; subst h; simp
    · simp only [Option.map_eq_some'] at h
      obtain ⟨k, hk, rfl⟩ := h
      have := ih k hk
      simp; omega

theorem sup_page_get_set (s : State) (t sp : Nat) (e : SupPage)
    (h : sp < (s.sup_page_list t).length) :
    sup_page_get (sup_page_set s t sp e) t sp = e := by
  simp [sup_page_get, sup_page_set, List.getD_eq_getElem?_getD, List.getElem?_set, h]

theorem sup_page_update_swap_fields (s : State) (t uaddr : Nat) (slot : Int) :
    (sup_page_update_swap s t uaddr slot).frame_list = s.frame_list ∧
    (sup_page_update_swap s t uaddr slot).frames = s.frames ∧
    (sup_page_update_swap s t uaddr slot).clock_hand = s.clock_hand ∧
    (sup_page_update_swap s t uaddr slot).pagedir = s.pagedir ∧
    (sup_page_update_swap s t uaddr slot).swap = s.swap ∧
    (sup_page_update_swap s t uaddr slot).mem = s.mem ∧
    (sup_page_update_swap s t uaddr slot).files = s.files := by
  unfold sup_page_update_swap
  split <;> simp [sup_page_set]

theorem evict_frame_fields (s : State) (v : Nat) :
    (evict_frame s v).frame_list = s.frame_list.erase v ∧
    (evict_frame s v).frames = s.frames ∧
    (evict_frame s v).clock_hand = s.clock_hand ∧
    (evict_frame s v).mem = s.mem ∧
    (evict_frame s v).files = s.files := by
  by_cases hd : pagedir_is_dirty s.pagedir (s.frames v).t (s.frames v).uaddr = true
  · simp [evict_frame, hd, sup_page_update_swap_fields]
  · simp [evict_frame, hd]

/-- Claim C6, as amended: for a registered victim that is not pinned (duplicate-free
registry, swap state as `swap_init` sets it up): if the dirty bit of its mapping is
set, swap has a free slot and the owner's table has an entry for the page, the page
contents are written to the sectors of a slot that was free and is now occupied (no
other bit changes), and the entry becomes swapped-out with that slot; if the dirty bit
is clear, entries and swap are unchanged; in both cases the mapping is cleared, the
victim leaves the registry and every other frame stays. -/
theorem evict_frame_post (s : State) (v : Nat)
    (hnd : s.frame_list.Nodup) (_hv : v ∈ s.frame_list)
    (_hp : (s.frames v).pinned = false) (hwf : SwapWF s.swap) :
    (pagedir_is_dirty s.pagedir (s.frames v).t (s.frames v).uaddr = true →
      false ∈ s.swap.bitmap →
      ∀ sp, sup_page_lookup s (s.frames v).t (s.frames v).uaddr = some sp →
      ∃ slot : Nat,
        s.swap.bitmap[slot]? = some false ∧
        (evict_frame s v).swap.bitmap = s.swap.bitmap.set slot true ∧
        (∀ k, k < SECTORS_PER_PAGE →
          block_read (evict_frame s v).swap.block (slot * SECTORS_PER_PAGE + k)
            = buf_read (s.mem (s.frames v).kpage) (k * BLOCK_SECTOR_SIZE) BLOCK_SECTOR_SIZE) ∧
        (sup_page_get (evict_frame s v) (s.frames v).t sp).type = PageType.PAGE_SWAP ∧
        (sup_page_get (evict_frame s v) (s.frames v).t sp).swap_slot = (slot : Int)) ∧
    (pagedir_is_dirty s.pagedir (s.frames v).t (s.frames v).uaddr = false →
      (evict_frame s v).sup_page_list = s.sup_page_list ∧ (evict_frame s v).swap = s.swap) ∧
    ((evict_frame s v).pagedir ((s.frames v).t, pg_round_down (s.frames v).uaddr)).present
      = false ∧
    v ∉ (evict_frame s v).frame_list ∧
    (∀ f ∈ s.frame_list, f ≠ v → f ∈ (evict_frame s v).frame_list) := by
  refine ⟨?_, ?_, ?_, ?_, ?_⟩
  · intro hd hfree sp hsp
    obtain ⟨i, -, -, hfalse, hret, hbm, -, hsec, -⟩ :=
      swap_out_spec s.swap (s.mem (s.frames v).kpage) hwf hfree
    have hlt := lookup_loop_spec _ _ sp hsp
    have hsp2 : sup_page_lookup { s with swap := (swap_out s.swap (s.mem (s.frames v).kpage)).1 }
        (s.frames v).t (s.frames v).uaddr = some sp := hsp
    refine ⟨i, hfalse, ?_, ?_, ?_, ?_⟩
    · simp only [evict_frame, hd, if_true, sup_page_update_swap, hsp2]
      exact hbm
    · intro k hk
      simp only [evict_frame, hd, if_true, sup_page_update_swap, hsp2]
      exact hsec k hk
    · simp only [evict_frame, hd, if_true, sup_page_update_swap, hsp2]
      have := sup_page_get_set { s with swap := (swap_out s.swap (s.mem (s.frames v).kpage)).1 }
        (s.frames v).t sp
        { sup_page_get { s with swap := (swap_out s.swap (s.mem (s.frames v).kpage)).1 }
            (s.frames v).t sp with
          type := PageType.PAGE_SWAP,
          swap_slot := (swap_out s.swap (s.mem (s.frames v).kpage)).2 } hlt
      simp only [sup_page_get] at this ⊢
      simp only [sup_page_set] at this ⊢
      rw [this]
    · simp only [evict_frame, hd, if_true, sup_page_update_swap, hsp2]
      have := sup_page_get_set { s with swap := (swap_out s.swap (s.mem (s.frames v).kpage)).1 }
        (s.frames v).t sp
        { sup_page_get { s with swap := (swap_out s.swap (s.mem (s.frames v).kpage)).1 }
            (s.frames v).t sp with
          type := PageType.PAGE_SWAP,
          swap_slot := (swap_out s.swap (s.mem (s.frames v).kpage)).2 } hlt
      simp only [sup_page_get] at this ⊢
      simp only [sup_page_set] at this ⊢
      rw [this]
      exact hret
  · intro hd
    simp [evict_frame, hd]
  · simp [evict_frame, pagedir_clear_page]
  · rw [(evict_frame_fields s v).1]
    exact fun h => ((List.Nodup.mem_erase_iff hnd).1 h).1 rfl
  · intro f hf hne
    rw [(evict_frame_fields s v).1]
    exact (List.mem_erase_of_ne hne).2 hf

/-- Eviction of the dirty frame of `sample_dirty` with a free slot: slot 0 is taken,
the page is on the device and the entry is swapped-out with slot 0. -/
theorem evict_frame_post_witness :
    ∃ slot : Nat,
      (sample_dirty [false]).swap.bitmap[slot]? = some false ∧
      (evict_frame (sample_dirty [false]) 10).swap.bitmap
        = (sample_dirty [false]).swap.bitmap.set slot true ∧
      (∀ k, k < SECTORS_PER_PAGE →
        block_read (evict_frame (sample_dirty [false]) 10).swap.block
            (slot * SECTORS_PER_PAGE + k)
          = buf_read (List.replicate 4096 7) (k * BLOCK_SECTOR_SIZE) BLOCK_SECTOR_SIZE) ∧
      (sup_page_get (evict_frame (sample_dirty [false]) 10) 1 0).type = PageType.PAGE_SWAP ∧
      (sup_page_get (evict_frame (sample_dirty [false]) 10) 1 0).swap_slot = (slot : Int) :=
  (evict_frame_post (sample_dirty [false]) 10 (by decide) (by decide) (by decide)
    (by unfold SwapWF; decide)).1 (by decide) (by decide) 0 (by decide)

/-- Claim C6 fails as stated when swap is full: the victim is registered, not pinned
and dirty, and its page has an entry, yet `evict_frame` allocates no slot and writes
nothing (the swap state is unchanged), and the entry records slot `-1`. -/
theorem evict_frame_swap_full_counterexample :
    10 ∈ (sample_dirty [true]).frame_list ∧
    ((sample_dirty [true]).frames 10).pinned = false ∧
    pagedir_is_dirty (sample_dirty [true]).pagedir 1 40960 = true ∧
    sup_page_lookup (sample_dirty [true]) 1 40960 = some 0 ∧
    (evict_frame (sample_dirty [true]) 10).swap = (sample_dirty [true]).swap ∧
    (sup_page_get (evict_frame (sample_dirty [true]) 10) 1 0).type = PageType.PAGE_SWAP ∧
    (sup_page_get (evict_frame (sample_dirty [true]) 10) 1 0).swap_slot = -1 := by
  decide

/-! ## Frame allocation -/

theorem clock_sweep_all_pinned (l : List Nat) (fr : Nat → Frame) (start : Nat)
    (hpin : ∀ f ∈ l, (fr f).pinned = true) :
    ∀ (fuel hand : Nat) (pd : PageDirs), hand ∈ l →
      (clock_sweep l fr start fuel hand pd).1 = pd := by
  intro fuel
  induction fuel with
  | zero => intro hand pd _; simp [clock_sweep]
  | succ fuel ih =>
    intro hand pd hm
    have hp := hpin hand hm
    simp only [clock_sweep, hp]
    simp only [Bool.not_true, Bool.false_and, Bool.false_eq_true, if_false]
    split
    · exact ih _ _ (ring_next_mem l hand hm)
    · rfl

theorem select_from_fields (s : State) (start : Nat) :
    (select_from s start).1.sup_page_list = s.sup_page_list ∧
    (select_from s start).1.swap = s.swap ∧
    (select_from s start).1.mem = s.mem ∧
    (select_from s start).1.files = s.files ∧
    ((∀ f ∈ s.frame_list, (s.frames f).pinned = true) → start ∈ s.frame_list →
      (select_from s start).1.pagedir = s.pagedir) :=
  ⟨rfl, rfl, rfl, rfl, fun hpin hm =>
    clock_sweep_all_pinned s.frame_list s.frames start hpin _ _ _ hm⟩

theorem select_victim_frame_fields (s : State) :
    (select_victim_frame s).1.sup_page_list = s.sup_page_list ∧
    (select_victim_frame s).1.swap = s.swap ∧
    (select_victim_frame s).1.mem = s.mem ∧
    (select_victim_frame s).1.files = s.files ∧
    ((∀ f ∈ s.frame_list, (s.frames f).pinned = true) → HandOK s →
      (select_victim_frame s).1.pagedir = s.pagedir) := by
  unfold select_victim_frame
  cases hc : s.clock_hand with
  | some h =>
    obtain ⟨h1, h2, h3, h4, h5⟩ := select_from_fields s h
    exact ⟨h1, h2, h3, h4, fun hpin hok => h5 hpin (hok h hc)⟩
  | none =>
    cases hl : s.frame_list with
    | nil => simp
    | cons b rest =>
      obtain ⟨h1, h2, h3, h4, h5⟩ := select_from_fields s b
      simp only [List.head?_cons]
      rw [hl] at h5
      exact ⟨h1, h2, h3, h4, fun hpin _ => h5 hpin (by simp)⟩

/-- Allocation by eviction from a state whose hand is unset or on a registered frame:
when `palloc_get_page` returns `NULL` and `select_victim_frame` yields a victim `v`,
`frame_alloc (uaddr)` returns `v`;
page directories, swap, entries and memory are those after one `evict_frame` of `v`
on the state victim selection left; `v` keeps its physical page and has owning address
`uaddr`, owner the current thread and `pinned = false`; no other frame struct changes;
`v` is registered again and the registry has as many frames as before. -/
theorem frame_alloc_eviction_path (s : State) (cur uaddr v : Nat) (malloc : Option Nat)
    (hok : HandOK s) (hsel : (select_victim_frame s).2 = some v) :
    (frame_alloc s cur uaddr none malloc).2 = some v ∧
    (frame_alloc s cur uaddr none malloc).1.pagedir
      = (evict_frame (select_victim_frame s).1 v).pagedir ∧
    (frame_alloc s cur uaddr none malloc).1.swap
      = (evict_frame (select_victim_frame s).1 v).swap ∧
    (frame_alloc s cur uaddr none malloc).1.sup_page_list
      = (evict_frame (select_victim_frame s).1 v).sup_page_list ∧
    (frame_alloc s cur uaddr none malloc).1.mem = s.mem ∧
    (frame_alloc s cur uaddr none malloc).1.frames v
      = { kpage := (s.frames v).kpage, uaddr := uaddr, t := cur, pinned := false } ∧
    (∀ f, f ≠ v → (frame_alloc s cur uaddr none malloc).1.frames f = s.frames f) ∧
    (frame_alloc s cur uaddr none malloc).1.frame_list = s.frame_list.erase v ++ [v] ∧
    v ∈ (frame_alloc s cur uaddr none malloc).1.frame_list ∧
    (frame_alloc s cur uaddr none malloc).1.frame_list.length = s.frame_list.length := by
  have hpair : select_victim_frame s = ((select_victim_frame s).1, some v) :=
    Prod.ext rfl hsel
  obtain ⟨hfr, hfl, h3, -⟩ := select_victim_frame_spec s
  have hv : v ∈ s.frame_list := (h3 v hsel).2 hok
  obtain ⟨e1, e2, -, e4, -⟩ := evict_frame_fields (select_victim_frame s).1 v
  have hlist : (frame_alloc s cur uaddr none malloc).1.frame_list
      = s.frame_list.erase v ++ [v] := by
    simp only [frame_alloc]
    rw [hpair]
    simp only [e1, hfl]
  refine ⟨?_, ?_, ?_, ?_, ?_, ?_, ?_, hlist, ?_, ?_⟩
  · simp only [frame_alloc]; rw [hpair]
  · simp only [frame_alloc]; rw [hpair]
  · simp only [frame_alloc]; rw [hpair]
  · simp only [frame_alloc]; rw [hpair]
  · simp only [frame_alloc]; rw [hpair]
    simp only [e4, (select_victim_frame_fields s).2.2.1]
  · simp only [frame_alloc]; rw [hpair]
    simp [e2, hfr]
  · intro f hf
    simp only [frame_alloc]; rw [hpair]
    simp [e2, hfr, Function.update_noteq hf]
  · rw [hlist]; simp
  · rw [hlist]
    have hpos : 0 < s.frame_list.length := List.length_pos_of_mem hv
    simp [List.length_erase_of_mem hv]
    omega

/-- Allocation by eviction in `sample_clock`: frame 30 is recycled for thread 2. -/
theorem frame_alloc_eviction_path_witness :
    (frame_alloc sample_clock 2 81920 none none).2 = some 30 ∧
    (frame_alloc sample_clock 2 81920 none none).1.pagedir
      = (evict_frame (select_victim_frame sample_clock).1 30).pagedir ∧
    (frame_alloc sample_clock 2 81920 none none).1.swap
      = (evict_frame (select_victim_frame sample_clock).1 30).swap ∧
    (frame_alloc sample_clock 2 81920 none none).1.sup_page_list
      = (evict_frame (select_victim_frame sample_clock).1 30).sup_page_list ∧
    (frame_alloc sample_clock 2 81920 none none).1.mem = sample_clock.mem ∧
    (frame_alloc sample_clock 2 81920 none none).1.frames 30
      = { kpage := (sample_clock.frames 30).kpage, uaddr := 81920, t := 2, pinned := false } ∧
    (∀ f, f ≠ 30 →
      (frame_alloc sample_clock 2 81920 none none).1.frames f = sample_clock.frames f) ∧
    (frame_alloc sample_clock 2 81920 none none).1.frame_list
      = sample_clock.frame_list.erase 30 ++ [30] ∧
    30 ∈ (frame_alloc sample_clock 2 81920 none none).1.frame_list ∧
    (frame_alloc sample_clock 2 81920 none none).1.frame_list.length
      = sample_clock.frame_list.length :=
  frame_alloc_eviction_path sample_clock 2 81920 30 none (by decide) (by decide)

/-- Out of memory from a state whose hand is unset or on a registered frame: when
`palloc_get_page` returns `NULL` and every registered frame is pinned (which includes
the empty registry), `frame_alloc` returns `NULL` and leaves the registry, every frame struct (owner,
pinned flag), all page-table entries (mappings, accessed bits), the swap state, the
entries and memory unchanged. -/
theorem frame_alloc_out_of_memory (s : State) (cur uaddr : Nat) (malloc : Option Nat)
    (hok : HandOK s) (hpin : ∀ f ∈ s.frame_list, (s.frames f).pinned = true) :
    (frame_alloc s cur uaddr none malloc).2 = none ∧
    (frame_alloc s cur uaddr none malloc).1.frame_list = s.frame_list ∧
    (frame_alloc s cur uaddr none malloc).1.frames = s.frames ∧
    (frame_alloc s cur uaddr none malloc).1.pagedir = s.pagedir ∧
    (frame_alloc s cur uaddr none malloc).1.swap = s.swap ∧
    (frame_alloc s cur uaddr none malloc).1.sup_page_list = s.sup_page_list ∧
    (frame_alloc s cur uaddr none malloc).1.mem = s.mem := by
  obtain ⟨hfr, hfl, h3, -⟩ := select_victim_frame_spec s
  obtain ⟨g1, g2, g3, -, g5⟩ := select_victim_frame_fields s
  have hnone : (select_victim_frame s).2 = none := by
    cases hr : (select_victim_frame s).2 with
    | none => rfl
    | some v =>
      have h := h3 v hr
      have := hpin v (h.2 hok)
      rw [h.1] at this
      exact absurd this (by simp)
  have hpair : select_victim_frame s = ((select_victim_frame s).1, none) :=
    Prod.ext rfl hnone
  have hres : frame_alloc s cur uaddr none malloc = ((select_victim_frame s).1, none) := by
    simp only [frame_alloc]; rw [hpair]
  rw [hres]
  exact ⟨rfl, hfl, hfr, g5 hpin hok, g2, g1, g3⟩

/-- Allocation in `sample_all_pinned` without a free page fails and changes nothing. -/
theorem frame_alloc_out_of_memory_witness :
    (frame_alloc sample_all_pinned 2 81920 none none).2 = none ∧
    (frame_alloc sample_all_pinned 2 81920 none none).1.frame_list
      = sample_all_pinned.frame_list ∧
    (frame_alloc sample_all_pinned 2 81920 none none).1.frames = sample_all_pinned.frames ∧
    (frame_alloc sample_all_pinned 2 81920 none none).1.pagedir = sample_all_pinned.pagedir ∧
    (frame_alloc sample_all_pinned 2 81920 none none).1.swap = sample_all_pinned.swap ∧
    (frame_alloc sample_all_pinned 2 81920 none none).1.sup_page_list
      = sample_all_pinned.sup_page_list ∧
    (frame_alloc sample_all_pinned 2 81920 none none).1.mem = sample_all_pinned.mem :=
  frame_alloc_out_of_memory sample_all_pinned 2 81920 none (by decide) (by decide)

/-! ## Entries across frame allocation -/

theorem sup_page_update_swap_backing (s : State) (t0 uaddr : Nat) (slot : Int) (t sp : Nat) :
    (sup_page_get (sup_page_update_swap s t0 uaddr slot) t sp).backing
      = (sup_page_get s t sp).backing := by
  unfold sup_page_update_swap
  cases hl : sup_page_lookup s t0 uaddr with
  | none => rfl
  | some i =>
    have hi : i < (s.sup_page_list t0).length := lookup_loop_spec _ _ i hl
    simp only []
    by_cases ht : t = t0
    · subst ht
      by_cases hs : sp = i
      · subst hs
        rw [sup_page_get_set _ _ _ _ hi]
        rfl
      · simp [sup_page_get, sup_page_set, List.getD_eq_getElem?_getD,
          List.getElem?_set_ne (Ne.symm hs)]
    · simp [sup_page_get, sup_page_set, Function.update_noteq ht]

theorem evict_frame_backing (s : State) (v t sp : Nat) :
    (sup_page_get (evict_frame s v) t sp).backing = (sup_page_get s t sp).backing := by
  by_cases hd : pagedir_is_dirty s.pagedir (s.frames v).t (s.frames v).uaddr = true
  · have := sup_page_update_swap_backing
      { s with swap := (swap_out s.swap (s.mem (s.frames v).kpage)).1 }
      (s.frames v).t (s.frames v).uaddr (swap_out s.swap (s.mem (s.frames v).kpage)).2 t sp
    simp only [evict_frame, hd, if_true]
    exact this
  · simp [evict_frame, hd, sup_page_get]

/-- What a successful `frame_alloc` leaves: the frame it returns is registered, owned
by the caller for `uaddr` and not pinned; files are untouched and every entry keeps
its backing fields. -/
theorem frame_alloc_spec (s : State) (cur uaddr : Nat) (palloc malloc : Option Nat)
    (s1 : State) (f : Nat) (h : frame_alloc s cur uaddr palloc malloc = (s1, some f)) :
    f ∈ s1.frame_list ∧ s1.files = s.files ∧
    (∀ t sp, (sup_page_get s1 t sp).backing = (sup_page_get s t sp).backing) := by
  cases palloc with
  | none =>
    simp only [frame_alloc] at h
    cases hr : (select_victim_frame s).2 with
    | none =>
      have hpair : select_victim_frame s = ((select_victim_frame s).1, none) :=
        Prod.ext rfl hr
      rw [hpair] at h
      simp at h
    | some v =>
      have hpair : select_victim_frame s = ((select_victim_frame s).1, some v) :=
        Prod.ext rfl hr
      rw [hpair] at h
      simp only [Prod.mk.injEq, Option.some.injEq] at h
      obtain ⟨h1, h2⟩ := h
      subst h2
      subst h1
      refine ⟨by simp, ?_, ?_⟩
      · simp only [(evict_frame_fields _ _).2.2.2.2, (select_victim_frame_fields s).2.2.2.1]
      · intro t sp
        have e1 := evict_frame_backing (select_victim_frame s).1 v t sp
        have e2 : sup_page_get (select_victim_frame s).1 t sp = sup_page_get s t sp := by
          simp only [sup_page_get, (select_victim_frame_fields s).1]
        rw [← e2, ← e1]
        rfl
  | some k =>
    cases malloc with
    | none => simp [frame_alloc] at h
    | some a =>
      simp only [frame_alloc, Prod.mk.injEq, Option.some.injEq] at h
      obtain ⟨h1, h2⟩ := h
      subst h2
      subst h1
      refine ⟨?_, ?_, ?_⟩
      · cases hc : s.clock_hand <;> simp
      · cases hc : s.clock_hand <;> simp
      · intro t sp
        cases hc : s.clock_hand <;> simp [sup_page_get]

/-! ## Loading a file-backed page -/

theorem buf_write_read_at (p data : List Byte) (off : Nat) (h : off ≤ p.length) :
    buf_read (buf_write p off data) off data.length = data ∧
    buf_read (buf_write p off data) 0 off = buf_read p 0 off := by
  have ht : (List.take off p).length = off := by simp; omega
  constructor
  · simp only [buf_read, buf_write, List.append_assoc]
    rw [List.drop_append_of_le_length (by omega), List.drop_of_length_le (by omega)]
    simp
  · simp only [buf_read, buf_write, List.append_assoc, List.drop_zero]
    rw [List.take_append_of_le_length (by omega), List.take_of_length_le (by omega)]

theorem buf_write_front_length (p data : List Byte) :
    data.length ≤ (buf_write p 0 data).length ∧
    buf_read (buf_write p 0 data) 0 data.length = data := by
  simp [buf_read, buf_write]

theorem file_read_at_length (content : List Byte) (ofs rb : Nat) (h1 : rb < 2147483648)
    (h2 : ofs + rb ≤ content.length) :
    file_read_at content ofs (to_int rb) = buf_read content ofs rb ∧
    (buf_read content ofs rb).length = rb := by
  rw [to_int_of_lt rb h1]
  constructor
  · simp [file_read_at, buf_read]
  · simp [buf_read]; omega

/-- Claim C9 (file-backed load content): for a file-backed entry with `read_bytes +
zero_bytes = PGSIZE` whose file holds `read_bytes` bytes at `ofs`, a `sup_page_load`
that returns true leaves a registered frame whose page starts with the file bytes
`[ofs, ofs + read_bytes)` followed by `zero_bytes` zero bytes, mapped at the entry's
page with the entry's writability, owned by `t` for that page and not pinned. -/
theorem sup_page_load_file_content (s : State) (cur t sp : Nat) (palloc malloc : Option Nat)
    (set_ok : Bool)
    (htype : (sup_page_get s t sp).type = PageType.PAGE_FILE)
    (hsum : (sup_page_get s t sp).read_bytes + (sup_page_get s t sp).zero_bytes = PGSIZE)
    (hfile : (sup_page_get s t sp).ofs + (sup_page_get s t sp).read_bytes
      ≤ (s.files (sup_page_get s t sp).file).length)
    (hload : (sup_page_load s cur t sp palloc malloc set_ok).2 = true) :
    ∃ f, f ∈ (sup_page_load s cur t sp palloc malloc set_ok).1.frame_list ∧
      buf_read ((sup_page_load s cur t sp palloc malloc set_ok).1.mem
          ((sup_page_load s cur t sp palloc malloc set_ok).1.frames f).kpage)
        0 (sup_page_get s t sp).read_bytes
        = buf_read (s.files (sup_page_get s t sp).file) (sup_page_get s t sp).ofs
            (sup_page_get s t sp).read_bytes ∧
      (buf_read (s.files (sup_page_get s t sp).file) (sup_page_get s t sp).ofs
            (sup_page_get s t sp).read_bytes).length = (sup_page_get s t sp).read_bytes ∧
      buf_read ((sup_page_load s cur t sp palloc malloc set_ok).1.mem
          ((sup_page_load s cur t sp palloc malloc set_ok).1.frames f).kpage)
        (sup_page_get s t sp).read_bytes (sup_page_get s t sp).zero_bytes
        = List.replicate (sup_page_get s t sp).zero_bytes 0 ∧
      (sup_page_load s cur t sp palloc malloc set_ok).1.pagedir
          (t, pg_round_down (sup_page_get s t sp).uaddr)
        = { present := true,
            kpage := ((sup_page_load s cur t sp palloc malloc set_ok).1.frames f).kpage,
            writable := (sup_page_get s t sp).writable, accessed := false, dirty := false } ∧
      ((sup_page_load s cur t sp palloc malloc set_ok).1.frames f).pinned = false ∧
      ((sup_page_load s cur t sp palloc malloc set_ok).1.frames f).uaddr
        = (sup_page_get s t sp).uaddr ∧
      ((sup_page_load s cur t sp palloc malloc set_ok).1.frames f).t = t := by
  cases hfa : frame_alloc s cur (sup_page_get s t sp).uaddr palloc malloc with
  | mk s1 of =>
  cases of with
  | none =>
    simp [sup_page_load, htype, hfa] at hload
  | some f =>
    obtain ⟨hmem, hfiles, hback⟩ := frame_alloc_spec s cur _ palloc malloc s1 f hfa
    have hb := hback t sp
    simp only [SupPage.backing, Prod.mk.injEq] at hb
    obtain ⟨b1, b2, b3, b4, b5, b6⟩ := hb
    have hrb : (sup_page_get s t sp).read_bytes < 2147483648 := by
      have : PGSIZE = 4096 := rfl
      omega
    obtain ⟨hdata, hlen⟩ := file_read_at_length _ _ _ hrb hfile
    have e2 : sup_page_get (frame_set_pinned s1 f true) t sp = sup_page_get s1 t sp := rfl
    have hfs : (frame_set_pinned s1 f true).files = s.files := hfiles
    have hcond : ¬ (((buf_read (s.files (sup_page_get s t sp).file) (sup_page_get s t sp).ofs
        (sup_page_get s t sp).read_bytes).length : Int) ≠ to_int (sup_page_get s t sp).read_bytes) := by
      rw [hlen, to_int_of_lt _ hrb]; simp
    simp only [sup_page_load, htype, hfa, e2, b1, b2, b3, b4, b5, b6, hfs, hdata, hcond,
      if_false] at hload ⊢
    cases set_ok with
    | false => simp [pagedir_set_page] at hload
    | true =>
      simp only [pagedir_set_page, if_true]
      obtain ⟨hl1, hl2⟩ := buf_write_front_length
        (s1.mem (s1.frames f).kpage)
        (buf_read (s.files (sup_page_get s t sp).file) (sup_page_get s t sp).ofs
          (sup_page_get s t sp).read_bytes)
      rw [hlen] at hl1 hl2
      obtain ⟨hz1, hz2⟩ := buf_write_read_at _
        (List.replicate (sup_page_get s t sp).zero_bytes 0) _ hl1
      rw [List.length_replicate] at hz1
      refine ⟨f, ?_, ?_, hlen, ?_, ?_, ?_, ?_, ?_⟩
      · simpa [frame_finish, mem_store, frame_set_pinned] using hmem
      · simp only [frame_finish, mem_store, frame_set_pinned, Function.update_same]
        rw [hz2, hl2]
      · simp only [frame_finish, mem_store, frame_set_pinned, Function.update_same]
        exact hz1
      · simp [frame_finish, mem_store, frame_set_pinned]
      · simp [frame_finish]
      · simp [frame_finish]
      · simp [frame_finish]

set_option maxRecDepth 20000 in
/-- The load scenario of the spec, `read_bytes = 100` and `zero_bytes = 3996`, on a
fresh page. -/
theorem sup_page_load_file_content_witness :
    ∃ f, f ∈ (sup_page_load sample_file_entry 1 1 0 (some 81920) (some 10) true).1.frame_list ∧
      buf_read ((sup_page_load sample_file_entry 1 1 0 (some 81920) (some 10) true).1.mem
          ((sup_page_load sample_file_entry 1 1 0 (some 81920) (some 10) true).1.frames f).kpage)
        0 100 = buf_read (List.range 200) 20 100 ∧
      (buf_read (List.range 200) 20 100).length = 100 ∧
      buf_read ((sup_page_load sample_file_entry 1 1 0 (some 81920) (some 10) true).1.mem
          ((sup_page_load sample_file_entry 1 1 0 (some 81920) (some 10) true).1.frames f).kpage)
        100 3996 = List.replicate 3996 0 ∧
      (sup_page_load sample_file_entry 1 1 0 (some 81920) (some 10) true).1.pagedir
          (1, pg_round_down 40960)
        = { present := true,
            kpage := ((sup_page_load sample_file_entry 1 1 0 (some 81920) (some 10)
              true).1.frames f).kpage,
            writable := false, accessed := false, dirty := false } ∧
      ((sup_page_load sample_file_entry 1 1 0 (some 81920) (some 10) true).1.frames f).pinned
        = false ∧
      ((sup_page_load sample_file_entry 1 1 0 (some 81920) (some 10) true).1.frames f).uaddr
        = 40960 ∧
      ((sup_page_load sample_file_entry 1 1 0 (some 81920) (some 10) true).1.frames f).t = 1 :=
  sup_page_load_file_content sample_file_entry 1 1 0 (some 81920) (some 10) true
    (by decide) (by decide) (by decide) (by decide)

/-! ## No frame leak when the mapping cannot be installed -/

/-- After a successful `frame_alloc` on a state whose registered frames hold
pairwise different physical pages, with allocator results that are fresh, the frame
returned is linked once and no other registered frame holds its physical page.  The
hand matters on the eviction path only. -/
theorem frame_alloc_sole_owner (s : State) (cur uaddr : Nat) (palloc malloc : Option Nat)
    (hok : palloc = none → HandOK s)
    (hk : (s.frame_list.map (fun g => (s.frames g).kpage)).Nodup)
    (hpal : ∀ k ∈ palloc, ∀ g ∈ s.frame_list, (s.frames g).kpage ≠ k)
    (hmal : ∀ a ∈ malloc, a ∉ s.frame_list)
    (s1 : State) (f : Nat) (h : frame_alloc s cur uaddr palloc malloc = (s1, some f)) :
    f ∉ s1.frame_list.erase f ∧
    ∀ g ∈ s1.frame_list.erase f, (s1.frames g).kpage ≠ (s1.frames f).kpage := by
  have hnd : s.frame_list.Nodup := List.Nodup.of_map _ hk
  cases palloc with
  | none =>
    simp only [frame_alloc] at h
    cases hr : (select_victim_frame s).2 with
    | none =>
      have hpair : select_victim_frame s = ((select_victim_frame s).1, none) :=
        Prod.ext rfl hr
      rw [hpair] at h
      simp at h
    | some v =>
      have hpair : select_victim_frame s = ((select_victim_frame s).1, some v) :=
        Prod.ext rfl hr
      obtain ⟨hfr, hfl, h3, -⟩ := select_victim_frame_spec s
      have hv : v ∈ s.frame_list := (h3 v hr).2 (hok rfl)
      obtain ⟨e1, e2, -, -, -⟩ := evict_frame_fields (select_victim_frame s).1 v
      rw [hpair] at h
      simp only [Prod.mk.injEq, Option.some.injEq] at h
      obtain ⟨h1, h2⟩ := h
      subst h2
      subst h1
      have hnot : v ∉ s.frame_list.erase v := fun hm => ((List.Nodup.mem_erase_iff hnd).1 hm).1 rfl
      have hlist : ((evict_frame (select_victim_frame s).1 v).frame_list ++ [v]).erase v
          = s.frame_list.erase v := by
        rw [e1, hfl, List.erase_append_right _ hnot]
        simp
      simp only [hlist, e2, hfr]
      refine ⟨hnot, ?_⟩
      intro g hg
      have hgv : g ≠ v := fun hc => hnot (hc ▸ hg)
      have hgl : g ∈ s.frame_list := List.mem_of_mem_erase hg
      rw [Function.update_noteq hgv, Function.update_same]
      intro hc
      exact hgv (List.inj_on_of_nodup_map hk hgl hv hc)
  | some k =>
    cases malloc with
    | none => simp [frame_alloc] at h
    | some a =>
      have ha : a ∉ s.frame_list := hmal a rfl
      have hlist : (s.frame_list ++ [a]).erase a = s.frame_list := by
        rw [List.erase_append_right _ ha]; simp
      have hres : s1.frame_list = s.frame_list ++ [a] ∧
          s1.frames = Function.update s.frames a
            { kpage := k, uaddr := uaddr, t := cur, pinned := false } ∧ a = f := by
        simp only [frame_alloc, Prod.mk.injEq, Option.some.injEq] at h
        obtain ⟨h1, h2⟩ := h
        subst h2
        subst h1
        cases hc : s.clock_hand <;> simp
      obtain ⟨r1, r2, r3⟩ := hres
      subst r3
      rw [r1, r2, hlist]
      refine ⟨ha, ?_⟩
      intro g hg
      have hga : g ≠ a := fun hc => ha (hc ▸ hg)
      rw [Function.update_noteq hga, Function.update_same]
      exact hpal k rfl g hg

theorem frame_free_lookup_none (s1 sk : State) (f : Nat)
    (hown : f ∉ s1.frame_list.erase f ∧
      ∀ g ∈ s1.frame_list.erase f, (s1.frames g).kpage ≠ (s1.frames f).kpage)
    (hl : sk.frame_list = s1.frame_list) (hfr : ∀ g, g ≠ f → sk.frames g = s1.frames g) :
    f ∉ (frame_free sk f).frame_list ∧
    frame_lookup_by_kpage (frame_free sk f) (s1.frames f).kpage = none := by
  simp only [frame_free, frame_lookup_by_kpage, hl]
  refine ⟨hown.1, ?_⟩
  rw [List.find?_eq_none]
  intro g hg
  have hgf : g ≠ f := fun hc => hown.1 (hc ▸ hg)
  rw [hfr g hgf]
  simpa using hown.2 g hg

/-- No frame leak on failure: whatever the kind of the entry, once `frame_alloc` has
given `sup_page_load` a frame `f` and the installation of the hardware mapping fails,
`sup_page_load` returns false, `f` is no longer registered and `frame_lookup_by_kpage`
on its physical page returns `NULL`.  The state is one where registered frames hold
pairwise different physical pages and the allocators return a page and a struct not in
use; when there is no free page and a frame is evicted, the hand is unset or on a
registered frame. -/
theorem sup_page_load_no_leak (s : State) (cur t sp : Nat) (palloc malloc : Option Nat)
    (hok : palloc = none → HandOK s)
    (hk : (s.frame_list.map (fun g => (s.frames g).kpage)).Nodup)
    (hpal : ∀ k ∈ palloc, ∀ g ∈ s.frame_list, (s.frames g).kpage ≠ k)
    (hmal : ∀ a ∈ malloc, a ∉ s.frame_list)
    (s1 : State) (f : Nat)
    (hfa : frame_alloc s cur (sup_page_get s t sp).uaddr palloc malloc = (s1, some f)) :
    (sup_page_load s cur t sp palloc malloc false).2 = false ∧
    f ∉ (sup_page_load s cur t sp palloc malloc false).1.frame_list ∧
    frame_lookup_by_kpage (sup_page_load s cur t sp palloc malloc false).1
      (s1.frames f).kpage = none := by
  have hown := frame_alloc_sole_owner s cur _ palloc malloc hok hk hpal hmal s1 f hfa
  cases htype : (sup_page_get s t sp).type
  · simp only [sup_page_load, htype, hfa, pagedir_set_page]
    split
    · refine ⟨rfl, frame_free_lookup_none s1 _ f hown rfl ?_⟩
      intro g hg
      simp [mem_store, frame_set_pinned, Function.update_noteq hg]
    · refine ⟨rfl, frame_free_lookup_none s1 _ f hown rfl ?_⟩
      intro g hg
      simp [mem_store, frame_set_pinned, Function.update_noteq hg]
  · simp only [sup_page_load, htype, hfa, pagedir_set_page]
    refine ⟨rfl, frame_free_lookup_none s1 _ f hown rfl ?_⟩
    intro g hg
    simp [mem_store]
  · simp only [sup_page_load, htype, hfa, pagedir_set_page]
    refine ⟨rfl, frame_free_lookup_none s1 _ f hown rfl ?_⟩
    intro g hg
    simp [sup_page_set]
  · simp only [sup_page_load, htype, hfa, pagedir_set_page]
    split
    · refine ⟨rfl, frame_free_lookup_none s1 _ f hown rfl ?_⟩
      intro g hg
      simp [mem_store, frame_set_pinned, Function.update_noteq hg]
    · refine ⟨rfl, frame_free_lookup_none s1 _ f hown rfl ?_⟩
      intro g hg
      simp [mem_store, frame_set_pinned, Function.update_noteq hg]

set_option maxRecDepth 20000 in
/-- The load of `sample_file_entry` with a failing `pagedir_set_page`: the new frame
is gone from the registry. -/
theorem sup_page_load_no_leak_witness :
    (sup_page_load sample_file_entry 1 1 0 (some 81920) (some 10) false).2 = false ∧
    10 ∉ (sup_page_load sample_file_entry 1 1 0 (some 81920) (some 10) false).1.frame_list ∧
    frame_lookup_by_kpage (sup_page_load sample_file_entry 1 1 0 (some 81920) (some 10) false).1
      81920 = none :=
  sup_page_load_no_leak sample_file_entry 1 1 0 (some 81920) (some 10)
    (by decide) (by decide) (by decide) (by decide)
    (frame_alloc sample_file_entry 1 40960 (some 81920) (some 10)).1 10 rfl

/-! ## First fit and the reclaiming of slots -/

theorem bitmap_scan_none_of_full (b : List Bool) (h : false ∉ b) : bitmap_scan b = none := by
  cases hs : bitmap_scan b with
  | none => rfl
  | some i =>
    obtain ⟨hlt, hf, -⟩ := (bitmap_scan_spec b).1 i hs
    exact absurd (List.mem_iff_getElem?.2 ⟨i, hf⟩) h

theorem bitmap_scan_first (b : List Bool) (i : Nat) (hi : b[i]? = some false)
    (hlow : ∀ j, j < i → b[j]? = some true) : bitmap_scan b = some i := by
  obtain ⟨k, hk⟩ := bitmap_scan_of_mem b (List.mem_iff_getElem?.2 ⟨i, hi⟩)
  obtain ⟨-, hkf, hklow⟩ := (bitmap_scan_spec b).1 k hk
  rcases Nat.lt_trichotomy k i with h | h | h
  · have := hlow k h
    rw [hkf] at this; simp at this
  · rw [hk, h]
  · have := hklow i h
    rw [hi] at this; simp at this

/-- Claim C12 (first fit): on a swap state as `swap_init` sets it up, if a slot is
free, `swap_out` returns the lowest-numbered free slot `i`, sets exactly bit `i` of the
bitmap, stores the page in the sectors `[i * SECTORS_PER_PAGE, (i + 1) *
SECTORS_PER_PAGE)` and leaves every other sector as it was; if no slot is free it
returns `-1` and changes neither the bitmap nor the device. -/
theorem swap_out_first_fit (s : SwapState) (B : List Byte) (hwf : SwapWF s) :
    (false ∈ s.bitmap →
      ∃ i : Nat, i < s.bitmap.length ∧ s.bitmap[i]? = some false ∧
        (∀ j, j < i → s.bitmap[j]? = some true) ∧
        (swap_out s B).2 = (i : Int) ∧
        (swap_out s B).1.bitmap = s.bitmap.set i true ∧
        (∀ k, k < SECTORS_PER_PAGE →
          block_read (swap_out s B).1.block (i * SECTORS_PER_PAGE + k)
            = buf_read B (k * BLOCK_SECTOR_SIZE) BLOCK_SECTOR_SIZE) ∧
        (∀ j, (j < i * SECTORS_PER_PAGE ∨ (i + 1) * SECTORS_PER_PAGE ≤ j) →
          (swap_out s B).1.block[j]? = s.block[j]?)) ∧
    (false ∉ s.bitmap → swap_out s B = (s, -1)) := by
  constructor
  · intro hfree
    obtain ⟨i, hscan, hlt, hf, hret, hbm, -, hsec, hoth⟩ := swap_out_spec s B hwf hfree
    obtain ⟨-, -, hlow⟩ := (bitmap_scan_spec s.bitmap).1 i hscan
    refine ⟨i, hlt, hf, hlow, hret, hbm, hsec, ?_⟩
    intro j hj
    apply hoth j
    have e : (i + 1) * SECTORS_PER_PAGE = i * SECTORS_PER_PAGE + SECTORS_PER_PAGE := by ring
    omega
  · intro hfull
    simp [swap_out, bitmap_scan_none_of_full _ hfull]

/-- First fit on a device of two slots whose first slot is taken: slot 1 is returned. -/
theorem swap_out_first_fit_witness :
    ∃ i : Nat, i < 2 ∧ [true, false][i]? = some false ∧
      (∀ j, j < i → [true, false][j]? = some true) ∧
      (swap_out ⟨List.replicate 16 [], [true, false]⟩ (List.replicate 4096 7)).2 = (i : Int) ∧
      (swap_out ⟨List.replicate 16 [], [true, false]⟩ (List.replicate 4096 7)).1.bitmap
        = [true, false].set i true ∧
      (∀ k, k < SECTORS_PER_PAGE →
        block_read (swap_out ⟨List.replicate 16 [], [true, false]⟩
            (List.replicate 4096 7)).1.block (i * SECTORS_PER_PAGE + k)
          = buf_read (List.replicate 4096 7) (k * BLOCK_SECTOR_SIZE) BLOCK_SECTOR_SIZE) ∧
      (∀ j, (j < i * SECTORS_PER_PAGE ∨ (i + 1) * SECTORS_PER_PAGE ≤ j) →
        (swap_out ⟨List.replicate 16 [], [true, false]⟩ (List.replicate 4096 7)).1.block[j]?
          = (List.replicate 16 ([] : List Byte))[j]?) :=
  (swap_out_first_fit ⟨List.replicate 16 [], [true, false]⟩ (List.replicate 4096 7)
    (by simp [SwapWF, SECTORS_PER_PAGE, PGSIZE, BLOCK_SECTOR_SIZE])).1 (by decide)

theorem bitmap_reset_keeps_clear (b : List Bool) (k i : Nat) (h : b[i]? = some false) :
    (bitmap_reset b k)[i]? = some false := by
  unfold bitmap_reset
  by_cases hk : k = i
  · subst hk
    have hlt : k < b.length := (List.getElem?_eq_some.1 h).1
    simp [List.getElem?_set, hlt]
  · rw [List.getElem?_set_ne hk]; exact h

theorem destroy_loop_spec (l : List SupPage) :
    ∀ sw : SwapState,
      (destroy_loop sw l).block = sw.block ∧
      (destroy_loop sw l).bitmap.length = sw.bitmap.length ∧
      (∀ j : Nat, sw.bitmap[j]? = some false → (destroy_loop sw l).bitmap[j]? = some false) ∧
      (∀ e ∈ l, e.type = PageType.PAGE_SWAP → ∀ i : Nat, e.swap_slot = (i : Int) →
        i < sw.bitmap.length → i < 4294967296 →
        (destroy_loop sw l).bitmap[i]? = some false) := by
  induction l with
  | nil => intro sw; simp [destroy_loop]
  | cons a rest ih =>
    intro sw
    simp only [destroy_loop]
    obtain ⟨h1, h2, h3, h4⟩ := ih
      (if a.type = PageType.PAGE_SWAP ∧ a.swap_slot ≠ -1 then swap_free sw a.swap_slot else sw)
    have hstep : (if a.type = PageType.PAGE_SWAP ∧ a.swap_slot ≠ -1
          then swap_free sw a.swap_slot else sw).block = sw.block ∧
        (if a.type = PageType.PAGE_SWAP ∧ a.swap_slot ≠ -1
          then swap_free sw a.swap_slot else sw).bitmap.length = sw.bitmap.length ∧
        (∀ j : Nat, sw.bitmap[j]? = some false →
          (if a.type = PageType.PAGE_SWAP ∧ a.swap_slot ≠ -1
            then swap_free sw a.swap_slot else sw).bitmap[j]? = some false) := by
      split_ifs
      · refine ⟨rfl, by simp [swap_free, bitmap_reset], ?_⟩
        intro j hj
        exact bitmap_reset_keeps_clear _ _ _ hj
      · exact ⟨rfl, rfl, fun j hj => hj⟩
    obtain ⟨g1, g2, g3⟩ := hstep
    refine ⟨h1.trans g1, h2.trans g2, fun j hj => h3 j (g3 j hj), ?_⟩
    intro e he htype i hslot hlt h32
    rcases List.mem_cons.1 he with hea | her
    · subst hea
      apply h3
      have hne : (e.swap_slot ≠ -1) := by rw [hslot]; omega
      rw [if_pos ⟨htype, hne⟩, hslot]
      simp only [swap_free, to_size_t_of_lt i h32, bitmap_reset]
      simp [List.getElem?_set, hlt]
    · exact h4 e her htype i hslot (by rw [g2]; exact hlt) h32

/-- Claim C11 (destroy reclaims swap): if the table of `t` has a swapped-out entry
holding the slot `i` of the bitmap (swap state as `swap_init` sets it up), then after
`sup_page_destroy` the table of `t` is empty and bit `i` is clear, and whenever no
lower-numbered slot is free the next `swap_out` returns exactly `i`. -/
theorem destroy_reclaims_swap (s : State) (t : Nat) (e : SupPage) (i : Nat)
    (hwf : SwapWF s.swap) (he : e ∈ s.sup_page_list t)
    (htype : e.type = PageType.PAGE_SWAP) (hslot : e.swap_slot = (i : Int))
    (hi : i < s.swap.bitmap.length) :
    (sup_page_destroy s t).sup_page_list t = [] ∧
    (sup_page_destroy s t).swap.bitmap[i]? = some false ∧
    ((∀ j, j < i → (sup_page_destroy s t).swap.bitmap[j]? = some true) →
      ∀ page, (swap_out (sup_page_destroy s t).swap page).2 = (i : Int)) := by
  obtain ⟨hw1, hw2⟩ := hwf
  have hspp : SECTORS_PER_PAGE = 8 := by decide
  rw [hspp] at hw1
  obtain ⟨-, -, -, h4⟩ := destroy_loop_spec (s.sup_page_list t) s.swap
  have hclear := h4 e he htype i hslot hi (by omega)
  refine ⟨by simp [sup_page_destroy], hclear, ?_⟩
  intro hlow page
  have hscan := bitmap_scan_first _ i hclear hlow
  simp only [sup_page_destroy] at hscan ⊢
  simp only [swap_out, hscan]
  exact to_int_of_lt i (by omega)

/-- Destroying the table of thread 1 in `sample_swapped` empties it and frees slot 1,
which the next `swap_out` returns. -/
theorem destroy_reclaims_swap_witness :
    (sup_page_destroy sample_swapped 1).sup_page_list 1 = [] ∧
    (sup_page_destroy sample_swapped 1).swap.bitmap[1]? = some false ∧
    ∀ page, (swap_out (sup_page_destroy sample_swapped 1).swap page).2 = ((1 : Nat) : Int) :=
  ⟨(destroy_reclaims_swap sample_swapped 1 (sup_page_get sample_swapped 1 0) 1
      (by unfold SwapWF; decide) (by decide) rfl rfl (by decide)).1,
   (destroy_reclaims_swap sample_swapped 1 (sup_page_get sample_swapped 1 0) 1
      (by unfold SwapWF; decide) (by decide) rfl rfl (by decide)).2.1,
   (destroy_reclaims_swap sample_swapped 1 (sup_page_get sample_swapped 1 0) 1
      (by unfold SwapWF; decide) (by decide) rfl rfl (by decide)).2.2 (by decide)⟩

/-! ## Install, lookup and uniqueness of entries -/

theorem lookup_loop_none (p : Nat) (l : List SupPage) :
    lookup_loop p l = none ↔ ∀ e ∈ l, e.uaddr ≠ p := by
  induction l with
  | nil => simp [lookup_loop]
  | cons a rest ih =>
    simp only [lookup_loop]
    by_cases h : a.uaddr = p
    · simp [h]
    · simp [h, ih]

theorem lookup_loop_append (p : Nat) (l : List SupPage) (e : SupPage)
    (hl : lookup_loop p l = none) (he : e.uaddr = p) :
    lookup_loop p (l ++ [e]) = some l.length := by
  induction l with
  | nil => simp [lookup_loop, he]
  | cons a rest ih =>
    simp only [lookup_loop] at hl
    by_cases h : a.uaddr = p
    · simp [h] at hl
    · simp only [h, if_false, Option.map_eq_none'] at hl
      simp [lookup_loop, h, ih hl]

/-- Claim C17 (install then lookup): `sup_page_install` returns false only when
`malloc` gives no record; on success, if the process had no entry for the page of `a`,
`sup_page_lookup` at every address `b` of that page returns an entry whose address is
`a` rounded down and whose kind, file, offset, byte counts and writability are the
installed ones; and in every state `sup_page_lookup` returns `NULL` exactly when no
entry of the process is for the page of the queried address. -/
theorem install_then_lookup (s : State) (t a : Nat) (type : PageType) (file ofs : Nat)
    (read_bytes zero_bytes : Nat) (writable : Bool) (malloc_ok : Bool) :
    ((sup_page_install s t a type file ofs read_bytes zero_bytes writable malloc_ok).2 = false
      ↔ malloc_ok = false) ∧
    (malloc_ok = true → sup_page_lookup s t a = none →
      ∀ b, pg_round_down b = pg_round_down a →
      ∃ sp, sup_page_lookup
          (sup_page_install s t a type file ofs read_bytes zero_bytes writable malloc_ok).1
          t b = some sp ∧
        sup_page_get
          (sup_page_install s t a type file ofs read_bytes zero_bytes writable malloc_ok).1
          t sp
        = { uaddr := pg_round_down a, type := type, file := file, ofs := ofs,
            read_bytes := read_bytes, zero_bytes := zero_bytes, writable := writable,
            swap_slot := -1 }) ∧
    (∀ (s0 : State) (t0 b : Nat),
      sup_page_lookup s0 t0 b = none ↔
        ∀ e ∈ s0.sup_page_list t0, e.uaddr ≠ pg_round_down b) := by
  refine ⟨?_, ?_, ?_⟩
  · cases malloc_ok <;> simp [sup_page_install]
  · intro hok hnone b hb
    subst hok
    refine ⟨(s.sup_page_list t).length, ?_, ?_⟩
    · simp only [sup_page_install, sup_page_lookup, Bool.not_true, Bool.false_eq_true,
        if_false, Function.update_same, hb]
      exact lookup_loop_append _ _ _ hnone rfl
    · simp [sup_page_install, sup_page_get, List.getD_eq_getElem?_getD]
  · intro s0 t0 b
    exact lookup_loop_none _ _

/-- In `sample_file_entry` thread 1 has no entry for page `20 * PGSIZE`; after
installing a zero-fill entry at an address inside that page, lookup at another address
of the page finds the installed entry. -/
theorem install_then_lookup_witness :
    ∃ sp, sup_page_lookup
        (sup_page_install sample_file_entry 1 81925 PageType.PAGE_ZERO 0 0 0 4096 true true).1
        1 81999 = some sp ∧
      sup_page_get
        (sup_page_install sample_file_entry 1 81925 PageType.PAGE_ZERO 0 0 0 4096 true true).1
        1 sp
      = { uaddr := pg_round_down 81925, type := PageType.PAGE_ZERO, file := 0, ofs := 0,
          read_bytes := 0, zero_bytes := 4096, writable := true, swap_slot := -1 } :=
  (install_then_lookup sample_file_entry 1 81925 PageType.PAGE_ZERO 0 0 0 4096 true true).2.1
    rfl (by decide) 81999 (by decide)

theorem install_list (s : State) (t a : Nat) (type : PageType) (file ofs : Nat)
    (read_bytes zero_bytes : Nat) (writable : Bool) (t0 : Nat) :
    (sup_page_install s t a type file ofs read_bytes zero_bytes writable true).1.sup_page_list t0
      = if t0 = t then
          s.sup_page_list t ++
            [{ uaddr := pg_round_down a, type := type, file := file, ofs := ofs,
               read_bytes := read_bytes, zero_bytes := zero_bytes, writable := writable,
               swap_slot := -1 }]
        else s.sup_page_list t0 := by
  by_cases h : t0 = t
  · subst h; simp [sup_page_install]
  · simp [sup_page_install, Function.update_noteq h, h]

theorem install_unique (s : State) (t a : Nat) (type : PageType) (file ofs : Nat)
    (read_bytes zero_bytes : Nat) (writable : Bool) (malloc_ok : Bool)
    (hu : SptUnique s) (hnone : sup_page_lookup s t a = none) :
    SptUnique
      (sup_page_install s t a type file ofs read_bytes zero_bytes writable malloc_ok).1 := by
  cases malloc_ok with
  | false => simpa [sup_page_install] using hu
  | true =>
    intro t0
    rw [install_list]
    by_cases h : t0 = t
    · subst h
      simp only [if_true, List.map_append, List.map_cons, List.map_nil]
      have hno := (lookup_loop_none _ _).1 hnone
      rw [List.nodup_append]
      refine ⟨hu t0, by simp, ?_⟩
      intro x hx1 hx2
      simp only [List.mem_singleton] at hx2
      obtain ⟨e, he, hex⟩ := List.mem_map.1 hx1
      exact hno e he (hex.trans hx2)
    · simp only [h, if_false]; exact hu t0

theorem pg_round_down_idem (a : Nat) : pg_round_down (pg_round_down a) = pg_round_down a := by
  unfold pg_round_down
  rw [Nat.mul_div_cancel _ (by decide : 0 < PGSIZE)]

/-- Claim C15, as amended: `sup_page_install` and the stack-growth path
(`vm_try_handle_fault` with `vm_stack_growth`) keep every table at one entry per
page-aligned address at most, provided the process has no entry yet for the page of the
address (`sup_page_lookup` returns `NULL`); neither of them checks this itself. -/
theorem adding_entries_keeps_unique (s : State) (hu : SptUnique s) :
    (∀ (t a : Nat) (type : PageType) (file ofs read_bytes zero_bytes : Nat)
        (writable malloc_ok : Bool),
      sup_page_lookup s t a = none →
      SptUnique
        (sup_page_install s t a type file ofs read_bytes zero_bytes writable malloc_ok).1) ∧
    (∀ (cur saved_esp addr : Nat) (user write not_present malloc_ok : Bool),
      sup_page_lookup s cur addr = none →
      SptUnique
        (vm_try_handle_fault s cur saved_esp addr user write not_present malloc_ok).1) := by
  constructor
  · intro t a type file ofs rb zb w ok hnone
    exact install_unique s t a type file ofs rb zb w ok hu hnone
  · intro cur esp addr user write np ok hnone
    unfold vm_try_handle_fault
    split_ifs
    · unfold vm_stack_growth
      simp only []
      split_ifs
      · exact hu
      · apply install_unique _ _ _ _ _ _ _ _ _ _ hu
        simpa [sup_page_lookup, pg_round_down_idem] using hnone
    · exact hu
    · exact hu

/-- On the empty system a first install and a first stack-growth fault keep the
tables duplicate-free. -/
theorem adding_entries_keeps_unique_witness :
    SptUnique
      (sup_page_install sample_empty 1 40960 PageType.PAGE_ZERO 0 0 0 4096 true true).1 ∧
    SptUnique
      (vm_try_handle_fault sample_empty 1 3221225464 3221225464 true true true true).1 :=
  ⟨(adding_entries_keeps_unique sample_empty (fun _ => List.nodup_nil)).1
      1 40960 PageType.PAGE_ZERO 0 0 0 4096 true true rfl,
   (adding_entries_keeps_unique sample_empty (fun _ => List.nodup_nil)).2
      1 3221225464 3221225464 true true true true rfl⟩

/-- Claim C15 fails as stated: on the empty system, whose tables are duplicate-free, a
second `sup_page_install` for the same page, and likewise a second stack-growth fault
on the same page, leaves thread 1 with two entries for one page. -/
theorem adding_entries_counterexample :
    SptUnique sample_empty ∧
    (((sup_page_install
        (sup_page_install sample_empty 1 40960 PageType.PAGE_ZERO 0 0 0 4096 true true).1
        1 40961 PageType.PAGE_ZERO 0 0 0 4096 true true).1.sup_page_list 1).map
      (fun e => e.uaddr)) = [40960, 40960] ∧
    ¬ SptUnique
      (sup_page_install
        (sup_page_install sample_empty 1 40960 PageType.PAGE_ZERO 0 0 0 4096 true true).1
        1 40961 PageType.PAGE_ZERO 0 0 0 4096 true true).1 ∧
    ¬ SptUnique
      (vm_try_handle_fault
        (vm_try_handle_fault sample_empty 1 3221225464 3221225464 true true true true).1
        1 3221225464 3221225464 true true true true).1 := by
  refine ⟨fun _ => List.nodup_nil, by decide, ?_, ?_⟩
  · intro h
    exact absurd (h 1) (by decide)
  · intro h
    exact absurd (h 1) (by decide)

/-! ## Reload of a swapped-out entry; fault dispatch -/

theorem sup_page_update_swap_entries (s : State) (t0 uaddr : Nat) (slot : Int) (t sp : Nat) :
    ((sup_page_update_swap s t0 uaddr slot).sup_page_list t).length
      = (s.sup_page_list t).length ∧
    ((sup_page_get s t sp).type = PageType.PAGE_SWAP →
      (sup_page_get (sup_page_update_swap s t0 uaddr slot) t sp).type = PageType.PAGE_SWAP) := by
  unfold sup_page_update_swap
  cases hl : sup_page_lookup s t0 uaddr with
  | none => exact ⟨rfl, fun h => h⟩
  | some i =>
    have hi : i < (s.sup_page_list t0).length := lookup_loop_spec _ _ i hl
    simp only []
    by_cases ht : t = t0
    · subst ht
      refine ⟨by simp [sup_page_set], ?_⟩
      intro h
      by_cases hs : sp = i
      · subst hs
        rw [sup_page_get_set _ _ _ _ hi]
      · simpa [sup_page_get, sup_page_set, List.getD_eq_getElem?_getD,
          List.getElem?_set_ne (Ne.symm hs)] using h
    · refine ⟨by simp [sup_page_set, Function.update_noteq ht], ?_⟩
      intro h
      simpa [sup_page_get, sup_page_set, Function.update_noteq ht] using h

theorem evict_frame_entries (s : State) (v t sp : Nat) :
    ((evict_frame s v).sup_page_list t).length = (s.sup_page_list t).length ∧
    ((sup_page_get s t sp).type = PageType.PAGE_SWAP →
      (sup_page_get (evict_frame s v) t sp).type = PageType.PAGE_SWAP) := by
  by_cases hd : pagedir_is_dirty s.pagedir (s.frames v).t (s.frames v).uaddr = true
  · have := sup_page_update_swap_entries
      { s with swap := (swap_out s.swap (s.mem (s.frames v).kpage)).1 }
      (s.frames v).t (s.frames v).uaddr (swap_out s.swap (s.mem (s.frames v).kpage)).2 t sp
    simp only [evict_frame, hd, if_true]
    exact this
  · simp only [evict_frame, hd]
    exact ⟨rfl, fun h => h⟩

/-- Across a successful `frame_alloc` every table keeps its length and an entry whose
kind is `PAGE_SWAP` keeps that kind. -/
theorem frame_alloc_entries (s : State) (cur uaddr : Nat) (palloc malloc : Option Nat)
    (s1 : State) (f : Nat) (h : frame_alloc s cur uaddr palloc malloc = (s1, some f))
    (t sp : Nat) :
    (s1.sup_page_list t).length = (s.sup_page_list t).length ∧
    ((sup_page_get s t sp).type = PageType.PAGE_SWAP →
      (sup_page_get s1 t sp).type = PageType.PAGE_SWAP) := by
  cases palloc with
  | none =>
    simp only [frame_alloc] at h
    cases hr : (select_victim_frame s).2 with
    | none =>
      have hpair : select_victim_frame s = ((select_victim_frame s).1, none) :=
        Prod.ext rfl hr
      rw [hpair] at h
      simp at h
    | some v =>
      have hpair : select_victim_frame s = ((select_victim_frame s).1, some v) :=
        Prod.ext rfl hr
      rw [hpair] at h
      simp only [Prod.mk.injEq, Option.some.injEq] at h
      obtain ⟨h1, h2⟩ := h
      subst h2
      subst h1
      have e1 := evict_frame_entries (select_victim_frame s).1 v t sp
      have e2 : (select_victim_frame s).1.sup_page_list = s.sup_page_list :=
        (select_victim_frame_fields s).1
      have e3 : sup_page_get (select_victim_frame s).1 t sp = sup_page_get s t sp := by
        simp only [sup_page_get, e2]
      rw [e3, e2] at e1
      exact e1
  | some k =>
    cases malloc with
    | none => simp [frame_alloc] at h
    | some a =>
      simp only [frame_alloc, Prod.mk.injEq, Option.some.injEq] at h
      obtain ⟨h1, h2⟩ := h
      subst h2
      subst h1
      constructor
      · cases hc : s.clock_hand <;> simp
      · intro ht
        cases hc : s.clock_hand <;> simpa [sup_page_get] using ht

theorem sup_page_get_type_valid (s : State) (t sp : Nat)
    (h : (sup_page_get s t sp).type = PageType.PAGE_SWAP) : sp < (s.sup_page_list t).length := by
  by_contra hcon
  have : (s.sup_page_list t)[sp]? = none := List.getElem?_eq_none (by omega)
  simp [sup_page_get, List.getD_eq_getElem?_getD, this] at h

/-- What a reload does to the entry: after `sup_page_load` succeeds on an entry whose
kind is swapped-out, the entry holds no swap slot (`swap_slot = -1`), while its kind is
still swapped-out: the load never writes `type`. -/
theorem reload_clears_slot_keeps_kind (s : State) (cur t sp : Nat)
    (palloc malloc : Option Nat) (set_ok : Bool)
    (htype : (sup_page_get s t sp).type = PageType.PAGE_SWAP)
    (hload : (sup_page_load s cur t sp palloc malloc set_ok).2 = true) :
    (sup_page_get (sup_page_load s cur t sp palloc malloc set_ok).1 t sp).swap_slot = -1 ∧
    (sup_page_get (sup_page_load s cur t sp palloc malloc set_ok).1 t sp).type
      = PageType.PAGE_SWAP := by
  cases hfa : frame_alloc s cur (sup_page_get s t sp).uaddr palloc malloc with
  | mk s1 of =>
  cases of with
  | none => simp [sup_page_load, htype, hfa] at hload
  | some f =>
    obtain ⟨hlen, hty⟩ := frame_alloc_entries s cur _ palloc malloc s1 f hfa t sp
    have hsp : sp < (s1.sup_page_list t).length := by
      rw [hlen]; exact sup_page_get_type_valid s t sp htype
    have hty1 := hty htype
    simp only [sup_page_load, htype, hfa] at hload ⊢
    cases set_ok with
    | false => simp [pagedir_set_page] at hload
    | true =>
      simp only [pagedir_set_page, if_true]
      have hget := sup_page_get_set
        { s1 with swap := (swap_in s1.swap (sup_page_get s1 t sp).swap_slot
                    (s1.mem (s1.frames f).kpage)).1,
                  mem := Function.update s1.mem (s1.frames f).kpage
                    (swap_in s1.swap (sup_page_get s1 t sp).swap_slot
                      (s1.mem (s1.frames f).kpage)).2 }
        t sp
        { sup_page_get s1 t sp with swap_slot := -1 } hsp
      simp only [frame_finish, sup_page_get, sup_page_set] at hget ⊢
      simp only [sup_page_get] at hty1
      rw [hget]
      exact ⟨rfl, hty1⟩

set_option maxRecDepth 20000 in
/-- Reloading the entry of `sample_swapped` on a fresh page succeeds, and the entry then
holds no slot and is still swapped-out. -/
theorem reload_clears_slot_keeps_kind_witness :
    (sup_page_get (sup_page_load sample_swapped 1 1 0 (some 81920) (some 10) true).1 1 0).swap_slot
      = -1 ∧
    (sup_page_get (sup_page_load sample_swapped 1 1 0 (some 81920) (some 10) true).1 1 0).type
      = PageType.PAGE_SWAP :=
  reload_clears_slot_keeps_kind sample_swapped 1 1 0 (some 81920) (some 10) true
    (by decide) (by decide)

set_option maxRecDepth 20000 in
/-- Claim C16 at its failing input: the entry of `sample_swapped` is swapped-out, its
load succeeds, and afterwards its kind is still swapped-out, where the claim has it
mutated back. -/
theorem reload_keeps_kind_counterexample :
    (sup_page_get sample_swapped 1 0).type = PageType.PAGE_SWAP ∧
    (sup_page_load sample_swapped 1 1 0 (some 81920) (some 10) true).2 = true ∧
    ¬ ((sup_page_get (sup_page_load sample_swapped 1 1 0 (some 81920) (some 10) true).1 1 0).type
      ≠ PageType.PAGE_SWAP) := by
  decide

/-- What `vm_try_handle_fault` does apart from the dropped result of
`sup_page_install`: it returns true exactly on a user fault on a page that is not
present with the address at or above `esp - 32` (32-bit) and inside the stack region;
the page of such an address lies inside the stack region; when `malloc` delivers, a
writable zero-fill entry for the page is in the table afterwards; and when it returns
false the state is unchanged. -/
theorem vm_try_handle_fault_spec (s : State) (cur saved_esp addr : Nat)
    (user write not_present malloc_ok : Bool) :
    ((vm_try_handle_fault s cur saved_esp addr user write not_present malloc_ok).2 = true ↔
      (user = true ∧ not_present = true ∧
        (saved_esp + 4294967296 - 32) % 4294967296 ≤ addr ∧
        PHYS_BASE - STACK_LIMIT ≤ addr ∧ addr < PHYS_BASE)) ∧
    ((vm_try_handle_fault s cur saved_esp addr user write not_present malloc_ok).2 = true →
      PHYS_BASE - STACK_LIMIT ≤ pg_round_down addr ∧
      pg_round_down addr + PGSIZE ≤ PHYS_BASE ∧
      (malloc_ok = true →
        ∃ e ∈ (vm_try_handle_fault s cur saved_esp addr user write not_present
            malloc_ok).1.sup_page_list cur,
          e.uaddr = pg_round_down addr ∧ e.type = PageType.PAGE_ZERO ∧ e.writable = true)) ∧
    ((vm_try_handle_fault s cur saved_esp addr user write not_present malloc_ok).2 = false →
      (vm_try_handle_fault s cur saved_esp addr user write not_present malloc_ok).1 = s) := by
  have hrange : PHYS_BASE - STACK_LIMIT ≤ addr → addr < PHYS_BASE →
      PHYS_BASE - STACK_LIMIT ≤ pg_round_down addr ∧ pg_round_down addr + PGSIZE ≤ PHYS_BASE := by
    intro h1 h2
    simp only [PHYS_BASE, STACK_LIMIT, pg_round_down, PGSIZE] at *
    omega
  refine ⟨?_, ?_, ?_⟩
  · unfold vm_try_handle_fault
    cases user <;> cases not_present <;> simp
    split_ifs with h
    · simpa using h
    · simpa using h
  · intro h
    unfold vm_try_handle_fault at h ⊢
    split_ifs at h ⊢ with h1 h2
    · obtain ⟨r1, r2⟩ := hrange h2.2.1 h2.2.2
      refine ⟨r1, r2, ?_⟩
      intro hm
      subst hm
      have hnot : ¬ pg_round_down addr < PHYS_BASE - STACK_LIMIT := by omega
      simp only [vm_stack_growth, hnot, if_false]
      rw [install_list]
      simp only [if_true, pg_round_down_idem]
      exact ⟨_, List.mem_append_right _ (List.mem_singleton.2 rfl), rfl, rfl, rfl⟩
  · intro h
    unfold vm_try_handle_fault at h ⊢
    split_ifs at h ⊢ <;> rfl

/-- Claim C19 at its failing input: a user fault on a page that is not present, at an
address eight bytes below `PHYS_BASE` with `esp` at that address, while `malloc` has no
record to give.  `vm_try_handle_fault` returns true, yet the table of the thread is as
empty as before and lookup of the address finds no entry. -/
theorem fault_reported_resolved_without_entry :
    (vm_try_handle_fault sample_empty 1 3221225464 3221225464 true true true false).2 = true ∧
    (vm_try_handle_fault sample_empty 1 3221225464 3221225464 true true true false).1.sup_page_list 1
      = [] ∧
    sup_page_lookup
      (vm_try_handle_fault sample_empty 1 3221225464 3221225464 true true true false).1
      1 3221225464 = none := by
  decide

/-! ## The slot invariant: update after swap -/

theorem slot_inv_congr (s s1 : State) (hl : s1.sup_page_list = s.sup_page_list)
    (hs : s1.swap = s.swap) (h : SlotInv s) : SlotInv s1 := by
  obtain ⟨h1, h2, h3⟩ := h
  refine ⟨by rw [hs]; exact h1, ?_, ?_⟩
  · intro t e he
    rw [hl] at he
    rw [hs]
    exact h2 t e he
  · intro t1 i1 t2 i2 e1 e2 g1 g2
    rw [hl] at g1 g2
    rw [hs]
    exact h3 t1 i1 t2 i2 e1 e2 g1 g2

theorem sup_page_set_list (s : State) (t sp : Nat) (e : SupPage) (t1 j : Nat) :
    ((sup_page_set s t sp e).sup_page_list t1)[j]?
      = if t1 = t ∧ j = sp then ((s.sup_page_list t)[sp]?).map (fun _ => e)
        else (s.sup_page_list t1)[j]? := by
  by_cases ht : t1 = t
  · subst ht
    simp only [sup_page_set, Function.update_same, true_and]
    by_cases hj : j = sp
    · subst hj
      simp only [if_true, List.getElem?_set, if_true]
      by_cases hlt : j < (s.sup_page_list t1).length
      · simp [hlt]
      · simp [hlt, List.getElem?_eq_none (Nat.le_of_not_lt hlt)]
    · simp only [hj, if_false]
      rw [List.getElem?_set_ne (Ne.symm hj)]
  · simp [sup_page_set, Function.update_noteq ht, ht]

theorem sup_page_get_of_getElem (s : State) (t sp : Nat) (e : SupPage)
    (h : (s.sup_page_list t)[sp]? = some e) : sup_page_get s t sp = e := by
  simp [sup_page_get, List.getD_eq_getElem?_getD, h]

/-- Recording a slot with `sup_page_update_swap` keeps the invariant when the swap
state has grown (held slots stay held) and the recorded value is `-1` or a slot that
was free before and is held now. -/
theorem slot_inv_record (s : State) (sw : SwapState) (t uaddr : Nat) (r : Int)
    (h : SlotInv s) (hwf : SwapWF sw) (hlen : sw.bitmap.length = s.swap.bitmap.length)
    (hkeep : ∀ v, SlotHeld s.swap v → SlotHeld sw v)
    (hr : r = -1 ∨ (SlotHeld sw r ∧ ¬ SlotHeld s.swap r)) :
    SlotInv (sup_page_update_swap { s with swap := sw } t uaddr r) := by
  obtain ⟨h1, h2, h3⟩ := h
  unfold sup_page_update_swap
  cases hl : sup_page_lookup { s with swap := sw } t uaddr with
  | none =>
    refine ⟨hwf, ?_, ?_⟩
    · intro t1 e he
      rcases h2 t1 e he with g | ⟨g1, g2⟩
      · exact Or.inl g
      · exact Or.inr ⟨g1, hkeep _ g2⟩
    · intro t1 i1 t2 i2 e1 e2 g1 g2 g3 g4 g5 g6 g7
      exact h3 t1 i1 t2 i2 e1 e2 g1 g2 g3 g4 g5 g6 (by simpa only [hlen] using g7)
  | some j0 =>
    have hj0 : j0 < (s.sup_page_list t).length := lookup_loop_spec _ _ j0 hl
    obtain ⟨e0, he0⟩ : ∃ e0, (s.sup_page_list t)[j0]? = some e0 :=
      ⟨_, List.getElem?_eq_getElem hj0⟩
    have hget : sup_page_get { s with swap := sw } t j0 = e0 :=
      sup_page_get_of_getElem _ _ _ _ he0
    simp only [hget]
    have hlist : ∀ t1 j, ((sup_page_set { s with swap := sw } t j0
          { e0 with type := PageType.PAGE_SWAP, swap_slot := r }).sup_page_list t1)[j]?
        = if t1 = t ∧ j = j0 then some { e0 with type := PageType.PAGE_SWAP, swap_slot := r }
          else (s.sup_page_list t1)[j]? := by
      intro t1 j
      rw [sup_page_set_list]
      simp only [he0, Option.map_some']
    have hsw : (sup_page_set { s with swap := sw } t j0
        { e0 with type := PageType.PAGE_SWAP, swap_slot := r }).swap = sw := rfl
    have hold : ∀ t1 e, e ∈ s.sup_page_list t1 → 0 ≤ e.swap_slot → SlotHeld s.swap e.swap_slot := by
      intro t1 e he hpos
      rcases h2 t1 e he with g | ⟨-, g2⟩
      · rw [g] at hpos; omega
      · exact g2
    refine ⟨hwf, ?_, ?_⟩
    · intro t1 e he
      obtain ⟨j, hj⟩ := List.mem_iff_getElem?.1 he
      rw [hlist] at hj
      rw [hsw]
      split_ifs at hj with hc
      · simp only [Option.some.injEq] at hj
        subst hj
        rcases hr with g | ⟨g, -⟩
        · exact Or.inl g
        · exact Or.inr ⟨rfl, g⟩
      · rcases h2 t1 e (List.mem_iff_getElem?.2 ⟨j, hj⟩) with g | ⟨g1, g2⟩
        · exact Or.inl g
        · exact Or.inr ⟨g1, hkeep _ g2⟩
    · intro t1 i1 t2 i2 e1 e2 g1 g2 g3 g4 g5 g6 g7
      rw [hlist] at g1 g2
      rw [hsw, hlen] at g7
      split_ifs at g1 g2 with c1 c2 c2
      · exact ⟨c1.1.trans c2.1.symm, c1.2.trans c2.2.symm⟩
      · simp only [Option.some.injEq] at g1
        subst g1
        simp only at g5 g6
        rcases hr with g | ⟨-, g⟩
        · rw [g] at g6; omega
        · exact absurd (hold t2 e2 (List.mem_iff_getElem?.2 ⟨i2, g2⟩) (by rw [← g5]; exact g6))
            (by rw [← g5]; exact g)
      · simp only [Option.some.injEq] at g2
        subst g2
        simp only at g5
        rcases hr with g | ⟨-, g⟩
        · rw [g5, g] at g6; omega
        · exact absurd (hold t1 e1 (List.mem_iff_getElem?.2 ⟨i1, g1⟩) g6)
            (by rw [g5]; exact g)
      · exact h3 t1 i1 t2 i2 e1 e2 g1 g2 g3 g4 g5 g6 g7

theorem slot_held_mark (b : SwapState) (i : Nat) (bm : List Bool) (blk : List (List Byte))
    (hbm : bm = b.bitmap.set i true) (hi : i < b.bitmap.length) :
    (∀ v, SlotHeld b v → SlotHeld { block := blk, bitmap := bm } v) ∧
    SlotHeld { block := blk, bitmap := bm } (i : Int) := by
  subst hbm
  constructor
  · rintro v ⟨v1, v2, v3⟩
    refine ⟨v1, by simpa using v2, ?_⟩
    by_cases c1 : i = v.toNat
    · rw [← c1]
      simp [List.getElem?_set, hi]
    · rw [List.getElem?_set_ne c1]
      exact v3
  · refine ⟨by omega, by simpa using hi, ?_⟩
    simp [List.getElem?_set, hi]

/-- The update-after-swap step keeps the invariant. -/
theorem slot_inv_swap_out_update (s : State) (page : List Byte) (t uaddr : Nat)
    (h : SlotInv s) : SlotInv (swap_out_update s page t uaddr) := by
  unfold swap_out_update
  by_cases hfree : false ∈ s.swap.bitmap
  · obtain ⟨i, -, hlt, hf, hret, hbm, hblk, -, -⟩ := swap_out_spec s.swap page h.1 hfree
    obtain ⟨k1, k2⟩ := slot_held_mark s.swap i (swap_out s.swap page).1.bitmap
      (swap_out s.swap page).1.block hbm hlt
    apply slot_inv_record s _ t uaddr _ h
    · refine ⟨?_, ?_⟩
      · rw [hbm, hblk]; simpa using h.1.1
      · rw [hblk]; exact h.1.2
    · rw [hbm]; simp
    · exact k1
    · right
      rw [hret]
      refine ⟨k2, ?_⟩
      rintro ⟨-, -, v3⟩
      simp only [Int.toNat_ofNat] at v3
      rw [hf] at v3
      simp at v3
  · have hout : swap_out s.swap page = (s.swap, -1) := by
      simp [swap_out, bitmap_scan_none_of_full _ hfree]
    rw [hout]
    exact slot_inv_record s _ t uaddr _ h h.1 rfl (fun v hv => hv) (Or.inl rfl)

/-! ## The slot invariant: swap-in -/

theorem to_size_t_neg_one : to_size_t (-1) = 4294967295 := by decide

theorem swap_wf_length (sw : SwapState) (h : SwapWF sw) : sw.bitmap.length < 536870912 := by
  obtain ⟨h1, h2⟩ := h
  have hspp : SECTORS_PER_PAGE = 8 := by decide
  rw [hspp] at h1
  omega

/-- Freeing the slot an entry holds: held slots other than that one stay held. -/
theorem slot_held_reset (sw : SwapState) (hwf : SwapWF sw) (v : Int)
    (hv : v = -1 ∨ SlotHeld sw v) :
    (bitmap_reset sw.bitmap (to_size_t v)).length = sw.bitmap.length ∧
    ∀ w, SlotHeld sw w → w ≠ v →
      SlotHeld { sw with bitmap := bitmap_reset sw.bitmap (to_size_t v) } w := by
  have hlen := swap_wf_length sw hwf
  refine ⟨by simp [bitmap_reset], ?_⟩
  rintro w ⟨w1, w2, w3⟩ hne
  refine ⟨w1, by simpa [bitmap_reset] using w2, ?_⟩
  simp only [bitmap_reset]
  rcases hv with g | ⟨v1, v2, -⟩
  · rw [g, to_size_t_neg_one, List.set_eq_of_length_le (by omega)]
    exact w3
  · have hsz : to_size_t v = v.toNat := by
      have := to_size_t_of_lt v.toNat (by omega)
      rwa [Int.toNat_of_nonneg v1] at this
    rw [hsz, List.getElem?_set_ne (by omega)]
    exact w3

/-- The swap-in step of a reload keeps the invariant. -/
theorem slot_inv_swap_in_clear (s : State) (t sp kpage : Nat) (h : SlotInv s) :
    SlotInv (swap_in_clear s t sp kpage) := by
  obtain ⟨h1, h2, h3⟩ := h
  have hold : ∀ t1 e, e ∈ s.sup_page_list t1 → 0 ≤ e.swap_slot →
      e.type = PageType.PAGE_SWAP ∧ SlotHeld s.swap e.swap_slot := by
    intro t1 e he hpos
    rcases h2 t1 e he with g | g
    · rw [g] at hpos; omega
    · exact g
  cases he0 : (s.sup_page_list t)[sp]? with
  | none =>
    have hget : (sup_page_get s t sp).swap_slot = -1 := by
      simp [sup_page_get, List.getD_eq_getElem?_getD, he0]
    have hbm : bitmap_reset s.swap.bitmap (to_size_t (-1)) = s.swap.bitmap := by
      rw [to_size_t_neg_one]
      exact List.set_eq_of_length_le (by have := swap_wf_length _ h1; omega)
    have hlist : (swap_in_clear s t sp kpage).sup_page_list = s.sup_page_list := by
      funext t1
      apply List.ext_getElem?
      intro j
      simp only [swap_in_clear]
      rw [sup_page_set_list]
      split_ifs with c
      · obtain ⟨c1, c2⟩ := c
        subst c1; subst c2
        simp [he0]
      · rfl
    have hswap : (swap_in_clear s t sp kpage).swap = s.swap := by
      simp only [swap_in_clear, sup_page_set, swap_in, hget, hbm]
    exact slot_inv_congr s _ hlist hswap ⟨h1, h2, h3⟩
  | some e0 =>
    have hget : sup_page_get s t sp = e0 := sup_page_get_of_getElem _ _ _ _ he0
    have hmem0 : e0 ∈ s.sup_page_list t := List.mem_iff_getElem?.2 ⟨sp, he0⟩
    have hv : e0.swap_slot = -1 ∨ SlotHeld s.swap e0.swap_slot := by
      rcases h2 t e0 hmem0 with g | ⟨-, g⟩
      · exact Or.inl g
      · exact Or.inr g
    obtain ⟨klen, kkeep⟩ := slot_held_reset s.swap h1 e0.swap_slot hv
    have hswap : (swap_in_clear s t sp kpage).swap
        = { s.swap with bitmap := bitmap_reset s.swap.bitmap (to_size_t e0.swap_slot) } := by
      simp only [swap_in_clear, sup_page_set, swap_in, hget]
    have hlist : ∀ t1 j, ((swap_in_clear s t sp kpage).sup_page_list t1)[j]?
        = if t1 = t ∧ j = sp then some { e0 with swap_slot := -1 }
          else (s.sup_page_list t1)[j]? := by
      intro t1 j
      simp only [swap_in_clear]
      rw [sup_page_set_list]
      have hget2 : sup_page_get { s with
          swap := (swap_in s.swap (sup_page_get s t sp).swap_slot (s.mem kpage)).1,
          mem := Function.update s.mem kpage
            (swap_in s.swap (sup_page_get s t sp).swap_slot (s.mem kpage)).2 } t sp = e0 :=
        sup_page_get_of_getElem _ _ _ _ he0
      simp only [hget2, he0, Option.map_some']
    refine ⟨?_, ?_, ?_⟩
    · rw [hswap]
      exact ⟨by simpa [klen] using h1.1, h1.2⟩
    · intro t1 e he
      obtain ⟨j, hj⟩ := List.mem_iff_getElem?.1 he
      rw [hlist] at hj
      rw [hswap]
      split_ifs at hj with hc
      · simp only [Option.some.injEq] at hj
        subst hj
        exact Or.inl rfl
      · rcases h2 t1 e (List.mem_iff_getElem?.2 ⟨j, hj⟩) with g | ⟨g1, g2⟩
        · exact Or.inl g
        · right
          refine ⟨g1, kkeep _ g2 ?_⟩
          intro heq
          have hpos : 0 ≤ e0.swap_slot := by rw [← heq]; exact g2.1
          obtain ⟨k1, -⟩ := hold t e0 hmem0 hpos
          have := h3 t1 j t sp e e0 hj he0 g1 k1 heq g2.1 g2.2.1
          exact hc this
    · intro t1 i1 t2 i2 e1 e2 g1 g2 g3 g4 g5 g6 g7
      rw [hlist] at g1 g2
      rw [hswap] at g7
      simp only [klen] at g7
      split_ifs at g1 g2 with c1 c2 c2
      · exact ⟨c1.1.trans c2.1.symm, c1.2.trans c2.2.symm⟩
      · simp only [Option.some.injEq] at g1
        subst g1
        simp only at g6
        omega
      · simp only [Option.some.injEq] at g2
        subst g2
        simp only at g5
        omega
      · exact h3 t1 i1 t2 i2 e1 e2 g1 g2 g3 g4 g5 g6 g7

/-! ## The slot invariant: the other steps and reachability -/

theorem slot_inv_init (s : State) (hwf : SwapWF s.swap) (hempty : ∀ t, s.sup_page_list t = []) :
    SlotInv s := by
  refine ⟨hwf, ?_, ?_⟩
  · intro t e he
    rw [hempty t] at he
    simp at he
  · intro t1 i1 t2 i2 e1 e2 g1
    rw [hempty t1] at g1
    simp at g1

theorem slot_inv_install (s : State) (t a : Nat) (type : PageType) (file ofs : Nat)
    (read_bytes zero_bytes : Nat) (writable malloc_ok : Bool) (h : SlotInv s) :
    SlotInv
      (sup_page_install s t a type file ofs read_bytes zero_bytes writable malloc_ok).1 := by
  cases malloc_ok with
  | false => simpa [sup_page_install] using h
  | true =>
    obtain ⟨h1, h2, h3⟩ := h
    have hsw : (sup_page_install s t a type file ofs read_bytes zero_bytes writable true).1.swap
        = s.swap := by simp [sup_page_install]
    have hcase : ∀ (t1 j : Nat) (e : SupPage),
        ((sup_page_install s t a type file ofs read_bytes zero_bytes writable
          true).1.sup_page_list t1)[j]? = some e →
        (s.sup_page_list t1)[j]? = some e ∨ e.swap_slot = -1 := by
      intro t1 j e he
      rw [install_list] at he
      split_ifs at he with c
      · subst c
        rw [List.getElem?_append] at he
        split_ifs at he with c2
        · exact Or.inl he
        · right
          cases hj : j - (s.sup_page_list t1).length with
          | zero =>
            rw [hj] at he
            simp only [List.getElem?_cons_zero, Option.some.injEq] at he
            rw [← he]
          | succ n =>
            rw [hj] at he
            simp at he
      · exact Or.inl he
    refine ⟨by rw [hsw]; exact h1, ?_, ?_⟩
    · intro t1 e he
      obtain ⟨j, hj⟩ := List.mem_iff_getElem?.1 he
      rw [hsw]
      rcases hcase t1 j e hj with g | g
      · exact h2 t1 e (List.mem_iff_getElem?.2 ⟨j, g⟩)
      · exact Or.inl g
    · intro t1 i1 t2 i2 e1 e2 g1 g2 g3 g4 g5 g6 g7
      rw [hsw] at g7
      rcases hcase t1 i1 e1 g1 with k1 | k1
      · rcases hcase t2 i2 e2 g2 with k2 | k2
        · exact h3 t1 i1 t2 i2 e1 e2 k1 k2 g3 g4 g5 g6 g7
        · rw [g5, k2] at g6; omega
      · rw [k1] at g6; omega

theorem getElem?_eraseIdx_cases (l : List SupPage) :
    ∀ (k i : Nat), (l.eraseIdx k)[i]? = if i < k then l[i]? else l[i + 1]? := by
  induction l with
  | nil => intro k i; simp
  | cons a rest ih =>
    intro k i
    cases k with
    | zero => simp
    | succ k =>
      cases i with
      | zero => simp
      | succ i =>
        simp only [List.eraseIdx_cons_succ, List.getElem?_cons_succ, ih k i]
        simp

theorem slot_inv_remove (s : State) (t sp : Nat) (h : SlotInv s) :
    SlotInv (sup_page_remove s t sp) := by
  obtain ⟨h1, h2, h3⟩ := h
  have hpos : ∀ (t1 j : Nat) (e : SupPage), ((sup_page_remove s t sp).sup_page_list t1)[j]? = some e →
      (s.sup_page_list t1)[if t1 = t ∧ sp ≤ j then j + 1 else j]? = some e := by
    intro t1 j e he
    by_cases ht : t1 = t
    · subst ht
      simp only [sup_page_remove, Function.update_same, getElem?_eraseIdx_cases] at he
      by_cases hj : j < sp
      · rw [if_pos hj] at he
        rw [if_neg (by omega)]
        exact he
      · rw [if_neg hj] at he
        rw [if_pos ⟨rfl, by omega⟩]
        exact he
    · simp only [sup_page_remove, Function.update_noteq ht] at he
      rw [if_neg (fun c => ht c.1)]
      exact he
  refine ⟨h1, ?_, ?_⟩
  · intro t1 e he
    obtain ⟨j, hj⟩ := List.mem_iff_getElem?.1 he
    exact h2 t1 e (List.mem_iff_getElem?.2 ⟨_, hpos t1 j e hj⟩)
  · intro t1 i1 t2 i2 e1 e2 g1 g2 g3 g4 g5 g6 g7
    have := h3 t1 _ t2 _ e1 e2 (hpos t1 i1 e1 g1) (hpos t2 i2 e2 g2) g3 g4 g5 g6 g7
    obtain ⟨k1, k2⟩ := this
    subst k1
    refine ⟨rfl, ?_⟩
    split_ifs at k2 <;> omega

/-- The loop of `sup_page_destroy` leaves alone every bit that no entry of the list
holds. -/
theorem destroy_loop_other (l : List SupPage) :
    ∀ (sw : SwapState) (w : Nat),
      (∀ e ∈ l, e.type = PageType.PAGE_SWAP → e.swap_slot ≠ -1 → to_size_t e.swap_slot ≠ w) →
      (destroy_loop sw l).bitmap[w]? = sw.bitmap[w]? := by
  induction l with
  | nil => intro sw w _; rfl
  | cons a rest ih =>
    intro sw w hne
    simp only [destroy_loop]
    rw [ih _ w (fun e he => hne e (List.mem_cons_of_mem _ he))]
    split_ifs with c
    · simp only [swap_free, bitmap_reset]
      rw [List.getElem?_set_ne (hne a (List.mem_cons_self _ _) c.1 c.2)]
    · rfl

theorem slot_inv_destroy (s : State) (t : Nat) (h : SlotInv s) :
    SlotInv (sup_page_destroy s t) := by
  obtain ⟨h1, h2, h3⟩ := h
  obtain ⟨d1, d2, -, -⟩ := destroy_loop_spec (s.sup_page_list t) s.swap
  have hlist : ∀ (t1 j : Nat) (e : SupPage), ((sup_page_destroy s t).sup_page_list t1)[j]? = some e →
      t1 ≠ t ∧ (s.sup_page_list t1)[j]? = some e := by
    intro t1 j e he
    by_cases ht : t1 = t
    · subst ht
      simp [sup_page_destroy] at he
    · simp only [sup_page_destroy, Function.update_noteq ht] at he
      exact ⟨ht, he⟩
  refine ⟨⟨by simpa [sup_page_destroy, d1, d2] using h1.1,
    by simpa [sup_page_destroy, d1] using h1.2⟩, ?_, ?_⟩
  · intro t1 e he
    obtain ⟨j, hj⟩ := List.mem_iff_getElem?.1 he
    obtain ⟨ht, hj1⟩ := hlist t1 j e hj
    rcases h2 t1 e (List.mem_iff_getElem?.2 ⟨j, hj1⟩) with g | ⟨g1, g2⟩
    · exact Or.inl g
    · right
      refine ⟨g1, g2.1, by simpa [sup_page_destroy, d2] using g2.2.1, ?_⟩
      simp only [sup_page_destroy]
      rw [destroy_loop_other _ _ _ ?_]
      · exact g2.2.2
      · intro e0 he0 k1 k2 k3
        obtain ⟨j0, hj0⟩ := List.mem_iff_getElem?.1 he0
        rcases h2 t e0 he0 with q | ⟨-, q1, q2, -⟩
        · exact k2 q
        · have hsz : to_size_t e0.swap_slot = e0.swap_slot.toNat := by
            have hl := swap_wf_length _ h1
            have := to_size_t_of_lt e0.swap_slot.toNat (by omega)
            rwa [Int.toNat_of_nonneg q1] at this
          have heq : e0.swap_slot = e.swap_slot := by
            rw [hsz] at k3
            have := g2.1
            omega
          exact ht (h3 t j0 t1 j e0 e hj0 hj1 k1 g1 heq q1 q2).1.symm
  · intro t1 i1 t2 i2 e1 e2 g1 g2 g3 g4 g5 g6 g7
    simp only [sup_page_destroy, d2] at g7
    exact h3 t1 i1 t2 i2 e1 e2 (hlist t1 i1 e1 g1).2 (hlist t2 i2 e2 g2).2 g3 g4 g5 g6 g7

theorem slot_inv_evict (s : State) (v : Nat) (h : SlotInv s) : SlotInv (evict_frame s v) := by
  by_cases hd : pagedir_is_dirty s.pagedir (s.frames v).t (s.frames v).uaddr = true
  · have := slot_inv_swap_out_update s (s.mem (s.frames v).kpage) (s.frames v).t
      (s.frames v).uaddr h
    refine slot_inv_congr _ _ ?_ ?_ this
    · simp only [evict_frame, hd, if_true, swap_out_update]
    · simp only [evict_frame, hd, if_true, swap_out_update]
  · refine slot_inv_congr _ _ ?_ ?_ h
    · simp [evict_frame, hd]
    · simp [evict_frame, hd]

theorem slot_inv_frame_alloc (s : State) (cur uaddr : Nat) (palloc malloc : Option Nat)
    (h : SlotInv s) : SlotInv (frame_alloc s cur uaddr palloc malloc).1 := by
  have hsel : SlotInv (select_victim_frame s).1 :=
    slot_inv_congr _ _ (select_victim_frame_fields s).1 (select_victim_frame_fields s).2.1 h
  cases palloc with
  | none =>
    simp only [frame_alloc]
    cases hr : (select_victim_frame s).2 with
    | none =>
      have hpair : select_victim_frame s = ((select_victim_frame s).1, none) :=
        Prod.ext rfl hr
      rw [hpair]
      exact hsel
    | some v =>
      have hpair : select_victim_frame s = ((select_victim_frame s).1, some v) :=
        Prod.ext rfl hr
      rw [hpair]
      exact slot_inv_congr _ _ rfl rfl (slot_inv_evict _ v hsel)
  | some k =>
    cases malloc with
    | none => exact h
    | some a =>
      refine slot_inv_congr _ _ ?_ ?_ h
      · simp only [frame_alloc]
        cases hc : s.clock_hand <;> simp
      · simp only [frame_alloc]
        cases hc : s.clock_hand <;> simp

theorem slot_inv_load (s : State) (cur t sp : Nat) (palloc malloc : Option Nat)
    (set_ok : Bool) (h : SlotInv s) :
    SlotInv (sup_page_load s cur t sp palloc malloc set_ok).1 := by
  have hfa := slot_inv_frame_alloc s cur (sup_page_get s t sp).uaddr palloc malloc h
  cases hres : frame_alloc s cur (sup_page_get s t sp).uaddr palloc malloc with
  | mk s1 of =>
  rw [hres] at hfa
  simp only at hfa
  cases of with
  | none =>
    cases htype : (sup_page_get s t sp).type <;>
      simpa only [sup_page_load, htype, hres] using hfa
  | some f =>
    cases htype : (sup_page_get s t sp).type
    · simp only [sup_page_load, htype, hres]
      split
      · exact slot_inv_congr _ _ rfl rfl hfa
      · cases set_ok <;> exact slot_inv_congr _ _ rfl rfl hfa
    · simp only [sup_page_load, htype, hres]
      cases set_ok <;> exact slot_inv_congr _ _ rfl rfl hfa
    · have hin := slot_inv_swap_in_clear s1 t sp (s1.frames f).kpage hfa
      simp only [sup_page_load, htype, hres]
      cases set_ok <;> exact slot_inv_congr _ _ rfl rfl hin
    · simp only [sup_page_load, htype, hres]
      split
      · exact slot_inv_congr _ _ rfl rfl hfa
      · cases set_ok <;> exact slot_inv_congr _ _ rfl rfl hfa

/-- Every reachable state satisfies the slot invariant. -/
theorem reachable_slot_inv (s : State) (h : Reachable s) : SlotInv s := by
  induction h with
  | init s hwf hempty => exact slot_inv_init s hwf hempty
  | install s t uaddr type file ofs rb zb w ok _ ih =>
    exact slot_inv_install s t uaddr type file ofs rb zb w ok ih
  | load s cur t sp palloc malloc set_ok _ ih =>
    exact slot_inv_load s cur t sp palloc malloc set_ok ih
  | evict s v _ ih => exact slot_inv_evict s v ih
  | update_after_swap s page t uaddr _ ih => exact slot_inv_swap_out_update s page t uaddr ih
  | remove s t sp _ ih => exact slot_inv_remove s t sp ih
  | destroy s t _ ih => exact slot_inv_destroy s t ih
  | other s s1 hl hs _ ih => exact slot_inv_congr s s1 hl hs ih

/-! ## Kind and slot of entries; slot exclusivity -/

theorem sample_evicted_reachable : Reachable sample_evicted :=
  Reachable.evict _ 10
    (Reachable.other sample_loaded sample_written rfl rfl
      (Reachable.load _ 1 1 0 (some 81920) (some 10) true
        (Reachable.install _ 1 40960 PageType.PAGE_ZERO 0 0 0 4096 true true
          (Reachable.init sample_empty (by unfold SwapWF; decide) (fun _ => rfl)))))

theorem sample_reloaded_reachable : Reachable sample_reloaded :=
  Reachable.load _ 1 1 0 (some 81920) (some 11) true sample_evicted_reachable

/-- A direct `sup_page_update_swap` leaves every entry that is not swapped-out as it
was. -/
theorem update_swap_other_kinds (s : State) (t uaddr : Nat) (slot : Int)
    (h : ∀ t1, ∀ e ∈ s.sup_page_list t1, e.type ≠ PageType.PAGE_SWAP → e.swap_slot = -1) :
    ∀ t1, ∀ e ∈ (sup_page_update_swap s t uaddr slot).sup_page_list t1,
      e.type ≠ PageType.PAGE_SWAP → e.swap_slot = -1 := by
  intro t1 e he hne
  unfold sup_page_update_swap at he
  cases hl : sup_page_lookup s t uaddr with
  | none =>
    rw [hl] at he
    exact h t1 e he hne
  | some j0 =>
    rw [hl] at he
    simp only at he
    obtain ⟨j, hj⟩ := List.mem_iff_getElem?.1 he
    rw [sup_page_set_list] at hj
    split_ifs at hj with c
    · cases hq : (s.sup_page_list t)[j0]? with
      | none => rw [hq] at hj; simp at hj
      | some e0 =>
        rw [hq] at hj
        simp only [Option.map_some', Option.some.injEq] at hj
        subst hj
        exact absurd rfl hne
    · exact h t1 e (List.mem_iff_getElem?.2 ⟨j, hj⟩) hne

theorem reachable_free_other_kinds (s : State) (h : ReachableFree s) :
    ∀ t, ∀ e ∈ s.sup_page_list t, e.type ≠ PageType.PAGE_SWAP → e.swap_slot = -1 := by
  induction h with
  | base s hr =>
    intro t e he hne
    rcases (reachable_slot_inv s hr).2.1 t e he with g | ⟨g, -⟩
    · exact g
    · exact absurd g hne
  | update_swap s t uaddr slot _ ih => exact update_swap_other_kinds s t uaddr slot ih

/-- The part of the kind and slot invariant that the code keeps: in every state
reachable through install, load, evict, update-after-swap as the frame table performs
it (with the slot `swap_out` returned), remove and destroy, every entry holds no slot
(`swap_slot = -1`) or is swapped-out and holds an occupied slot of the bitmap; so an
entry of another kind holds no slot, and a slot that an entry holds is a valid one.
With `sup_page_update_swap` called directly with any slot value as well, entries of
every other kind still hold no slot. -/
theorem reachable_kind_slot (s : State) :
    (Reachable s → ∀ t, ∀ e ∈ s.sup_page_list t,
      e.swap_slot = -1 ∨ (e.type = PageType.PAGE_SWAP ∧ SlotHeld s.swap e.swap_slot)) ∧
    (ReachableFree s → ∀ t, ∀ e ∈ s.sup_page_list t,
      e.type ≠ PageType.PAGE_SWAP → e.swap_slot = -1) :=
  ⟨fun h => (reachable_slot_inv s h).2.1, fun h => reachable_free_other_kinds s h⟩

set_option maxRecDepth 20000 in
/-- After the eviction on the sample path the entry of thread 1 is swapped-out and
holds slot 0, which is occupied. -/
theorem reachable_kind_slot_witness :
    (sup_page_get sample_evicted 1 0).swap_slot = -1 ∨
    ((sup_page_get sample_evicted 1 0).type = PageType.PAGE_SWAP ∧
      SlotHeld sample_evicted.swap (sup_page_get sample_evicted 1 0).swap_slot) :=
  (reachable_kind_slot sample_evicted).1 sample_evicted_reachable 1
    (sup_page_get sample_evicted 1 0) (by decide)

set_option maxRecDepth 20000 in
/-- Claim C13 at its failing input: install, load, a write by the user, evict and a
second load lead to a state whose entry is swapped-out and holds `-1`, no slot of the
bitmap, where the invariant wants every swapped-out entry to hold a valid slot. -/
theorem reachable_kind_slot_counterexample :
    Reachable sample_reloaded ∧
    (sup_page_get sample_reloaded 1 0) ∈ sample_reloaded.sup_page_list 1 ∧
    (sup_page_get sample_reloaded 1 0).type = PageType.PAGE_SWAP ∧
    (sup_page_get sample_reloaded 1 0).swap_slot = -1 ∧
    ¬ SlotHeld sample_reloaded.swap (sup_page_get sample_reloaded 1 0).swap_slot := by
  refine ⟨sample_reloaded_reachable, by decide, by decide, by decide, ?_⟩
  rintro ⟨h, -⟩
  have : (sup_page_get sample_reloaded 1 0).swap_slot = -1 := by decide
  rw [this] at h
  omega

/-- Claim C14 (slot exclusivity): in every state reachable from empty tables through
install, load, evict, update-after-swap as the frame table performs it (with the slot
`swap_out` returned), remove and destroy, two different entries, of one table or of
two, that are both swapped-out never hold the same slot of the bitmap. -/
theorem reachable_slots_exclusive (s : State) (h : Reachable s)
    (t1 i1 t2 i2 : Nat) (e1 e2 : SupPage)
    (g1 : (s.sup_page_list t1)[i1]? = some e1) (g2 : (s.sup_page_list t2)[i2]? = some e2)
    (hne : ¬ (t1 = t2 ∧ i1 = i2))
    (k1 : e1.type = PageType.PAGE_SWAP) (k2 : e2.type = PageType.PAGE_SWAP)
    (hpos : 0 ≤ e1.swap_slot) (hlt : e1.swap_slot < (s.swap.bitmap.length : Int)) :
    e1.swap_slot ≠ e2.swap_slot :=
  fun heq => hne ((reachable_slot_inv s h).2.2 t1 i1 t2 i2 e1 e2 g1 g2 k1 k2 heq hpos hlt)

set_option maxRecDepth 20000 in
/-- On the sample path continued by a second swapped-out page, the two entries of
thread 1 hold different slots. -/
theorem reachable_slots_exclusive_witness :
    (sup_page_get sample_two_swapped 1 0).swap_slot
      ≠ (sup_page_get sample_two_swapped 1 1).swap_slot :=
  reachable_slots_exclusive sample_two_swapped
    (Reachable.update_after_swap _ (List.replicate 4096 5) 1 122880
      (Reachable.install _ 1 122880 PageType.PAGE_ZERO 0 0 0 4096 true true
        sample_evicted_reachable))
    1 0 1 1 (sup_page_get sample_two_swapped 1 0) (sup_page_get sample_two_swapped 1 1)
    (by decide) (by decide) (by decide) (by decide) (by decide) (by decide) (by decide)

/-! ## The second-chance sweep -/

theorem pagedir_set_accessed_apply (pd : PageDirs) (t u : Nat) (b : Bool) (key : Nat × Nat) :
    pagedir_set_accessed pd t u b key
      = if key = (t, pg_round_down u) then { pd key with accessed := b } else pd key := by
  unfold pagedir_set_accessed
  by_cases h : key = (t, pg_round_down u)
  · subst h; simp
  · rw [Function.update_noteq h, if_neg h]

/-- The first loop on a duplicate-free ring whose frames back pairwise different pages:
started `k` steps behind the hand with page directories that agree with the original
ones on the frames still to come, it stops at the first frame from there on that is
not pinned and has a clear accessed bit, having cleared the bit of the unpinned frames
it passed and nothing else. -/
theorem clock_sweep_run (l : List Nat) (fr : Nat → Frame) (pd0 : PageDirs)
    (hnd : l.Nodup) (i0 start : Nat) (h0 : l[i0]? = some start)
    (hkey : ∀ a ∈ l, ∀ b ∈ l,
      ((fr a).t, pg_round_down (fr a).uaddr) = ((fr b).t, pg_round_down (fr b).uaddr) → a = b) :
    ∀ (fuel k hand : Nat) (pd : PageDirs), k < l.length → l.length - k ≤ fuel →
      l[(i0 + k) % l.length]? = some hand →
      (∀ j f, k ≤ j → j < l.length → l[(i0 + j) % l.length]? = some f →
        pd ((fr f).t, pg_round_down (fr f).uaddr) = pd0 ((fr f).t, pg_round_down (fr f).uaddr)) →
      (∃ j f, k ≤ j ∧ j < l.length ∧ l[(i0 + j) % l.length]? = some f ∧
        (fr f).pinned = false ∧ pagedir_is_accessed pd0 (fr f).t (fr f).uaddr = false) →
      ∃ m v pd1, k ≤ m ∧ m < l.length ∧ l[(i0 + m) % l.length]? = some v ∧
        (fr v).pinned = false ∧ pagedir_is_accessed pd0 (fr v).t (fr v).uaddr = false ∧
        (∀ j f, k ≤ j → j < m → l[(i0 + j) % l.length]? = some f →
          (fr f).pinned = true ∨ pagedir_is_accessed pd0 (fr f).t (fr f).uaddr = true) ∧
        clock_sweep l fr start fuel hand pd = (pd1, v, some v) ∧
        (∀ j f, k ≤ j → j < m → l[(i0 + j) % l.length]? = some f → (fr f).pinned = false →
          pagedir_is_accessed pd1 (fr f).t (fr f).uaddr = false) ∧
        (∀ key, (∀ j f, k ≤ j → j < m → l[(i0 + j) % l.length]? = some f →
            (fr f).pinned = false → ((fr f).t, pg_round_down (fr f).uaddr) ≠ key) →
          pd1 key = pd key) ∧
        (∀ key, (pd1 key).present = (pd key).present ∧ (pd1 key).kpage = (pd key).kpage ∧
          (pd1 key).writable = (pd key).writable ∧ (pd1 key).dirty = (pd key).dirty) := by
  have hi0 : i0 < l.length := (List.getElem?_eq_some.1 h0).1
  have hpos : ∀ a b x, a < l.length → b < l.length → l[(i0 + a) % l.length]? = some x →
      l[(i0 + b) % l.length]? = some x → a = b := by
    intro a b x ha hb ea eb
    have hlen : 0 < l.length := by omega
    have hinj := List.getElem?_inj (by simpa using Nat.mod_lt (i0 + a) hlen) hnd
      (ea.trans eb.symm)
    by_contra hab
    rcases Nat.lt_or_gt_of_ne hab with c | c
    · have e : i0 + b = (i0 + a) + (b - a) := by omega
      rw [e] at hinj
      have hw := ring_pos_wrap l.length ((i0 + a) % l.length) (b - a)
        (Nat.mod_lt _ hlen) (by omega) (by omega) (by rw [Nat.mod_add_mod]; exact hinj.symm)
      omega
    · have e : i0 + a = (i0 + b) + (a - b) := by omega
      rw [e] at hinj
      have hw := ring_pos_wrap l.length ((i0 + b) % l.length) (a - b)
        (Nat.mod_lt _ hlen) (by omega) (by omega) (by rw [Nat.mod_add_mod]; exact hinj)
      omega
  intro fuel
  induction fuel with
  | zero => intro k hand pd hk hf; omega
  | succ fuel ih =>
    intro k hand pd hk hf he hrest hex
    have hacc : pagedir_is_accessed pd (fr hand).t (fr hand).uaddr
        = pagedir_is_accessed pd0 (fr hand).t (fr hand).uaddr := by
      unfold pagedir_is_accessed
      rw [hrest k hand (le_refl k) hk he]
    by_cases hc : (!(fr hand).pinned && !pagedir_is_accessed pd (fr hand).t (fr hand).uaddr) = true
    · simp only [Bool.and_eq_true, Bool.not_eq_true'] at hc
      refine ⟨k, hand, pd, le_refl k, hk, he, hc.1, by rw [← hacc]; exact hc.2, ?_, ?_, ?_, ?_, ?_⟩
      · intro j f h1 h2; omega
      · simp [clock_sweep, hc.1, hc.2]
      · intro j f h1 h2; omega
      · intro key _; rfl
      · intro key; exact ⟨rfl, rfl, rfl, rfl⟩
    · have hgood : (fr hand).pinned = true ∨
          pagedir_is_accessed pd0 (fr hand).t (fr hand).uaddr = true := by
        rw [← hacc]
        rcases Bool.eq_false_or_eq_true (fr hand).pinned with h1 | h1
        · exact Or.inl h1
        · rcases Bool.eq_false_or_eq_true
            (pagedir_is_accessed pd (fr hand).t (fr hand).uaddr) with h2 | h2
          · exact Or.inr h2
          · exact absurd (by rw [h1, h2]; rfl) hc
      obtain ⟨j, f, hj1, hj2, hj3, hj4, hj5⟩ := hex
      have hjk : j ≠ k := by
        intro hjk
        subst hjk
        rw [he] at hj3
        simp only [Option.some.injEq] at hj3
        subst hj3
        rcases hgood with g | g
        · rw [hj4] at g; simp at g
        · rw [hj5] at g; simp at g
      have hk1 : k + 1 < l.length := by omega
      have hnext := ring_next_spec l hnd _ hand he
      rw [ring_pos_succ] at hnext
      have hne : ring_next l hand ≠ start := by
        intro heq
        rw [heq] at hnext
        have h00 : l[(i0 + 0) % l.length]? = some start := by
          rw [Nat.add_zero, Nat.mod_eq_of_lt hi0]; exact h0
        have := hpos (k + 1) 0 start hk1 (by omega) hnext h00
        omega
      have hrest1 : ∀ j f, k + 1 ≤ j → j < l.length → l[(i0 + j) % l.length]? = some f →
          (if (!(fr hand).pinned) = true
            then pagedir_set_accessed pd (fr hand).t (fr hand).uaddr false else pd)
            ((fr f).t, pg_round_down (fr f).uaddr)
          = pd0 ((fr f).t, pg_round_down (fr f).uaddr) := by
        intro j f h1 h2 h3
        have hfh : f ≠ hand := by
          intro hc2
          subst hc2
          have := hpos j k f h2 hk h3 he
          omega
        have hkne : ((fr f).t, pg_round_down (fr f).uaddr)
            ≠ ((fr hand).t, pg_round_down (fr hand).uaddr) := by
          intro hc2
          exact hfh (hkey f (List.mem_iff_getElem?.2 ⟨_, h3⟩) hand
            (List.mem_iff_getElem?.2 ⟨_, he⟩) hc2)
        split_ifs
        · rw [pagedir_set_accessed_apply, if_neg hkne]
          exact hrest j f (by omega) h2 h3
        · exact hrest j f (by omega) h2 h3
      obtain ⟨m, v, pd1, m1, m2, m3, m4, m5, m6, m7, m8, m9, m10⟩ :=
        ih (k + 1) (ring_next l hand)
          (if (!(fr hand).pinned) = true
            then pagedir_set_accessed pd (fr hand).t (fr hand).uaddr false else pd)
          hk1 (by omega) hnext hrest1 ⟨j, f, by omega, hj2, hj3, hj4, hj5⟩
      refine ⟨m, v, pd1, by omega, m2, m3, m4, m5, ?_, ?_, ?_, ?_, ?_⟩
      · intro j f h1 h2 h3
        by_cases hjk2 : j = k
        · subst hjk2
          rw [he] at h3
          simp only [Option.some.injEq] at h3
          subst h3
          exact hgood
        · exact m6 j f (by omega) h2 h3
      · simp only [clock_sweep]
        rw [if_neg hc, if_pos hne]
        exact m7
      · intro j f h1 h2 h3 h4
        by_cases hjk2 : j = k
        · subst hjk2
          rw [he] at h3
          simp only [Option.some.injEq] at h3
          subst h3
          unfold pagedir_is_accessed
          rw [m9 _ ?_]
          · simp [h4, pagedir_set_accessed_apply]
          · intro j2 f2 q1 q2 q3 q4 q5
            have hf2 : f2 = hand := hkey f2 (List.mem_iff_getElem?.2 ⟨_, q3⟩) hand
              (List.mem_iff_getElem?.2 ⟨_, he⟩) q5
            subst hf2
            have := hpos j2 j f2 (by omega) hk q3 he
            omega
        · exact m8 j f (by omega) h2 h3 h4
      · intro key hkeyne
        rw [m9 key (fun j2 f2 q1 q2 q3 q4 => hkeyne j2 f2 (by omega) q2 q3 q4)]
        split_ifs with hp
        · rw [pagedir_set_accessed_apply, if_neg]
          intro hc2
          exact hkeyne k hand (le_refl k) (by omega) he (by simpa using hp) hc2.symm
        · rfl
      · intro key
        obtain ⟨q1, q2, q3, q4⟩ := m10 key
        rw [q1, q2, q3, q4]
        split_ifs
        · rw [pagedir_set_accessed_apply]
          split_ifs <;> exact ⟨rfl, rfl, rfl, rfl⟩
        · exact ⟨rfl, rfl, rfl, rfl⟩

/-- Claim C18 (second-chance sweep): on a duplicate-free registry whose frames back
pairwise different pages, with the hand on a registered frame `h`, if some registered
frame is not pinned and has its accessed bit clear, then `select_victim_frame` returns
the first such frame `v` in ring order from the hand (every frame met before it is
pinned or accessed); it clears the accessed bit of the unpinned frames met before `v`;
every page-table entry that is not the page of one of those is unchanged, and no entry
changes in anything but its accessed bit; frame structs and registry are unchanged;
and the hand is left on the frame that follows `v` in ring order. -/
theorem second_chance_sweep (s : State) (h : Nat)
    (hnd : s.frame_list.Nodup) (hkey : (s.frame_list.map (frame_key s)).Nodup)
    (hh : s.clock_hand = some h) (hmem : h ∈ s.frame_list)
    (hex : ∃ f ∈ s.frame_list, (s.frames f).pinned = false ∧ frame_accessed s f = false) :
    ∃ k v, k < s.frame_list.length ∧ ring_at s.frame_list h k = some v ∧
      (s.frames v).pinned = false ∧ frame_accessed s v = false ∧
      (∀ j f, j < k → ring_at s.frame_list h j = some f →
        (s.frames f).pinned = true ∨ frame_accessed s f = true) ∧
      (select_victim_frame s).2 = some v ∧
      (∀ j f, j < k → ring_at s.frame_list h j = some f → (s.frames f).pinned = false →
        frame_accessed (select_victim_frame s).1 f = false) ∧
      (∀ key, (∀ j f, j < k → ring_at s.frame_list h j = some f →
          (s.frames f).pinned = false → frame_key s f ≠ key) →
        (select_victim_frame s).1.pagedir key = s.pagedir key) ∧
      (∀ key, ((select_victim_frame s).1.pagedir key).present = (s.pagedir key).present ∧
        ((select_victim_frame s).1.pagedir key).kpage = (s.pagedir key).kpage ∧
        ((select_victim_frame s).1.pagedir key).writable = (s.pagedir key).writable ∧
        ((select_victim_frame s).1.pagedir key).dirty = (s.pagedir key).dirty) ∧
      (select_victim_frame s).1.frames = s.frames ∧
      (select_victim_frame s).1.frame_list = s.frame_list ∧
      (select_victim_frame s).1.clock_hand = ring_at s.frame_list h (k + 1) := by
  have hlt : s.frame_list.indexOf h < s.frame_list.length := List.indexOf_lt_length.2 hmem
  have h0 : s.frame_list[s.frame_list.indexOf h]? = some h :=
    List.getElem?_eq_some.2 ⟨hlt, List.getElem_indexOf hlt⟩
  have hinj := List.inj_on_of_nodup_map hkey
  obtain ⟨f, hf, hfp, hfa⟩ := hex
  obtain ⟨a, ha⟩ := List.mem_iff_getElem?.1 hf
  obtain ⟨j, hj, hja⟩ := ring_pos_surj _ (s.frame_list.indexOf h) a hlt
    (List.getElem?_eq_some.1 ha).1
  obtain ⟨m, v, pd1, -, m2, m3, m4, m5, m6, m7, m8, m9, m10⟩ :=
    clock_sweep_run s.frame_list s.frames s.pagedir hnd (s.frame_list.indexOf h) h h0
      (fun a ha b hb hab => hinj ha hb hab)
      s.frame_list.length 0 h s.pagedir (by omega) (by omega)
      (by rw [Nat.add_zero, Nat.mod_eq_of_lt hlt]; exact h0)
      (fun _ _ _ _ _ => rfl)
      ⟨j, f, by omega, hj, by rw [hja]; exact ha, hfp, hfa⟩
  have hnext := ring_next_spec s.frame_list hnd _ v m3
  rw [ring_pos_succ] at hnext
  have hsel : select_victim_frame s = select_from s h := by
    unfold select_victim_frame; rw [hh]
  have hres : select_from s h
      = ({ s with pagedir := pd1, clock_hand := some (ring_next s.frame_list v) }, some v) := by
    simp only [select_from, m7]
  rw [hsel, hres]
  refine ⟨m, v, m2, m3, m4, m5, ?_, rfl, ?_, ?_, m10, rfl, rfl, ?_⟩
  · intro j f hj1 hj2
    exact m6 j f (by omega) hj1 hj2
  · intro j f hj1 hj2 hj3
    exact m8 j f (by omega) hj1 hj2 hj3
  · intro key hk
    exact m9 key (fun j f _ q2 q3 q4 => hk j f q2 q3 q4)
  · exact hnext.symm

/-- The sweep in `sample_clock`, hand on frame 10. -/
theorem second_chance_sweep_witness :
    ∃ k v, k < sample_clock.frame_list.length ∧ ring_at sample_clock.frame_list 10 k = some v ∧
      (sample_clock.frames v).pinned = false ∧ frame_accessed sample_clock v = false ∧
      (∀ j f, j < k → ring_at sample_clock.frame_list 10 j = some f →
        (sample_clock.frames f).pinned = true ∨ frame_accessed sample_clock f = true) ∧
      (select_victim_frame sample_clock).2 = some v ∧
      (∀ j f, j < k → ring_at sample_clock.frame_list 10 j = some f → (sample_clock.frames f).pinned = false →
        frame_accessed (select_victim_frame sample_clock).1 f = false) ∧
      (∀ key, (∀ j f, j < k → ring_at sample_clock.frame_list 10 j = some f →
          (sample_clock.frames f).pinned = false → frame_key sample_clock f ≠ key) →
        (select_victim_frame sample_clock).1.pagedir key = sample_clock.pagedir key) ∧
      (∀ key, ((select_victim_frame sample_clock).1.pagedir key).present = (sample_clock.pagedir key).present ∧
        ((select_victim_frame sample_clock).1.pagedir key).kpage = (sample_clock.pagedir key).kpage ∧
        ((select_victim_frame sample_clock).1.pagedir key).writable = (sample_clock.pagedir key).writable ∧
        ((select_victim_frame sample_clock).1.pagedir key).dirty = (sample_clock.pagedir key).dirty) ∧
      (select_victim_frame sample_clock).1.frames = sample_clock.frames ∧
      (select_victim_frame sample_clock).1.frame_list = sample_clock.frame_list ∧
      (select_victim_frame sample_clock).1.clock_hand = ring_at sample_clock.frame_list 10 (k + 1) :=
  second_chance_sweep sample_clock 10 (by decide) (by decide) rfl (by decide) (by decide)

/-! ## Page-out and page-in -/

theorem ring_next_mem_of_ne_nil (l : List Nat) (e : Nat) (hl : l ≠ []) :
    ring_next l e ∈ l := by
  unfold ring_next
  split
  · next x rest hx =>
    have hm : x ∈ l.drop (l.indexOf e + 1) := by rw [hx]; simp
    exact List.mem_of_mem_drop hm
  · cases l with
    | nil => exact absurd rfl hl
    | cons a rest => simp

theorem select_from_hand_ok (s : State) (start : Nat) (hm : start ∈ s.frame_list) :
    HandOK (select_from s start).1 := by
  intro h hh
  have hl : s.frame_list ≠ [] := List.ne_nil_of_mem hm
  have hc := clock_sweep_hand_mem s.frame_list s.frames start s.frame_list.length start
    s.pagedir hm
  simp only [select_from, Option.mem_def, Option.some.injEq] at hh
  subst hh
  show _ ∈ s.frame_list
  split
  · exact ring_next_mem_of_ne_nil _ _ hl
  · exact hc

/-- `select_victim_frame` keeps the hand valid: from a state whose hand is unset or on a
registered frame it leaves the hand unset (empty registry) or on a registered frame. -/
theorem select_victim_frame_hand_ok (s : State) (hok : HandOK s) :
    HandOK (select_victim_frame s).1 := by
  unfold select_victim_frame
  cases hc : s.clock_hand with
  | some h => exact select_from_hand_ok s h (hok h hc)
  | none =>
    cases hl : s.frame_list with
    | nil =>
      simp only [List.head?_nil]
      intro h hh
      rw [Option.mem_def, hc] at hh
      exact absurd hh (by simp)
    | cons b rest =>
      simp only [List.head?_cons]
      exact select_from_hand_ok s b (by rw [hl]; simp)

/-- `frame_free` keeps the hand valid when the hand is not on the frame it unlinks. -/
theorem frame_free_hand_ok (s : State) (f : Nat) (hok : HandOK s)
    (hne : s.clock_hand ≠ some f) : HandOK (frame_free s f) := by
  intro h hh
  have hh1 : s.clock_hand = some h := hh
  have hne1 : h ≠ f := fun e => hne (by rw [hh1, e])
  exact (List.mem_erase_of_ne hne1).2 (hok h hh1)

/-- `frame_free` of the frame under the hand leaves the hand on the unlinked frame. -/
theorem frame_free_hand_lost (s : State) (f : Nat) (hnd : s.frame_list.Nodup)
    (hh : s.clock_hand = some f) : ¬ HandOK (frame_free s f) := by
  intro hok
  have := hok f hh
  exact (List.Nodup.mem_erase_iff hnd).1 this |>.1 rfl

/-- `evict_frame` keeps the hand valid when the hand is not on the victim. -/
theorem evict_frame_hand_ok (s : State) (v : Nat) (hok : HandOK s)
    (hne : s.clock_hand ≠ some v) : HandOK (evict_frame s v) := by
  obtain ⟨h1, -, h3, -, -⟩ := evict_frame_fields s v
  intro h hh
  have hh1 : s.clock_hand = some h := by rw [← h3]; exact hh
  have hne1 : h ≠ v := fun e => hne (by rw [hh1, e])
  rw [h1]
  exact (List.mem_erase_of_ne hne1).2 (hok h hh1)

/-- `evict_frame` of the frame under the hand leaves the hand on the unlinked victim. -/
theorem evict_frame_hand_lost (s : State) (v : Nat) (hnd : s.frame_list.Nodup)
    (hh : s.clock_hand = some v) : ¬ HandOK (evict_frame s v) := by
  obtain ⟨h1, -, h3, -, -⟩ := evict_frame_fields s v
  intro hok
  have := hok v (by rw [Option.mem_def, h3]; exact hh)
  rw [h1] at this
  exact (List.Nodup.mem_erase_iff hnd).1 this |>.1 rfl

/-- `frame_alloc` keeps the hand valid on every path: the eviction path moves the hand
behind the victim before unlinking it and links the victim again at the back; the
path with a fresh page sets an unset hand on the first frame. -/
theorem frame_alloc_hand_ok (s : State) (cur uaddr : Nat) (palloc malloc : Option Nat)
    (hok : HandOK s) : HandOK (frame_alloc s cur uaddr palloc malloc).1 := by
  cases palloc with
  | none =>
    have hsel := select_victim_frame_hand_ok s hok
    obtain ⟨-, hlist, -, -⟩ := select_victim_frame_spec s
    simp only [frame_alloc]
    rcases hv : select_victim_frame s with ⟨s1, _ | victim⟩
    · rw [hv] at hsel; exact hsel
    · rw [hv] at hsel hlist
      simp only at hsel hlist ⊢
      obtain ⟨h1, -, h3, -, -⟩ := evict_frame_fields s1 victim
      intro h hh
      have hh1 : s1.clock_hand = some h := by rw [← h3]; exact hh
      have hm := hsel h hh1
      show h ∈ (evict_frame s1 victim).frame_list ++ [victim]
      rw [h1]
      by_cases e : h = victim
      · simp [e]
      · exact List.mem_append_left _ ((List.mem_erase_of_ne e).2 hm)
  | some kpage =>
    cases malloc with
    | none => simpa [frame_alloc] using hok
    | some f =>
      simp only [frame_alloc]
      cases hc : s.clock_hand with
      | none =>
        intro h hh
        simp only [hc, Option.mem_def] at hh
        show h ∈ s.frame_list ++ [f]
        exact List.mem_of_mem_head? hh
      | some h0 =>
        intro h hh
        simp only [hc, Option.mem_def] at hh
        show h ∈ s.frame_list ++ [f]
        exact List.mem_append_left _ (hok h (by rw [Option.mem_def, hc]; exact hh))

set_option maxRecDepth 20000 in
/-- Claim C21 at its failing input: the empty system has a valid hand, and so has the
state after its first `frame_alloc`, which links frame 10 and puts the hand on it.
`frame_free` of that frame unlinks it and leaves the hand where it was: the hand is set
and designates a frame that is no longer in the registry.  `evict_frame` of that frame
does the same, and so does a `sup_page_load` whose mapping step fails, through the
`frame_free` of its failure path. -/
theorem frame_free_leaves_hand_dangling :
    HandOK sample_empty ∧
    (frame_alloc sample_empty 1 40960 (some 40960) (some 10)).2 = some 10 ∧
    HandOK sample_first_frame ∧
    sample_first_frame.frame_list = [10] ∧
    sample_first_frame.clock_hand = some 10 ∧
    (frame_free sample_first_frame 10).clock_hand = some 10 ∧
    (frame_free sample_first_frame 10).frame_list = [] ∧
    ¬ HandOK (frame_free sample_first_frame 10) ∧
    ¬ HandOK (evict_frame sample_first_frame 10) ∧
    HandOK sample_installed ∧
    (sup_page_load sample_installed 1 1 0 (some 40960) (some 10) false).2 = false ∧
    ¬ HandOK (sup_page_load sample_installed 1 1 0 (some 40960) (some 10) false).1 := by
  decide

/-! ## Allocation with the hand on a freed frame -/

set_option maxRecDepth 20000 in
/-- Claim C8 at its failing input: in `sample_stale_hand_pinned` the one registered
frame is pinned and the hand is on frame 20, freed by the failure path of an earlier
load.  With no free page `frame_alloc` does not return `NULL`: it returns frame 20,
which it links, and the eviction it ran has cleared the mapping of user page `10 *
PGSIZE`, the page of the pinned frame. -/
theorem frame_alloc_all_pinned_returns_freed_frame :
    sample_stale_hand_pinned.frame_list = [40] ∧
    (∀ f ∈ sample_stale_hand_pinned.frame_list,
      (sample_stale_hand_pinned.frames f).pinned = true) ∧
    sample_stale_hand_pinned.clock_hand = some 20 ∧
    (frame_alloc sample_stale_hand_pinned 1 122880 none none).2 = some 20 ∧
    (frame_alloc sample_stale_hand_pinned 1 122880 none none).2 ≠ none ∧
    20 ∉ sample_stale_hand_pinned.frame_list ∧
    20 ∈ (frame_alloc sample_stale_hand_pinned 1 122880 none none).1.frame_list ∧
    (sample_stale_hand_pinned.frames 40).uaddr = 40960 ∧
    (sample_stale_hand_pinned.pagedir (1, 40960)).present = true ∧
    ((frame_alloc sample_stale_hand_pinned 1 122880 none none).1.pagedir (1, 40960)).present
      = false := by
  decide

end OShw4
